import Mathlib

/-! anthropic-gateway: the request proxying engine

A shallow embedding of the Go sources under `internal/` and the properties of
the specification that they satisfy.

Conventions of the embedding

* A Go `string` or `[]byte` is a `GoString`, the list of its Unicode scalar
  values: the text is taken to be well-formed UTF-8.
* A Go `map[string][]string` (`http.Header`) is an association list with one
  entry per key; the order of the entries is the order in which `range`
  visits the map.
* Functions of the Go standard library (`strings`, `net/textproto`,
  `net/http`, `encoding/json`) are written out next to the code that calls
  them, after their documented behaviour. Two parts of the library are
  parameters: `net/url` (`URLLib`) and the conversion of JSON numbers through
  `float64` (`Float64Conv`).
-/

namespace Gateway

/-- A Go string: the sequence of its Unicode scalar values. -/
abbrev GoString := List Char

/-! ## Package `strings` and `unicode` -/

/-- Go `unicode.IsSpace`: the Latin-1 spaces `\t \n \v \f \r`, space, U+0085,
U+00A0, and the characters of category Z. -/
def isSpace (c : Char) : Bool :=
  let n := c.toNat
  (9 ≤ n && n ≤ 13) || n = 32 || n = 0x85 || n = 0xA0 || n = 0x1680 ||
  (0x2000 ≤ n && n ≤ 0x200A) || n = 0x2028 || n = 0x2029 || n = 0x202F ||
  n = 0x205F || n = 0x3000

/-- Drops the trailing characters that satisfy `p`. -/
def dropTrailing (p : Char → Bool) : GoString → GoString
  | [] => []
  | c :: cs =>
    match dropTrailing p cs with
    | [] => if p c then [] else [c]
    | r => c :: r

/-- Go `strings.TrimSpace`. -/
def TrimSpace (s : GoString) : GoString :=
  dropTrailing isSpace (s.dropWhile isSpace)

/-- A string is blank when `strings.TrimSpace(s) == ""`. -/
def isBlank (s : GoString) : Bool := (TrimSpace s).isEmpty

/-- ASCII upper-case letter. -/
def isUpperASCII (c : Char) : Bool := 65 ≤ c.toNat && c.toNat ≤ 90

/-- ASCII lower-case letter. -/
def isLowerASCII (c : Char) : Bool := 97 ≤ c.toNat && c.toNat ≤ 122

/-- Go `unicode.ToLower` on one rune. ASCII letters are exact; of the runes
outside ASCII only U+0130 and U+212A have an ASCII lower-case form, and they are
mapped to it; every other rune outside ASCII is left in place (its lower-case
form is again outside ASCII). -/
def toLowerRune (c : Char) : Char :=
  if isUpperASCII c then Char.ofNat (c.toNat + 32)
  else if c.toNat = 0x130 then 'i'
  else if c.toNat = 0x212A then 'k'
  else c

/-- Go `strings.ToLower`. -/
def ToLower (s : GoString) : GoString := s.map toLowerRune

/-- One step of Go `strings.EqualFold`: two runes are equal under simple case
folding. Outside ASCII the folding orbits that contain an ASCII letter are
`{K, k, U+212A}` and `{S, s, U+017F}`; other runes outside ASCII are compared by
equality. -/
def foldRune (c : Char) : Char :=
  if isUpperASCII c then Char.ofNat (c.toNat + 32)
  else if c.toNat = 0x212A then 'k'
  else if c.toNat = 0x17F then 's'
  else c

/-- Go `strings.EqualFold`. -/
def EqualFold : GoString → GoString → Bool
  | [], [] => true
  | a :: s, b :: t => foldRune a = foldRune b && EqualFold s t
  | _, _ => false

/-- Go `strings.HasPrefix`. -/
def HasPrefix : GoString → GoString → Bool
  | _, [] => true
  | [], _ :: _ => false
  | a :: s, b :: p => a = b && HasPrefix s p

/-- Go `strings.Contains`. -/
def Contains : GoString → GoString → Bool
  | [], sub => sub.isEmpty
  | c :: cs, sub => HasPrefix (c :: cs) sub || Contains cs sub

/-! ## Package `net/textproto` and `net/http`: header maps -/

/-- Go `textproto.validHeaderFieldByte`: the token characters of RFC 7230. -/
def validHeaderFieldByte (c : Char) : Bool :=
  let n := c.toNat
  isUpperASCII c || isLowerASCII c || (48 ≤ n && n ≤ 57) ||
  n = 33 || n = 35 || n = 36 || n = 37 || n = 38 || n = 39 || n = 42 || n = 43 ||
  n = 45 || n = 46 || n = 94 || n = 95 || n = 96 || n = 124 || n = 126

/-- The loop of `textproto.canonicalMIMEHeaderKey`: upper case for the first
letter and for every letter after a dash, lower case elsewhere. -/
def canonicalLoop : Bool → GoString → GoString
  | _, [] => []
  | upper, c :: cs =>
    let c1 :=
      if upper && isLowerASCII c then Char.ofNat (c.toNat - 32)
      else if !upper && isUpperASCII c then Char.ofNat (c.toNat + 32)
      else c
    c1 :: canonicalLoop (c1.toNat = 45) cs

/-- Go `textproto.CanonicalMIMEHeaderKey` (`http.CanonicalHeaderKey`): a key
that holds a byte outside the token characters is returned unchanged. -/
def CanonicalMIMEHeaderKey (s : GoString) : GoString :=
  if s.all validHeaderFieldByte then canonicalLoop true s else s

/-- Go `http.Header`, a `map[string][]string`. -/
abbrev Header := List (GoString × List GoString)

/-- The map read `h[k]`. -/
def Header.lookup : Header → GoString → Option (List GoString)
  | [], _ => none
  | (k1, vs) :: t, k => if k1 = k then some vs else Header.lookup t k

/-- The map write `h[k] = vs`. -/
def Header.store : Header → GoString → List GoString → Header
  | [], k, vs => [(k, vs)]
  | (k1, vs1) :: t, k, vs =>
    if k1 = k then (k, vs) :: t else (k1, vs1) :: Header.store t k vs

/-- The map deletion `delete(h, k)`. -/
def Header.delete : Header → GoString → Header
  | [], _ => []
  | (k1, vs1) :: t, k =>
    if k1 = k then Header.delete t k else (k1, vs1) :: Header.delete t k

/-- Go `Header.Values`. -/
def Header.Values (h : Header) (key : GoString) : List GoString :=
  (h.lookup (CanonicalMIMEHeaderKey key)).getD []

/-- Go `Header.Get`: the first value of the key, or the empty string. -/
def Header.Get (h : Header) (key : GoString) : GoString :=
  (h.Values key).headD []

/-- Go `Header.Set`. -/
def Header.Set (h : Header) (key value : GoString) : Header :=
  h.store (CanonicalMIMEHeaderKey key) [value]

/-- Go `Header.Add`. -/
def Header.Add (h : Header) (key value : GoString) : Header :=
  let k := CanonicalMIMEHeaderKey key
  h.store k ((h.lookup k).getD [] ++ [value])

/-- Go `Header.Del`. -/
def Header.Del (h : Header) (key : GoString) : Header :=
  h.delete (CanonicalMIMEHeaderKey key)

/-- Two header maps are the same map: every key reads the same. -/
def Header.Same (h1 h2 : Header) : Prop := ∀ k, h1.lookup k = h2.lookup k

/-! ## Package `config`: the data model -/

/-- The constant `config.AuthTypeXAPIKey`. -/
def AuthTypeXAPIKey : GoString := "x-api-key".toList

/-- The constant `config.AuthTypeBearer`. -/
def AuthTypeBearer : GoString := "bearer".toList

/-- The struct `config.UpstreamParams`. -/
structure UpstreamParams where
  Model : GoString
  APIBase : GoString
  APIKey : GoString
  AuthType : GoString
deriving DecidableEq, Repr

/-- The struct `config.ModelRoute`. -/
structure ModelRoute where
  ModelName : GoString
  Params : UpstreamParams
deriving DecidableEq, Repr

/-! ## Package `adapter`: credentials -/

/-- The method `AnthropicCompatibleAdapter.ApplyAuthHeaders`. -/
def ApplyAuthHeaders (headers : Header) (params : UpstreamParams) : Header :=
  let h1 := headers.Del "Authorization".toList
  let h2 := h1.Del "x-api-key".toList
  if params.AuthType = AuthTypeBearer then
    h2.Set "Authorization".toList ("Bearer ".toList ++ params.APIKey)
  else
    h2.Set "x-api-key".toList params.APIKey

/-! ## Package `gateway`: the header filter -/

/-- The function `isHopByHopHeader`. -/
def isHopByHopHeader (key : GoString) : Bool :=
  let k := ToLower key
  k = "connection".toList || k = "proxy-connection".toList || k = "keep-alive".toList ||
  k = "proxy-authenticate".toList || k = "proxy-authorization".toList || k = "te".toList ||
  k = "trailer".toList || k = "transfer-encoding".toList || k = "upgrade".toList

/-- The test of `copyRequestHeaders` for a credential header name. -/
def isCredentialHeader (k : GoString) : Bool :=
  EqualFold k "Authorization".toList || EqualFold k "x-api-key".toList

/-- The inner loop `for _, v := range values { dst.Add(k, v) }`. -/
def addValues (dst : Header) (k : GoString) : List GoString → Header
  | [] => dst
  | v :: vs => addValues (dst.Add k v) k vs

/-- The function `copyRequestHeaders`; `src` is visited in list order. -/
def copyRequestHeaders (dst : Header) : Header → Header
  | [] => dst
  | (k, values) :: rest =>
    if isHopByHopHeader k then copyRequestHeaders dst rest
    else if isCredentialHeader k then copyRequestHeaders dst rest
    else copyRequestHeaders (addValues dst k values) rest

/-- The function `copyResponseHeaders`; `src` is visited in list order. -/
def copyResponseHeaders (dst : Header) : Header → Header
  | [] => dst
  | (k, values) :: rest =>
    if isHopByHopHeader k then copyResponseHeaders dst rest
    else if EqualFold k "Content-Length".toList then copyResponseHeaders dst rest
    else copyResponseHeaders (addValues dst k values) rest

/-- The function `isEventStream`. -/
def isEventStream (headers : Header) : Bool :=
  let contentType := ToLower (headers.Get "Content-Type".toList)
  Contains contentType "text/event-stream".toList

/-- The keys of a header map. -/
def Header.keys (h : Header) : List GoString := h.map Prod.fst

/-- A header map as the HTTP server hands it to a handler: one entry per key,
and every key that is not a credential header name is in canonical form. -/
def Header.Inbound (h : Header) : Prop :=
  h.keys.Nodup ∧ ∀ k ∈ h.keys, isCredentialHeader k = false → CanonicalMIMEHeaderKey k = k

/-! ## Package `encoding/json`

`json.Unmarshal` first checks that the whole input is one well-formed JSON
document and then stores it into the target; `json.Marshal` writes the compact
form with HTML-safe string escaping. A document is parsed to a `JValue` tree;
the decoders for the three targets the gateway uses (`map[string]any`,
`Envelope`, and the encoders for them) work on that tree.

A JSON number stored into an `any` becomes a `float64`. Binary floating point
is not part of the embedding: the conversion is the parameter `f64`, which sends
a number literal to the literal that `json.Marshal` writes for the `float64` it
converts to (`strconv.ParseFloat` followed by the encoder's `FormatFloat`), or
to `none` when the literal is out of range. A decoded `float64` is represented
by that literal. -/

/-- A JSON document. `num` holds the literal as written, `str` the decoded
string, `obj` the members in document order. -/
inductive JValue where
  | null
  | bool (b : Bool)
  | num (lit : GoString)
  | str (s : GoString)
  | arr (xs : List JValue)
  | obj (ms : List (GoString × JValue))

instance : Inhabited JValue := ⟨JValue.null⟩

/-- The conversion of number literals through `float64`. -/
abbrev Float64Conv := GoString → Option GoString

/-- The scanner's `isSpace`. -/
def isJSONSpace (c : Char) : Bool :=
  c.toNat = 32 || c.toNat = 9 || c.toNat = 13 || c.toNat = 10

/-- Skips JSON white space. -/
def skipSpace (s : GoString) : GoString := s.dropWhile isJSONSpace

/-- ASCII digit. -/
def isDigit (c : Char) : Bool := 48 ≤ c.toNat && c.toNat ≤ 57

/-- The characters that can occur in a JSON number. -/
def isNumberChar (c : Char) : Bool :=
  isDigit c || c = '-' || c = '+' || c = '.' || c = 'e' || c = 'E'

/-- The exponent part of a number and nothing after it. -/
def validExp : GoString → Bool
  | [] => true
  | c :: r =>
    if c = 'e' || c = 'E' then
      match r with
      | [] => false
      | s :: t =>
        if s = '+' || s = '-' then !t.isEmpty && t.all isDigit
        else isDigit s && t.all isDigit
    else false

/-- The fraction and exponent parts of a number and nothing after them. -/
def validFrac : GoString → Bool
  | [] => true
  | c :: r =>
    if c = '.' then
      match r with
      | [] => false
      | d :: t => isDigit d && validExp (t.dropWhile isDigit)
    else validExp (c :: r)

/-- A number without its sign. -/
def validInt : GoString → Bool
  | [] => false
  | c :: r =>
    if c = '0' then validFrac r
    else if isDigit c then validFrac (r.dropWhile isDigit)
    else false

/-- The JSON number grammar `-?(0|[1-9][0-9]*)(\.[0-9]+)?([eE][+-]?[0-9]+)?`. -/
def validNumber : GoString → Bool
  | [] => false
  | c :: r => if c = '-' then validInt r else validInt (c :: r)

/-- The value of a hexadecimal digit. -/
def hexVal (c : Char) : Option Nat :=
  let n := c.toNat
  if 48 ≤ n && n ≤ 57 then some (n - 48)
  else if 97 ≤ n && n ≤ 102 then some (n - 87)
  else if 65 ≤ n && n ≤ 70 then some (n - 55)
  else none

/-- The character a one-letter escape stands for. -/
def unescapeChar (e : Char) : Option Char :=
  if e = '"' then some '"'
  else if e = '\\' then some '\\'
  else if e = '/' then some '/'
  else if e = 'b' then some (Char.ofNat 8)
  else if e = 'f' then some (Char.ofNat 12)
  else if e = 'n' then some '\n'
  else if e = 'r' then some '\r'
  else if e = 't' then some '\t'
  else none

/-- Puts a decoded character in front of the decoded rest of a string. -/
def consChar (c : Char) (p : Option (GoString × GoString)) : Option (GoString × GoString) :=
  p.map (fun q => (c :: q.1, q.2))

/-- The Unicode replacement character U+FFFD. -/
def replacementChar : Char := Char.ofNat 0xFFFD

/-- Where the reader of a string literal stands: in plain text, after a
backslash, or inside a `\u` escape with `count` hexadecimal digits read that
have the value `acc`. -/
inductive StringMode where
  | text
  | escape
  | hex (count acc : Nat)

/-- Writes U+FFFD for a pending surrogate escape that found no partner. -/
def flushPending (pending : Option Nat) (p : Option (GoString × GoString)) :
    Option (GoString × GoString) :=
  match pending with
  | some _ => consChar replacementChar p
  | none => p

/-- Reads a string literal after its opening quote, one character at a time
(the scanner's string states followed by `unquote`): returns the decoded string
and the input after the closing quote. `pending` is a `\u` escape of a high
surrogate that has just been read: followed at once by a `\u` escape of a low
surrogate it makes one character with it; any other surrogate escape decodes
to U+FFFD. -/
def scanString : StringMode → Option Nat → GoString → Option (GoString × GoString)
  | _, _, [] => none
  | StringMode.text, pending, c :: r =>
    if c = '"' then flushPending pending (some ([], r))
    else if c = '\\' then scanString StringMode.escape pending r
    else if c.toNat < 32 then none
    else flushPending pending (consChar c (scanString StringMode.text none r))
  | StringMode.escape, pending, e :: r =>
    if e = 'u' then scanString (StringMode.hex 0 0) pending r
    else
      match unescapeChar e with
      | some ch => flushPending pending (consChar ch (scanString StringMode.text none r))
      | none => none
  | StringMode.hex count acc, pending, h :: r =>
    match hexVal h with
    | none => none
    | some d =>
      if count < 3 then scanString (StringMode.hex (count + 1) (acc * 16 + d)) pending r
      else
        let n := acc * 16 + d
        let alone :=
          if 0xD800 ≤ n && n < 0xDC00 then scanString StringMode.text (some n) r
          else if 0xDC00 ≤ n && n < 0xE000 then
            consChar replacementChar (scanString StringMode.text none r)
          else consChar (Char.ofNat n) (scanString StringMode.text none r)
        match pending with
        | none => alone
        | some hi =>
          if 0xDC00 ≤ n && n < 0xE000 then
            consChar (Char.ofNat ((hi - 0xD800) * 1024 + (n - 0xDC00) + 0x10000))
              (scanString StringMode.text none r)
          else consChar replacementChar alone

/-- Reads a string literal after its opening quote. -/
def parseString (s : GoString) : Option (GoString × GoString) :=
  scanString StringMode.text none s

/-- Removes the prefix `p` from `s`, if `s` starts with it. -/
def dropPrefix : GoString → GoString → Option GoString
  | [], s => some s
  | _ :: _, [] => none
  | a :: p, b :: s => if a = b then dropPrefix p s else none

/-- The scanner's `maxNestingDepth`. -/
def maxNestingDepth : Nat := 10000

mutual
/-- Reads one JSON value at nesting depth `depth`; returns the value and the
input after it. The first argument bounds the number of nested calls. -/
def parseValue : Nat → Nat → GoString → Option (JValue × GoString)
  | 0, _, _ => none
  | fuel + 1, depth, s =>
    match skipSpace s with
    | [] => none
    | c :: r =>
      if c = '{' then
        if depth < maxNestingDepth then
          match skipSpace r with
          | [] => none
          | c2 :: r2 =>
            if c2 = '}' then some (JValue.obj [], r2)
            else (parseMembers fuel (depth + 1) (c2 :: r2)).map (fun p => (JValue.obj p.1, p.2))
        else none
      else if c = '[' then
        if depth < maxNestingDepth then
          match skipSpace r with
          | [] => none
          | c2 :: r2 =>
            if c2 = ']' then some (JValue.arr [], r2)
            else (parseElements fuel (depth + 1) (c2 :: r2)).map (fun p => (JValue.arr p.1, p.2))
        else none
      else if c = '"' then (parseString r).map (fun p => (JValue.str p.1, p.2))
      else if c = 't' then (dropPrefix "rue".toList r).map (fun r2 => (JValue.bool true, r2))
      else if c = 'f' then (dropPrefix "alse".toList r).map (fun r2 => (JValue.bool false, r2))
      else if c = 'n' then (dropPrefix "ull".toList r).map (fun r2 => (JValue.null, r2))
      else if c = '-' || isDigit c then
        if validNumber ((c :: r).takeWhile isNumberChar) then
          some (JValue.num ((c :: r).takeWhile isNumberChar), (c :: r).dropWhile isNumberChar)
        else none
      else none
/-- Reads the elements of a non-empty array up to and including `]`. -/
def parseElements : Nat → Nat → GoString → Option (List JValue × GoString)
  | 0, _, _ => none
  | fuel + 1, depth, s =>
    match parseValue fuel depth s with
    | none => none
    | some (v, r) =>
      match skipSpace r with
      | [] => none
      | c :: r2 =>
        if c = ',' then (parseElements fuel depth r2).map (fun p => (v :: p.1, p.2))
        else if c = ']' then some ([v], r2)
        else none
/-- Reads the members of a non-empty object up to and including `}`. -/
def parseMembers : Nat → Nat → GoString → Option (List (GoString × JValue) × GoString)
  | 0, _, _ => none
  | fuel + 1, depth, s =>
    match skipSpace s with
    | [] => none
    | c :: r =>
      if c = '"' then
        match parseString r with
        | none => none
        | some (k, r1) =>
          match skipSpace r1 with
          | [] => none
          | c1 :: r2 =>
            if c1 = ':' then
              match parseValue fuel depth r2 with
              | none => none
              | some (v, r3) =>
                match skipSpace r3 with
                | [] => none
                | c3 :: r4 =>
                  if c3 = ',' then
                    (parseMembers fuel depth r4).map (fun p => ((k, v) :: p.1, p.2))
                  else if c3 = '}' then some ([(k, v)], r4)
                  else none
            else none
      else none
end

/-- The validity check of `json.Unmarshal` together with the reading of the
document: one value, white space around it, nothing else. Two nested calls
read at least one character, so `2 * length + 2` calls are enough for every
input. -/
def parseJSON (s : GoString) : Option JValue :=
  match parseValue (2 * s.length + 2) 0 s with
  | none => none
  | some (v, r) => if (skipSpace r).isEmpty then some v else none

/-- The lower-case hexadecimal digit of a number below sixteen. -/
def hexDigit (n : Nat) : Char :=
  if n < 10 then Char.ofNat (48 + n) else Char.ofNat (87 + n)

/-- The encoder's escaping of one character (`appendString` with HTML
escaping on). -/
def escapeChar (c : Char) : GoString :=
  let n := c.toNat
  if c = '"' then ['\\', '"']
  else if c = '\\' then ['\\', '\\']
  else if n = 8 then ['\\', 'b']
  else if n = 12 then ['\\', 'f']
  else if n = 10 then ['\\', 'n']
  else if n = 13 then ['\\', 'r']
  else if n = 9 then ['\\', 't']
  else if n < 32 || c = '<' || c = '>' || c = '&' then
    ['\\', 'u', '0', '0', hexDigit (n / 16), hexDigit (n % 16)]
  else if n = 0x2028 then "\\u2028".toList
  else if n = 0x2029 then "\\u2029".toList
  else [c]

/-- The escaped characters of a string, without the quotes. -/
def escapeString : GoString → GoString
  | [] => []
  | c :: r => escapeChar c ++ escapeString r

/-- The encoder's string literal. -/
def encodeString (s : GoString) : GoString := '"' :: (escapeString s ++ ['"'])

mutual
/-- The compact text `json.Marshal` writes for a document tree. -/
def encodeValue : JValue → GoString
  | JValue.null => "null".toList
  | JValue.bool b => if b then "true".toList else "false".toList
  | JValue.num lit => lit
  | JValue.str s => encodeString s
  | JValue.arr xs => '[' :: (encodeElements xs ++ [']'])
  | JValue.obj ms => '{' :: (encodeMembers ms ++ ['}'])
/-- The elements of an array, separated by commas. -/
def encodeElements : List JValue → GoString
  | [] => []
  | v :: r =>
    match r with
    | [] => encodeValue v
    | _ :: _ => encodeValue v ++ ',' :: encodeElements r
/-- The members of an object, separated by commas. -/
def encodeMembers : List (GoString × JValue) → GoString
  | [] => []
  | (k, v) :: r =>
    match r with
    | [] => encodeString k ++ ':' :: encodeValue v
    | _ :: _ => encodeString k ++ ':' :: (encodeValue v ++ ',' :: encodeMembers r)
end

/-- Go string comparison `a < b` (byte order, which on well-formed UTF-8 is the
order of the scalar values). -/
def strLess : GoString → GoString → Bool
  | [], [] => false
  | [], _ :: _ => true
  | _ :: _, [] => false
  | a :: s, b :: t => a.toNat < b.toNat || (a = b && strLess s t)

/-- A Go `map[string]any`: its entries in increasing key order, which is the
order in which `json.Marshal` writes them. A nil map reads as the empty map. -/
abbrev JMap := List (GoString × JValue)

/-- The map read `m[k]`. -/
def JMap.get : JMap → GoString → Option JValue
  | [], _ => none
  | (k1, v1) :: t, k => if k1 = k then some v1 else JMap.get t k

/-- The map write `m[k] = v`. -/
def JMap.insert : JMap → GoString → JValue → JMap
  | [], k, v => [(k, v)]
  | (k1, v1) :: t, k, v =>
    if k = k1 then (k, v) :: t
    else if strLess k k1 then (k, v) :: (k1, v1) :: t
    else (k1, v1) :: JMap.insert t k v

mutual
/-- Stores a document into an `any`: numbers become `float64`, arrays
`[]any`, objects `map[string]any` (a repeated key keeps its last value).
`none` is a decoding error. -/
def toInterface (f64 : Float64Conv) : JValue → Option JValue
  | JValue.null => some JValue.null
  | JValue.bool b => some (JValue.bool b)
  | JValue.num lit => (f64 lit).map JValue.num
  | JValue.str s => some (JValue.str s)
  | JValue.arr xs => (toInterfaceList f64 xs).map JValue.arr
  | JValue.obj ms => (toInterfaceMap f64 ms []).map JValue.obj
/-- The elements of an array stored into a `[]any`. -/
def toInterfaceList (f64 : Float64Conv) : List JValue → Option (List JValue)
  | [] => some []
  | v :: r =>
    match toInterface f64 v, toInterfaceList f64 r with
    | some a, some b => some (a :: b)
    | _, _ => none
/-- The members of an object stored one after the other into a map. -/
def toInterfaceMap (f64 : Float64Conv) : List (GoString × JValue) → JMap → Option JMap
  | [], acc => some acc
  | (k, v) :: r, acc =>
    match toInterface f64 v with
    | some a => toInterfaceMap f64 r (JMap.insert acc k a)
    | none => none
end

/-- Go `json.Unmarshal(body, &payload)` for a nil `payload map[string]any`:
`none` is an error; the document `null` leaves the map nil; a document that is
not an object is an error. -/
def unmarshalMap (f64 : Float64Conv) (body : GoString) : Option JMap :=
  match parseJSON body with
  | none => none
  | some JValue.null => some []
  | some (JValue.obj ms) => toInterfaceMap f64 ms []
  | some _ => none

/-- Go `json.Marshal(payload)` for a `map[string]any` that `json.Unmarshal`
filled: it has no value the encoder rejects, so there is no error. -/
def marshalMap (payload : JMap) : Option GoString :=
  some (encodeValue (JValue.obj payload))

/-! ## Package `apierrors`: the canonical error envelope -/

/-- The struct `apierrors.Inner`. -/
structure Inner where
  Type_ : GoString
  Message : GoString
deriving DecidableEq

/-- The struct `apierrors.Envelope`. -/
structure Envelope where
  Type_ : GoString
  Error : Inner
  RequestID : GoString
deriving DecidableEq

/-- The document `json.Marshal` writes for an `Envelope`: the fields in
declaration order under their tags, `request_id` left out when empty. -/
def Envelope.toJSON (e : Envelope) : JValue :=
  JValue.obj
    ([("type".toList, JValue.str e.Type_),
      ("error".toList,
        JValue.obj [("type".toList, JValue.str e.Error.Type_),
                    ("message".toList, JValue.str e.Error.Message)])]
      ++ (if e.RequestID = [] then [] else [("request_id".toList, JValue.str e.RequestID)]))

/-- Go `json.Marshal(payload)` for an `Envelope`; a struct of strings is always
encoded. -/
def marshalEnvelope (e : Envelope) : Option GoString := some (encodeValue e.toJSON)

/-- The decoder's choice of a struct field for an object key: the field whose
name is the key, else the first field whose name equals it under case
folding. -/
def findField (names : List GoString) (key : GoString) : Option GoString :=
  match names.find? (fun n => n = key) with
  | some n => some n
  | none => names.find? (fun n => EqualFold n key)

/-- Stores a value into a Go `string` field: a string is stored, `null` leaves
the field as it is, anything else is a type error (`none`). -/
def storeString (cur : GoString) : JValue → Option GoString
  | JValue.str s => some s
  | JValue.null => some cur
  | _ => none

/-- Stores the members of an object into an `Inner`, one after the other. -/
def storeInner : List (GoString × JValue) → Inner → Option Inner
  | [], cur => some cur
  | (k, v) :: r, cur =>
    match findField ["type".toList, "message".toList] k with
    | none => storeInner r cur
    | some f =>
      if f = "type".toList then
        match storeString cur.Type_ v with
        | some s => storeInner r { cur with Type_ := s }
        | none => none
      else
        match storeString cur.Message v with
        | some s => storeInner r { cur with Message := s }
        | none => none

/-- Stores the members of an object into an `Envelope`, one after the other. -/
def storeEnvelope : List (GoString × JValue) → Envelope → Option Envelope
  | [], cur => some cur
  | (k, v) :: r, cur =>
    match findField ["type".toList, "error".toList, "request_id".toList] k with
    | none => storeEnvelope r cur
    | some f =>
      if f = "type".toList then
        match storeString cur.Type_ v with
        | some s => storeEnvelope r { cur with Type_ := s }
        | none => none
      else if f = "error".toList then
        match v with
        | JValue.obj ms =>
          match storeInner ms cur.Error with
          | some i => storeEnvelope r { cur with Error := i }
          | none => none
        | JValue.null => storeEnvelope r cur
        | _ => none
      else
        match storeString cur.RequestID v with
        | some s => storeEnvelope r { cur with RequestID := s }
        | none => none

/-- Go `json.Unmarshal(body, &payload)` for a zero `payload Envelope`; `none`
is an error. -/
def unmarshalEnvelope (body : GoString) : Option Envelope :=
  match parseJSON body with
  | none => none
  | some JValue.null => some ⟨[], ⟨[], []⟩, []⟩
  | some (JValue.obj ms) => storeEnvelope ms ⟨[], ⟨[], []⟩, []⟩
  | some _ => none

/-- The value `payload` that `apierrors.Marshal` hands to `json.Marshal`. -/
def MarshalPayload (errorType message requestID : GoString) : Envelope :=
  let message := if TrimSpace message = [] then "request failed".toList else message
  { Type_ := "error".toList,
    Error := { Type_ := errorType, Message := message },
    RequestID := requestID }

/-- The function `apierrors.Marshal`. -/
def Marshal (errorType message requestID : GoString) : GoString :=
  match marshalEnvelope (MarshalPayload errorType message requestID) with
  | some body => body
  | none =>
    ("\x7b\"type\":\"error\",\"error\":\x7b\"type\":\"api_error\"," ++
      "\"message\":\"failed to marshal error\"\x7d\x7d").toList

/-- The function `apierrors.IsAnthropicErrorPayload`. -/
def IsAnthropicErrorPayload (body : GoString) : Bool :=
  if body.length = 0 then false
  else
    match unmarshalEnvelope body with
    | none => false
    | some payload =>
      if payload.Type_ ≠ "error".toList then false
      else if TrimSpace payload.Error.Type_ = [] || TrimSpace payload.Error.Message = [] then false
      else true

/-! ## Package `adapter`: the error normalizer -/

/-- Go `http.StatusText`. -/
def StatusText (code : Int) : GoString :=
  (match code with
  | 100 => "Continue" | 101 => "Switching Protocols" | 102 => "Processing"
  | 103 => "Early Hints"
  | 200 => "OK" | 201 => "Created" | 202 => "Accepted"
  | 203 => "Non-Authoritative Information" | 204 => "No Content" | 205 => "Reset Content"
  | 206 => "Partial Content" | 207 => "Multi-Status" | 208 => "Already Reported"
  | 226 => "IM Used"
  | 300 => "Multiple Choices" | 301 => "Moved Permanently" | 302 => "Found"
  | 303 => "See Other" | 304 => "Not Modified" | 305 => "Use Proxy"
  | 307 => "Temporary Redirect" | 308 => "Permanent Redirect"
  | 400 => "Bad Request" | 401 => "Unauthorized" | 402 => "Payment Required"
  | 403 => "Forbidden" | 404 => "Not Found" | 405 => "Method Not Allowed"
  | 406 => "Not Acceptable" | 407 => "Proxy Authentication Required"
  | 408 => "Request Timeout" | 409 => "Conflict" | 410 => "Gone"
  | 411 => "Length Required" | 412 => "Precondition Failed"
  | 413 => "Request Entity Too Large" | 414 => "Request URI Too Long"
  | 415 => "Unsupported Media Type" | 416 => "Requested Range Not Satisfiable"
  | 417 => "Expectation Failed" | 418 => "I'm a teapot" | 421 => "Misdirected Request"
  | 422 => "Unprocessable Entity" | 423 => "Locked" | 424 => "Failed Dependency"
  | 425 => "Too Early" | 426 => "Upgrade Required" | 428 => "Precondition Required"
  | 429 => "Too Many Requests" | 431 => "Request Header Fields Too Large"
  | 451 => "Unavailable For Legal Reasons"
  | 500 => "Internal Server Error" | 501 => "Not Implemented" | 502 => "Bad Gateway"
  | 503 => "Service Unavailable" | 504 => "Gateway Timeout"
  | 505 => "HTTP Version Not Supported" | 506 => "Variant Also Negotiates"
  | 507 => "Insufficient Storage" | 508 => "Loop Detected" | 510 => "Not Extended"
  | 511 => "Network Authentication Required"
  | _ => "" : String).toList

/-- The type assertion `x.(string)` on a map read together with the test
`strings.TrimSpace(msg) != ""` of `extractMessage`. -/
def nonBlankString : Option JValue → Option GoString
  | some (JValue.str msg) => if TrimSpace msg ≠ [] then some msg else none
  | _ => none

/-- The function `extractMessage`. -/
def extractMessage (f64 : Float64Conv) (body : GoString) : GoString :=
  let trimmed := TrimSpace body
  if trimmed = [] then []
  else
    match unmarshalMap f64 body with
    | none => trimmed
    | some generic =>
      match nonBlankString (generic.get "message".toList) with
      | some msg => TrimSpace msg
      | none =>
        match generic.get "error".toList with
        | some (JValue.obj errObj) =>
          match nonBlankString (JMap.get errObj "message".toList) with
          | some msg => TrimSpace msg
          | none => trimmed
        | _ => trimmed

/-- The method `AnthropicCompatibleAdapter.NormalizeUpstreamError`. -/
def NormalizeUpstreamError (f64 : Float64Conv) (statusCode : Int) (upstreamBody : GoString)
    (requestID : GoString) : GoString :=
  if IsAnthropicErrorPayload upstreamBody then upstreamBody
  else
    let message := extractMessage f64 upstreamBody
    let message := if message = [] then StatusText statusCode else message
    let errorType :=
      if statusCode ≥ 500 then "api_error".toList else "invalid_request_error".toList
    Marshal errorType message requestID

/-! ## Package `net/url`

`url.Parse` and `URL.String` belong to the Go standard library; the code reads
the fields of the parsed value only. They are parameters of the embedding. -/

/-- The struct `url.URL` (`User` as the pair of user name and optional
password). -/
structure URL where
  Scheme : GoString
  Opaque : GoString
  User : Option (GoString × Option GoString)
  Host : GoString
  Path : GoString
  RawPath : GoString
  OmitHost : Bool
  ForceQuery : Bool
  RawQuery : GoString
  Fragment : GoString
  RawFragment : GoString
deriving DecidableEq

/-- The two functions of `net/url` that the gateway calls. -/
structure URLLib where
  /-- Go `url.Parse`; `none` is an error. -/
  Parse : GoString → Option URL
  /-- Go `URL.String`. -/
  String : URL → GoString

/-! ## Package `config`: validation and lookup -/

/-- The struct `config.Config`; `index` is a `map[string]int`. -/
structure Config where
  Listen : GoString
  ModelList : List ModelRoute
  index : List (GoString × Nat)

/-- The map read `index[k]`. -/
def indexLookup : List (GoString × Nat) → GoString → Option Nat
  | [], _ => none
  | (k1, i) :: t, k => if k1 = k then some i else indexLookup t k

/-- The map write `index[k] = i`. -/
def indexStore : List (GoString × Nat) → GoString → Nat → List (GoString × Nat)
  | [], k, i => [(k, i)]
  | (k1, i1) :: t, k, i => if k1 = k then (k, i) :: t else (k1, i1) :: indexStore t k i

/-- The decimal digits of a number (`%d`), most significant first; the first
argument bounds the number of digits. -/
def decimalDigits : Nat → Nat → GoString
  | 0, _ => []
  | fuel + 1, n =>
    if n < 10 then [Char.ofNat (48 + n)]
    else decimalDigits fuel (n / 10) ++ [Char.ofNat (48 + n % 10)]

/-- The text `model_list[i]` of the error messages of `Validate`. -/
def modelListAt (i : Nat) : GoString :=
  "model_list[".toList ++ decimalDigits (i + 1) i ++ "]".toList

/-- The checks `Validate` makes on one route, given its position and the index
built so far: the error, or the trimmed name and the normalised auth type. -/
def validateRoute (lib : URLLib) (i : Nat) (route : ModelRoute)
    (index : List (GoString × Nat)) : Except GoString (GoString × GoString) :=
  let modelName := TrimSpace route.ModelName
  if modelName = [] then
    Except.error (modelListAt i ++ ".model_name is required".toList)
  else if (indexLookup index modelName).isSome then
    Except.error ("duplicate model_name: ".toList ++ modelName)
  else if TrimSpace route.Params.Model = [] then
    Except.error (modelListAt i ++ ".params.model is required".toList)
  else if TrimSpace route.Params.APIBase = [] then
    Except.error (modelListAt i ++ ".params.api_base is required".toList)
  else
    match lib.Parse route.Params.APIBase with
    | none =>
      Except.error (modelListAt i ++ ".params.api_base is invalid: ".toList ++ route.Params.APIBase)
    | some u =>
      if u.Scheme = [] || u.Host = [] then
        Except.error
          (modelListAt i ++ ".params.api_base is invalid: ".toList ++ route.Params.APIBase)
      else if u.Scheme ≠ "http".toList && u.Scheme ≠ "https".toList then
        Except.error (modelListAt i ++ ".params.api_base must use http/https".toList)
      else if TrimSpace route.Params.APIKey = [] then
        Except.error (modelListAt i ++ ".params.api_key is required".toList)
      else
        let authType := ToLower (TrimSpace route.Params.AuthType)
        if authType = AuthTypeXAPIKey || authType = AuthTypeBearer then
          Except.ok (modelName, authType)
        else
          Except.error
            (modelListAt i ++ ".params.auth_type must be x-api-key or bearer".toList)

/-- The loop of `Validate` from position `i` on: `done` holds the routes
already rewritten, `todo` the routes still to visit. Returns the route list as
the loop leaves it and either the error or the finished index. -/
def validateLoop (lib : URLLib) :
    Nat → List ModelRoute → List ModelRoute → List (GoString × Nat) →
      List ModelRoute × Except GoString (List (GoString × Nat))
  | _, done, [], index => (done, Except.ok index)
  | i, done, route :: todo, index =>
    match validateRoute lib i route index with
    | Except.error e => (done ++ route :: todo, Except.error e)
    | Except.ok (modelName, authType) =>
      validateLoop lib (i + 1)
        (done ++ [{ route with ModelName := modelName,
                               Params := { route.Params with AuthType := authType } }])
        todo (indexStore index modelName i)

/-- The method `Config.Validate`: the config as the call leaves it, and the
error if there is one. -/
def Validate (lib : URLLib) (c : Config) : Config × Option GoString :=
  if c.ModelList.length = 0 then (c, some "model_list is required".toList)
  else
    match validateLoop lib 0 [] c.ModelList [] with
    | (ml, Except.error e) => ({ c with ModelList := ml }, some e)
    | (ml, Except.ok index) => ({ c with ModelList := ml, index := index }, none)

/-- The method `Config.RouteByModel`. The slice read `c.ModelList[idx]` is in
range for every index that `Validate` builds. -/
def RouteByModel (c : Config) (modelName : GoString) : ModelRoute × Bool :=
  match indexLookup c.index (TrimSpace modelName) with
  | none => (⟨[], ⟨[], [], [], []⟩⟩, false)
  | some idx => (c.ModelList.getD idx ⟨[], ⟨[], [], [], []⟩⟩, true)

/-- The configured logical model names, in list order. -/
def Config.names (c : Config) : List GoString := c.ModelList.map (fun r => r.ModelName)

/-- The method `AnthropicCompatibleAdapter.BuildUpstreamURL`; `none` is the
error of `url.Parse`. -/
def BuildUpstreamURL (lib : URLLib) (apiBase upstreamPath rawQuery : GoString) :
    Option GoString :=
  match lib.Parse apiBase with
  | none => none
  | some base =>
    let suffix := '/' :: upstreamPath.dropWhile (fun c => c = '/')
    let base := { base with Path := dropTrailing (fun c => c = '/') base.Path ++ suffix,
                            RawQuery := rawQuery }
    some (lib.String base)

/-! ## Package `gateway`: readers, the response writer and the proxy engine -/

/-- The errors a `Read` can report, as far as the engine tells them apart:
`io.EOF`, `context.Canceled`, `*http.MaxBytesError`, and anything else. -/
inductive ReadError where
  | eof
  | canceled
  | maxBytes
  | other
deriving DecidableEq

/-- An `io.Reader` as the sequence of the results of its `Read` calls, each a
chunk of bytes and possibly an error; after the last listed result every `Read`
reports `io.EOF`. -/
abbrev Reader := List (GoString × Option ReadError)

/-- Go `io.ReadAll`: the bytes read up to the first error, and that error
unless it is `io.EOF`. -/
def ReadAll : Reader → GoString × Option ReadError
  | [] => ([], none)
  | (chunk, none) :: rest => (chunk ++ (ReadAll rest).1, (ReadAll rest).2)
  | (chunk, some ReadError.eof) :: _ => (chunk, none)
  | (chunk, some e) :: _ => (chunk, some e)

/-- What the handler sends through an `http.ResponseWriter` after the header. -/
inductive WriterEvent where
  | write (data : GoString)
  | flush
deriving DecidableEq

/-- An `http.ResponseWriter` as the record of the calls made on it: the header
map, the status line and header as sent by the first `WriteHeader`, and the
writes and flushes in order. With `writeLimit = some n` the first `n` calls of
`Write` succeed and the later ones fail; `flusher` tells whether the writer is
an `http.Flusher`. -/
structure ResponseWriter where
  header : Header
  sent : Option (Int × Header)
  events : List WriterEvent
  writeLimit : Option Nat
  flusher : Bool

/-- Go `ResponseWriter.WriteHeader`: the first call fixes status and header. -/
def ResponseWriter.WriteHeader (w : ResponseWriter) (statusCode : Int) : ResponseWriter :=
  match w.sent with
  | some _ => w
  | none => { w with sent := some (statusCode, w.header) }

/-- Go `ResponseWriter.Write`: sends the header with status 200 if it is not
sent yet; returns the writer and whether the write succeeded. -/
def ResponseWriter.Write (w : ResponseWriter) (data : GoString) : ResponseWriter × Bool :=
  let w1 := w.WriteHeader 200
  match w1.writeLimit with
  | none => ({ w1 with events := w1.events ++ [WriterEvent.write data] }, true)
  | some 0 => (w1, false)
  | some (n + 1) =>
    ({ w1 with events := w1.events ++ [WriterEvent.write data], writeLimit := some n }, true)

/-- Go `Flusher.Flush`. -/
def ResponseWriter.Flush (w : ResponseWriter) : ResponseWriter :=
  let w1 := w.WriteHeader 200
  { w1 with events := w1.events ++ [WriterEvent.flush] }

/-- The bytes of the writes recorded in a list of events. -/
def writtenBytes : List WriterEvent → GoString
  | [] => []
  | WriterEvent.write d :: r => d ++ writtenBytes r
  | WriterEvent.flush :: r => writtenBytes r

/-- The status code sent to the client. -/
def ResponseWriter.status (w : ResponseWriter) : Option Int := w.sent.map Prod.fst

/-- The header sent to the client. -/
def ResponseWriter.sentHeader (w : ResponseWriter) : Header := (w.sent.map Prod.snd).getD []

/-- The body sent to the client. -/
def ResponseWriter.body (w : ResponseWriter) : GoString := writtenBytes w.events

/-- The function `apierrors.Write`. -/
def apiWrite (w : ResponseWriter) (statusCode : Int) (errorType message requestID : GoString) :
    ResponseWriter :=
  let w1 := { w with header := w.header.Set "Content-Type".toList "application/json".toList }
  let w2 := w1.WriteHeader statusCode
  (w2.Write (Marshal errorType message requestID)).1

/-- An inbound `*http.Request`, as far as the engine reads it; `RequestID` is
the value stored in its context under `request_id`, if any. -/
structure Request where
  Method : GoString
  Path : GoString
  RawQuery : GoString
  Header : Header
  Body : Reader
  RequestID : Option GoString

/-- The function `requestIDFromContext`. -/
def requestIDFromContext (r : Request) : GoString := r.RequestID.getD []

/-- The outbound `*http.Request` handed to the HTTP client. -/
structure UpstreamRequest where
  Method : GoString
  URL : GoString
  Header : Header
  Body : GoString

/-- The upstream `*http.Response`. -/
structure UpstreamResponse where
  StatusCode : Int
  Header : Header
  Body : Reader

/-- The errors of `client.Do`, as far as `handleUpstreamFailure` tells them
apart: `context.DeadlineExceeded`, a `net.Error` that timed out, anything
else. -/
inductive TransportError where
  | deadlineExceeded
  | netTimeout
  | other
deriving DecidableEq

/-- What one run of the engine leaves: the response writer, the request handed
to the HTTP client if one was built, and the messages logged at error level. -/
structure Outcome where
  w : ResponseWriter
  upstream : Option UpstreamRequest
  logs : List GoString

/-- Go `http.NewRequestWithContext`: an empty method stands for `GET`; an
invalid method or an unparsable URL is an error (`none`). -/
def NewRequest (lib : URLLib) (method url body : GoString) : Option UpstreamRequest :=
  let method := if method = [] then "GET".toList else method
  if !method.all validHeaderFieldByte then none
  else
    match lib.Parse url with
    | none => none
    | some _ => some { Method := method, URL := url, Header := [], Body := body }

/-- The method `Service.handleUpstreamFailure`. -/
def handleUpstreamFailure (w : ResponseWriter) (err : TransportError) (requestID : GoString) :
    ResponseWriter :=
  if err = TransportError.deadlineExceeded then
    apiWrite w 504 "api_error".toList "upstream timeout".toList requestID
  else if err = TransportError.netTimeout then
    apiWrite w 504 "api_error".toList "upstream timeout".toList requestID
  else
    apiWrite w 502 "api_error".toList "upstream request failed".toList requestID

/-- Go `io.Copy(w, body)`: every chunk read is written; the copy stops at the
first read error or failed write. -/
def ioCopy : Reader → ResponseWriter → ResponseWriter
  | [], w => w
  | (chunk, err) :: rest, w =>
    if chunk.length > 0 then
      match w.Write chunk with
      | (w1, false) => w1
      | (w1, true) => match err with
        | some _ => w1
        | none => ioCopy rest w1
    else
      match err with
      | some _ => w
      | none => ioCopy rest w

/-- The loop of `Service.streamResponse` for a flushing writer. -/
def streamLoop : Reader → ResponseWriter → ResponseWriter × List GoString
  | [], w => (w, [])
  | (chunk, err) :: rest, w =>
    if chunk.length > 0 then
      match w.Write chunk with
      | (w1, false) => (w1, ["failed to write stream chunk".toList])
      | (w1, true) =>
        match err with
        | some ReadError.eof => (w1.Flush, [])
        | some ReadError.canceled => (w1.Flush, [])
        | some _ => (w1.Flush, ["failed to read stream chunk".toList])
        | none => streamLoop rest w1.Flush
    else
      match err with
      | some ReadError.eof => (w, [])
      | some ReadError.canceled => (w, [])
      | some _ => (w, ["failed to read stream chunk".toList])
      | none => streamLoop rest w

/-- The method `Service.streamResponse`: the writer afterwards and the
messages logged. -/
def streamResponse (w : ResponseWriter) (body : Reader) : ResponseWriter × List GoString :=
  if w.flusher then streamLoop body w else (ioCopy body w, [])

/-- Go `strings.TrimPrefix`. -/
def TrimPrefix (s p : GoString) : GoString := (dropPrefix p s).getD s

/-- What `client.Do` returns for an outbound request. -/
abbrev Client := UpstreamRequest → Except TransportError UpstreamResponse

/-- The part of `Service.proxyJSON` after `client.Do` has returned a response:
the response headers are filtered, the response is classified by its content
type and relayed as a stream or read in full and written. -/
def relayResponse (f64 : Float64Conv) (w : ResponseWriter) (resp : UpstreamResponse)
    (requestID : GoString) : ResponseWriter × List GoString :=
  let w := { w with header := copyResponseHeaders w.header resp.Header }
  if isEventStream resp.Header then
    streamResponse (w.WriteHeader resp.StatusCode) resp.Body
  else
    match ReadAll resp.Body with
    | (_, some _) =>
      (apiWrite w 502 "api_error".toList "failed to read upstream response".toList requestID,
        ["failed to read upstream response".toList])
    | (respBody, none) =>
      if resp.StatusCode ≥ 400 then
        let normalized := NormalizeUpstreamError f64 resp.StatusCode respBody requestID
        let w1 := { w with header := w.header.Set "Content-Type".toList "application/json".toList }
        let w2 := w1.WriteHeader resp.StatusCode
        ((w2.Write normalized).1, [])
      else
        (((w.WriteHeader resp.StatusCode).Write respBody).1, [])

/-- The method `Service.proxyJSON`, for a service with configuration `cfg`, the
Anthropic-compatible adapter and an HTTP client that behaves as `client`. -/
def proxyJSON (f64 : Float64Conv) (lib : URLLib) (cfg : Config) (client : Client)
    (w : ResponseWriter) (r : Request) : Outcome :=
  let requestID := requestIDFromContext r
  match ReadAll r.Body with
  | (_, some err) =>
    if err = ReadError.maxBytes then
      ⟨apiWrite w 413 "invalid_request_error".toList "request body too large".toList requestID,
        none, []⟩
    else
      ⟨apiWrite w 400 "invalid_request_error".toList "failed to read request body".toList
        requestID, none, []⟩
  | (body, none) =>
    match unmarshalMap f64 body with
    | none =>
      ⟨apiWrite w 400 "invalid_request_error".toList "invalid JSON payload".toList requestID,
        none, []⟩
    | some payload =>
      match payload.get "model".toList with
      | some (JValue.str requestedModel) =>
        if TrimSpace requestedModel = [] then
          ⟨apiWrite w 400 "invalid_request_error".toList "model is required".toList requestID,
            none, []⟩
        else
          match RouteByModel cfg requestedModel with
          | (_, false) =>
            ⟨apiWrite w 400 "invalid_request_error".toList
              ("unknown model: ".toList ++ requestedModel) requestID, none, []⟩
          | (route, true) =>
            match marshalMap (payload.insert "model".toList (JValue.str route.Params.Model)) with
            | none =>
              ⟨apiWrite w 400 "invalid_request_error".toList
                "failed to marshal request payload".toList requestID, none, []⟩
            | some mutatedBody =>
              let upstreamPath := TrimPrefix r.Path "/anthropic".toList
              match BuildUpstreamURL lib route.Params.APIBase upstreamPath r.RawQuery with
              | none =>
                ⟨apiWrite w 500 "api_error".toList "failed to build upstream request".toList
                  requestID, none, ["failed to build upstream URL".toList]⟩
              | some upstreamURL =>
                match NewRequest lib r.Method upstreamURL mutatedBody with
                | none =>
                  ⟨apiWrite w 500 "api_error".toList "failed to build upstream request".toList
                    requestID, none, ["failed to build upstream request".toList]⟩
                | some upReq =>
                  let h1 := copyRequestHeaders upReq.Header r.Header
                  let h2 := ApplyAuthHeaders h1 route.Params
                  let h3 :=
                    if h2.Get "Content-Type".toList = [] then
                      h2.Set "Content-Type".toList "application/json".toList
                    else h2
                  let upReq := { upReq with Header := h3 }
                  match client upReq with
                  | Except.error err =>
                    ⟨handleUpstreamFailure w err requestID, some upReq,
                      ["upstream request failed".toList]⟩
                  | Except.ok resp =>
                    ⟨(relayResponse f64 w resp requestID).1, some upReq,
                      (relayResponse f64 w resp requestID).2⟩
      | _ =>
        ⟨apiWrite w 400 "invalid_request_error".toList "model is required".toList requestID,
          none, []⟩

/-- The function `writeMethodNotAllowed`. -/
def writeMethodNotAllowed (w : ResponseWriter) (r : Request) (allow : GoString) :
    ResponseWriter :=
  let w1 := { w with header := w.header.Set "Allow".toList allow }
  apiWrite w1 405 "invalid_request_error".toList "method not allowed".toList
    (requestIDFromContext r)

/-- The method `Service.HandleMessages`. -/
def HandleMessages (f64 : Float64Conv) (lib : URLLib) (cfg : Config) (client : Client)
    (w : ResponseWriter) (r : Request) : Outcome :=
  if r.Method ≠ "POST".toList then ⟨writeMethodNotAllowed w r "POST".toList, none, []⟩
  else proxyJSON f64 lib cfg client w r

/-- The method `Service.HandleCountTokens`. -/
def HandleCountTokens (f64 : Float64Conv) (lib : URLLib) (cfg : Config) (client : Client)
    (w : ResponseWriter) (r : Request) : Outcome :=
  if r.Method ≠ "POST".toList then ⟨writeMethodNotAllowed w r "POST".toList, none, []⟩
  else proxyJSON f64 lib cfg client w r

/-- The method `Service.HandleUnsupported`. -/
def HandleUnsupported (w : ResponseWriter) (r : Request) : ResponseWriter :=
  apiWrite w 404 "not_found_error".toList "path is not supported by this gateway".toList
    (requestIDFromContext r)

/-! ## Vocabulary of the properties -/

/-- A response writer as a handler receives it, with the client connected:
nothing is sent yet and the next write succeeds. -/
def ResponseWriter.Fresh (w : ResponseWriter) : Prop :=
  w.sent = none ∧ w.events = [] ∧ w.writeLimit ≠ some 0

/-- The `float64` conversion sends a number literal to a number literal that
converts to itself: `json.Marshal` writes a `float64` as a JSON number that
reads back as the same `float64`. -/
def Float64Conv.Lawful (f64 : Float64Conv) : Prop :=
  ∀ lit c, validNumber lit = true → f64 lit = some c → validNumber c = true ∧ f64 c = some c

/-- The error type `NormalizeUpstreamError` chooses for a status code. -/
def errorTypeFor (statusCode : Int) : GoString :=
  if statusCode < 500 then "invalid_request_error".toList else "api_error".toList

/-- The message precedence of the specification's error normalizer, with the
strings taken from the body trimmed: the top-level `message` string when it is
not blank, else the `error.message` string when it is not blank, else the
trimmed body text when it is not empty, else the reason phrase of the status
code. -/
def specMessage (f64 : Float64Conv) (statusCode : Int) (body : GoString) : GoString :=
  match (unmarshalMap f64 body).bind (fun m => nonBlankString (m.get "message".toList)) with
  | some msg => TrimSpace msg
  | none =>
    match (unmarshalMap f64 body).bind (fun m =>
        match m.get "error".toList with
        | some (JValue.obj errObj) => nonBlankString (JMap.get errObj "message".toList)
        | _ => none) with
    | some msg => TrimSpace msg
    | none => if TrimSpace body ≠ [] then TrimSpace body else StatusText statusCode

/-! ## Sample data for the concrete instances -/

/-- A `float64` conversion for the samples: it agrees with Go on the integer
literals of at most fifteen digits (they convert exactly and are written back
unchanged) and treats every other literal as an error. -/
def sampleFloat64 : Float64Conv :=
  fun lit => if lit.length ≤ 15 && lit.all isDigit then some lit else none

/-- A `net/url` for the samples: it agrees with Go on the two addresses
`https://api.example.com` and `https://api.example.com/v1/messages` and treats
every other address as an error. -/
def sampleURLLib : URLLib where
  Parse := fun s =>
    if s = "https://api.example.com".toList then
      some ⟨"https".toList, [], none, "api.example.com".toList, [], [], false, false, [], [], []⟩
    else if s = "https://api.example.com/v1/messages".toList then
      some ⟨"https".toList, [], none, "api.example.com".toList, "/v1/messages".toList, [],
        false, false, [], [], []⟩
    else none
  String := fun u =>
    u.Scheme ++ "://".toList ++ u.Host ++ u.Path ++
      (if u.RawQuery = [] then [] else '?' :: u.RawQuery)

/-- The configuration of the repository's server tests before validation: one
route `sonnet` in bearer mode. -/
def sampleConfig : Config :=
  { Listen := ":0".toList,
    ModelList := [⟨"sonnet".toList,
      ⟨"glm-4.7".toList, "https://api.example.com".toList, "target-key".toList,
        AuthTypeBearer⟩⟩],
    index := [] }

/-- A response writer on which nothing has been done. -/
def sampleWriter : ResponseWriter :=
  { header := [("X-Request-Id".toList, ["req-1".toList])], sent := none, events := [],
    writeLimit := none, flusher := true }

/-- An inbound request with the given body, read in one piece. -/
def sampleRequest (body : GoString) : Request :=
  { Method := "POST".toList, Path := "/anthropic/v1/messages".toList, RawQuery := [],
    Header := [("Authorization".toList, ["Bearer inbound".toList]),
               ("Content-Type".toList, ["application/json".toList]),
               ("X-Api-Key".toList, ["inbound".toList])],
    Body := [(body, some ReadError.eof)], RequestID := some "req-1".toList }

/-- An HTTP client that answers every request with the given status, a
`text/plain` content type and the given body. -/
def sampleClient (statusCode : Int) (body : GoString) : Client :=
  fun _ => Except.ok
    { StatusCode := statusCode,
      Header := [("Content-Length".toList, ["15".toList]),
                 ("Content-Type".toList, ["text/plain; charset=utf-8".toList])],
      Body := [(body, none), ([], some ReadError.eof)] }

/-! ## Shapes of documents -/

mutual
/-- The nesting depth of a document: the largest number of arrays and objects
open at once. -/
def JValue.height : JValue → Nat
  | JValue.arr xs => heightList xs + 1
  | JValue.obj ms => heightMembers ms + 1
  | _ => 0
/-- The largest nesting depth among the elements of an array. -/
def heightList : List JValue → Nat
  | [] => 0
  | v :: r => max v.height (heightList r)
/-- The largest nesting depth among the members of an object. -/
def heightMembers : List (GoString × JValue) → Nat
  | [] => 0
  | (_, v) :: r => max v.height (heightMembers r)
end

mutual
/-- The number of values in a document, counted with their positions. -/
def JValue.size : JValue → Nat
  | JValue.arr xs => sizeList xs + 1
  | JValue.obj ms => sizeMembers ms + 1
  | _ => 1
/-- The size of the elements of an array. -/
def sizeList : List JValue → Nat
  | [] => 0
  | v :: r => v.size + sizeList r + 1
/-- The size of the members of an object. -/
def sizeMembers : List (GoString × JValue) → Nat
  | [] => 0
  | (_, v) :: r => v.size + sizeMembers r + 1
end

mutual
/-- Every number literal of the document satisfies `P`. -/
def JValue.Numbers (P : GoString → Prop) : JValue → Prop
  | JValue.num lit => P lit
  | JValue.arr xs => numbersList P xs
  | JValue.obj ms => numbersMembers P ms
  | _ => True
/-- Every number literal in the elements satisfies `P`. -/
def numbersList (P : GoString → Prop) : List JValue → Prop
  | [] => True
  | v :: r => v.Numbers P ∧ numbersList P r
/-- Every number literal in the members satisfies `P`. -/
def numbersMembers (P : GoString → Prop) : List (GoString × JValue) → Prop
  | [] => True
  | (_, v) :: r => v.Numbers P ∧ numbersMembers P r
end

/-- The keys of the entries are strictly increasing. -/
def keysIncreasing (ms : List (GoString × JValue)) : Prop :=
  (ms.map Prod.fst).Pairwise (fun a b => strLess a b = true)

mutual
/-- Every object of the document has its members in strictly increasing key
order, as a Go map has when seen through `JMap`. -/
def JValue.MapsSorted : JValue → Prop
  | JValue.arr xs => mapsSortedList xs
  | JValue.obj ms => keysIncreasing ms ∧ mapsSortedMembers ms
  | _ => True
/-- Every object in the elements is sorted. -/
def mapsSortedList : List JValue → Prop
  | [] => True
  | v :: r => v.MapsSorted ∧ mapsSortedList r
/-- Every object in the members is sorted. -/
def mapsSortedMembers : List (GoString × JValue) → Prop
  | [] => True
  | (_, v) :: r => v.MapsSorted ∧ mapsSortedMembers r
end

/-- A number literal as the `float64` conversion returns it. -/
def Float64Conv.Fixes (f64 : Float64Conv) (lit : GoString) : Prop :=
  validNumber lit = true ∧ f64 lit = some lit

/-- A character that can begin a JSON value. -/
def isValueStart (c : Char) : Bool :=
  c = '{' || c = '[' || c = '"' || c = 't' || c = 'f' || c = 'n' || c = '-' || isDigit c

/-- The input after a number does not continue the number. -/
def NumberEnd (rest : GoString) : Prop :=
  ∀ c r, rest = c :: r → isNumberChar c = false

/-- The writes and flushes the specification asks of the streaming path: for
every read result up to and including the first that reports an error, a
non-empty chunk is written and then flushed. -/
def streamedEvents : Reader → List WriterEvent
  | [] => []
  | (chunk, err) :: rest =>
    (if chunk.length > 0 then [WriterEvent.write chunk, WriterEvent.flush] else []) ++
      (match err with
       | some _ => []
       | none => streamedEvents rest)

/-- The concatenation, in order, of the chunks read up to and including the
first read that reports an error. -/
def chunksUpToFirstError : Reader → GoString
  | [] => []
  | (chunk, some _) :: _ => chunk
  | (chunk, none) :: rest => chunk ++ chunksUpToFirstError rest

/-- The map read `h[k]` as a slice: nil when the key is absent. -/
def Header.read (h : Header) (k : GoString) : List GoString := (h.lookup k).getD []

/-- A header map with canonical keys, as `net/http` builds it from the wire:
one entry per key, every key made of token characters and in canonical letter
case. -/
def Header.CanonicalKeys (h : Header) : Prop :=
  h.keys.Nodup ∧
    ∀ k ∈ h.keys, k.all validHeaderFieldByte = true ∧ CanonicalMIMEHeaderKey k = k

/-- The nine connection-management header names of the specification. -/
def hopByHopNames : List GoString :=
  ["connection".toList, "proxy-connection".toList, "keep-alive".toList,
   "proxy-authenticate".toList, "proxy-authorization".toList, "te".toList,
   "trailer".toList, "transfer-encoding".toList, "upgrade".toList]

/-- A header name is, compared case-insensitively (`strings.EqualFold`), one of
the given names. -/
def nameAmong (names : List GoString) (k : GoString) : Bool :=
  names.any (fun n => EqualFold k n)

/-- The names the specification drops on the way to the upstream. -/
def requestDroppedNames : List GoString :=
  hopByHopNames ++ ["authorization".toList, "x-api-key".toList]

/-- The names the specification drops on the way back to the client. -/
def responseDroppedNames : List GoString :=
  hopByHopNames ++ ["content-length".toList]

/-! ## Package `models`: the model list -/

/-- The struct `models.Model`. -/
structure Model where
  ID : GoString
  Type_ : GoString
  DisplayName : GoString
  CreatedAt : GoString
deriving DecidableEq

/-- The struct `models.ListResponse`. -/
structure ListResponse where
  Data : List Model
  FirstID : GoString
  LastID : GoString
  HasMore : Bool
deriving DecidableEq

/-- The loop of `BuildListResponse`: one `append` per route, in list order. -/
def appendModels (created : GoString) : List Model → List ModelRoute → List Model
  | items, [] => items
  | items, route :: rest =>
    appendModels created
      (items ++ [{ ID := route.ModelName, Type_ := "model".toList,
                   DisplayName := route.ModelName, CreatedAt := created }]) rest

/-- The function `models.BuildListResponse`; `created` is the text of
`time.Now().UTC().Format(time.RFC3339)` at the call. -/
def BuildListResponse (created : GoString) (cfg : Config) : ListResponse :=
  let items := appendModels created [] cfg.ModelList
  let resp : ListResponse := { Data := items, FirstID := [], LastID := [], HasMore := false }
  if items.length > 0 then
    { resp with
      FirstID := (items.getD 0 ⟨[], [], [], []⟩).ID,
      LastID := (items.getD (items.length - 1) ⟨[], [], [], []⟩).ID }
  else resp

/-- The method `AnthropicCompatibleAdapter.BuildModelsResponse`. -/
def BuildModelsResponse (created : GoString) (cfg : Config) : ListResponse :=
  BuildListResponse created cfg

/-- Puts a string into an ascending list, after the strings that are smaller. -/
def insertString (x : GoString) : List GoString → List GoString
  | [] => [x]
  | y :: ys => if strLess y x then y :: insertString x ys else x :: y :: ys

/-- Go `sort.Strings`: the ascending arrangement of the strings, which is
unique; it is computed here by insertion. -/
def sortStrings : List GoString → List GoString
  | [] => []
  | x :: xs => insertString x (sortStrings xs)

/-- The method `Config.ModelNames`. -/
def ModelNames (c : Config) : List GoString :=
  sortStrings (c.ModelList.map (fun route => route.ModelName))

/-- A configuration before validation with two routes, `sonnet` then `haiku`. -/
def sampleConfigTwo : Config :=
  { Listen := ":0".toList,
    ModelList :=
      [⟨"sonnet".toList,
        ⟨"glm-4.7".toList, "https://api.example.com".toList, "target-key".toList,
          AuthTypeBearer⟩⟩,
       ⟨"haiku".toList,
        ⟨"glm-4.5".toList, "https://api.example.com".toList, "other-key".toList,
          AuthTypeXAPIKey⟩⟩],
    index := [] }

/-- What the specification promises of a route of a validated configuration:
the name is not empty and carries no surrounding white space, the upstream
model id and the credential are not blank, the base URL parses with a non-empty
host and scheme `http` or `https`, and the auth type is one of the two. -/
def ModelRoute.Valid (lib : URLLib) (r : ModelRoute) : Prop :=
  r.ModelName ≠ [] ∧ TrimSpace r.ModelName = r.ModelName
    ∧ TrimSpace r.Params.Model ≠ [] ∧ TrimSpace r.Params.APIKey ≠ []
    ∧ (∃ u, lib.Parse r.Params.APIBase = some u ∧ u.Host ≠ []
        ∧ (u.Scheme = "http".toList ∨ u.Scheme = "https".toList))
    ∧ (r.Params.AuthType = AuthTypeXAPIKey ∨ r.Params.AuthType = AuthTypeBearer)

/-- Go `url.Parse` and `URL.String` on a wider table of URLs: those of
`sampleURLLib`, the bases `https://a/x` and `https://a/x/`, the rootless
`mailto:x` and `mailto:x/`, which `url.Parse` reads as opaque, and
`ftp://invalid`. `String` is written out for URLs without user information in
which nothing needs escaping. -/
def tableURLLib : URLLib where
  Parse := fun s =>
    if s = "https://a/x".toList then
      some ⟨"https".toList, [], none, "a".toList, "/x".toList, [], false, false, [], [], []⟩
    else if s = "https://a/x/".toList then
      some ⟨"https".toList, [], none, "a".toList, "/x/".toList, [], false, false, [], [], []⟩
    else if s = "mailto:x".toList then
      some ⟨"mailto".toList, "x".toList, none, [], [], [], false, false, [], [], []⟩
    else if s = "mailto:x/".toList then
      some ⟨"mailto".toList, "x/".toList, none, [], [], [], false, false, [], [], []⟩
    else if s = "ftp://invalid".toList then
      some ⟨"ftp".toList, [], none, "invalid".toList, [], [], false, false, [], [], []⟩
    else sampleURLLib.Parse s
  String := fun u =>
    (if u.Scheme = [] then [] else u.Scheme ++ [':']) ++
    (if u.Opaque ≠ [] then u.Opaque
     else
       (if (u.Scheme ≠ [] ∨ u.Host ≠ []) ∧ ¬ (u.OmitHost = true ∧ u.Host = [])
            ∧ (u.Host ≠ [] ∨ u.Path ≠ []) then
          "//".toList ++ u.Host
        else []) ++
       (if u.Path ≠ [] ∧ u.Path.head? ≠ some '/' ∧ u.Host ≠ [] then ['/'] else []) ++
       u.Path) ++
    (if u.ForceQuery = true ∨ u.RawQuery ≠ [] then '?' :: u.RawQuery else []) ++
    (if u.Fragment = [] then [] else '#' :: u.Fragment)

/-- One route with the given name, base URL, credential and auth type. -/
def sampleRoute (name apiBase apiKey authType : GoString) : ModelRoute :=
  ⟨name, ⟨"glm-4.7".toList, apiBase, apiKey, authType⟩⟩

/-- The request body `{"model":"sonnet","pad":"a...a"}` with `n` letters in the
padding. -/
def paddedBody (n : Nat) : GoString :=
  "\x7b\"model\":\"sonnet\",\"pad\":\"".toList ++ List.replicate n 'a' ++ "\"\x7d".toList

/-! ## Package `httpserver`: the handler chain -/

/-- The document `json.Marshal` writes for a `models.Model`. -/
def Model.toJSON (m : Model) : JValue :=
  JValue.obj [("id".toList, JValue.str m.ID), ("type".toList, JValue.str m.Type_),
    ("display_name".toList, JValue.str m.DisplayName),
    ("created_at".toList, JValue.str m.CreatedAt)]

/-- The document `json.Marshal` writes for a `models.ListResponse`: `first_id`
and `last_id` are left out when empty. -/
def ListResponse.toJSON (l : ListResponse) : JValue :=
  JValue.obj
    ([("data".toList, JValue.arr (l.Data.map Model.toJSON))]
      ++ (if l.FirstID = [] then [] else [("first_id".toList, JValue.str l.FirstID)])
      ++ (if l.LastID = [] then [] else [("last_id".toList, JValue.str l.LastID)])
      ++ [("has_more".toList, JValue.bool l.HasMore)])

/-- An `http.HandlerFunc` of the gateway: what it leaves on the response
writer, the request handed upstream if any, and the error-level log. -/
abbrev HandlerFunc := ResponseWriter → Request → Outcome

/-- The method `Service.HandleModels`; `json.NewEncoder(w).Encode` writes the
document and a newline in one `Write` and fails when the write fails. -/
def HandleModels (created : GoString) (cfg : Config) : HandlerFunc := fun w r =>
  if r.Method ≠ "GET".toList then ⟨writeMethodNotAllowed w r "GET".toList, none, []⟩
  else
    let w1 := { w with header := w.header.Set "Content-Type".toList "application/json".toList }
    match w1.Write (encodeValue (BuildModelsResponse created cfg).toJSON ++ ['\n']) with
    | (w2, true) => ⟨w2, none, []⟩
    | (w2, false) =>
      ⟨apiWrite w2 500 "api_error".toList "failed to encode response".toList
          (requestIDFromContext r),
        none, ["failed to encode models response".toList]⟩

/-- The function `healthzHandler`. -/
def healthzHandler : HandlerFunc := fun w r =>
  if r.Method ≠ "GET".toList then ⟨w.WriteHeader 405, none, []⟩
  else
    let w1 := { w with header := w.header.Set "Content-Type".toList "application/json".toList }
    let w2 := w1.WriteHeader 200
    ⟨(w2.Write "\x7b\"status\":\"ok\"\x7d".toList).1, none, []⟩

/-- The digit of `strconv.FormatInt` for a value below 36. -/
def base36Digit (d : Nat) : Char :=
  if d < 10 then Char.ofNat (48 + d) else Char.ofNat (87 + d)

/-- Go `strconv.FormatInt(n, 36)` for a number that is not negative; the first
argument bounds the number of digits. -/
def formatBase36 : Nat → Nat → GoString
  | 0, _ => []
  | fuel + 1, n =>
    if n < 36 then [base36Digit n]
    else formatBase36 fuel (n / 36) ++ [base36Digit (n % 36)]

/-- The function `generateRequestID`, for the value `next` of the request
counter after the increment and the number `rnd` drawn from the random
source. -/
def generateRequestID (next rnd : Nat) : GoString :=
  "req-".toList ++ decimalDigits (next + 1) next ++ "-".toList ++ formatBase36 (rnd + 1) rnd

/-- The middleware `withRequestID`; `generated` is what `generateRequestID`
returns if it is called. -/
def withRequestID (generated : GoString) (next : HandlerFunc) : HandlerFunc := fun w r =>
  let requestID := TrimSpace (r.Header.Get "x-request-id".toList)
  let requestID := if requestID = [] then generated else requestID
  let w := { w with header := w.header.Set "x-request-id".toList requestID }
  next w { r with RequestID := some requestID }

/-- The middleware `withLogging`, as far as the response goes: the handler
writes through a `statusRecorder`, which passes `WriteHeader` and `Write` on
and has a `Flush` method of its own, so the handler always sees a flusher; a
flush reaches the writer below only when that is a flusher, and is taken out of
the record otherwise. The handlers flush after a successful write only, when
the header is sent already. -/
def withLogging (next : HandlerFunc) : HandlerFunc := fun w r =>
  let out := next { w with flusher := true } r
  { out with
    w := { out.w with
           flusher := w.flusher,
           events := if w.flusher then out.w.events
                     else out.w.events.filter (fun e => e ≠ WriterEvent.flush) } }

/-- The handlers that `NewHandler` registers with the request multiplexer. -/
inductive Endpoint where
  | healthz
  | messages
  | countTokens
  | models
  | unsupported
deriving DecidableEq

/-- The handler registered for an endpoint. -/
def Endpoint.handler (f64 : Float64Conv) (lib : URLLib) (cfg : Config) (client : Client)
    (created : GoString) : Endpoint → HandlerFunc
  | Endpoint.healthz => healthzHandler
  | Endpoint.messages => HandleMessages f64 lib cfg client
  | Endpoint.countTokens => HandleCountTokens f64 lib cfg client
  | Endpoint.models => HandleModels created cfg
  | Endpoint.unsupported => fun w r => ⟨HandleUnsupported w r, none, []⟩

/-- The handler chain of `NewHandler` for a request that the multiplexer hands
to the given endpoint: `withRequestID(withLogging(mux))`. -/
def gatewayHandler (f64 : Float64Conv) (lib : URLLib) (cfg : Config) (client : Client)
    (created generated : GoString) (e : Endpoint) : HandlerFunc :=
  withRequestID generated (withLogging (e.handler f64 lib cfg client created))

/-- The correlation id of the specification, read with the trimming that
`withRequestID` applies: the inbound `x-request-id` value without surrounding
white space when that is not empty, the generated id otherwise. -/
def correlationID (generated : GoString) (r : Request) : GoString :=
  if TrimSpace (r.Header.Get "x-request-id".toList) = [] then generated
  else TrimSpace (r.Header.Get "x-request-id".toList)

/-- A header map carries `c` as the first value of `X-Request-Id`. -/
def Header.Leads (h : Header) (c : GoString) : Prop :=
  ∃ rest, h.lookup "X-Request-Id".toList = some (c :: rest)

/-- A response writer carries `c` as the first value of `X-Request-Id`, in its
header map and in the header it has sent, if it has sent one. -/
def ResponseWriter.Carries (w : ResponseWriter) (c : GoString) : Prop :=
  w.header.Leads c ∧ ∀ s h, w.sent = some (s, h) → h.Leads c

/-- An inbound request with the given headers and body, before the handler
chain has put a request id into its context. -/
def sampleInbound (header : Header) (body : GoString) : Request :=
  { Method := "POST".toList, Path := "/anthropic/v1/messages".toList, RawQuery := [],
    Header := header, Body := [(body, some ReadError.eof)], RequestID := none }

/-- A response writer on which nothing has been done, with an empty header
map. -/
def blankWriter : ResponseWriter :=
  { header := [], sent := none, events := [], writeLimit := none, flusher := true }

/-- The body of the response is the upstream's and not an envelope made by the
gateway: the HTTP client returned a response that was streamed, or whose body
was read in full and written as it is because its status is below 400 or it is
a canonical envelope already. -/
def RelaysUpstream (client : Client) (body : GoString) : Prop :=
  ∃ upReq resp, client upReq = Except.ok resp ∧
    (isEventStream resp.Header = true ∨
      ∃ b, ReadAll resp.Body = (b, none)
        ∧ (resp.StatusCode < 400 ∨ IsAnthropicErrorPayload b = true) ∧ body = b)

/-- A `float64` conversion for the samples that also agrees with Go on the
integer literal `12345678901234567890`, which is beyond `float64` precision:
its nearest `float64` is written back by the encoder as
`12345678901234567000`, and so is that of `12345678901234567000` itself. -/
def wideFloat64 : Float64Conv :=
  fun lit =>
    if lit = "12345678901234567890".toList ∨ lit = "12345678901234567000".toList then
      some "12345678901234567000".toList
    else sampleFloat64 lit

/-! ## Header maps: lemmas -/

theorem Header.lookup_store_self (h : Header) (k : GoString) (vs : List GoString) :
    (h.store k vs).lookup k = some vs := by
  induction h with
  | nil => simp [Header.store, Header.lookup]
  | cons e t ih =>
    obtain ⟨k1, vs1⟩ := e
    by_cases hk : k1 = k
    · simp [Header.store, Header.lookup, hk]
    · simp [Header.store, Header.lookup, hk, ih]

theorem Header.lookup_store_ne (h : Header) (k k2 : GoString) (vs : List GoString)
    (hne : k ≠ k2) : (h.store k vs).lookup k2 = h.lookup k2 := by
  induction h with
  | nil => simp [Header.store, Header.lookup, hne]
  | cons e t ih =>
    obtain ⟨k1, vs1⟩ := e
    by_cases hk : k1 = k
    · subst hk
      simp [Header.store, Header.lookup, hne]
    · by_cases hk2 : k1 = k2
      · subst hk2
        simp [Header.store, Header.lookup, hk]
      · simp [Header.store, Header.lookup, hk, hk2, ih]

theorem Header.lookup_delete_self (h : Header) (k : GoString) :
    (h.delete k).lookup k = none := by
  induction h with
  | nil => simp [Header.delete, Header.lookup]
  | cons e t ih =>
    obtain ⟨k1, vs1⟩ := e
    by_cases hk : k1 = k
    · simp [Header.delete, hk, ih]
    · simp [Header.delete, Header.lookup, hk, ih]

theorem Header.lookup_delete_ne (h : Header) (k k2 : GoString) (hne : k ≠ k2) :
    (h.delete k).lookup k2 = h.lookup k2 := by
  induction h with
  | nil => simp [Header.delete, Header.lookup]
  | cons e t ih =>
    obtain ⟨k1, vs1⟩ := e
    by_cases hk : k1 = k
    · subst hk
      simp [Header.delete, Header.lookup, hne, ih]
    · by_cases hk2 : k1 = k2
      · subst hk2
        simp [Header.delete, Header.lookup, hk]
      · simp [Header.delete, Header.lookup, hk, hk2, ih]

theorem canonical_Authorization :
    CanonicalMIMEHeaderKey "Authorization".toList = "Authorization".toList := by
  decide

theorem canonical_x_api_key :
    CanonicalMIMEHeaderKey "x-api-key".toList = "X-Api-Key".toList := by
  decide

/-! ### Trimming -/

theorem dropTrailing_eq_nil_iff (p : Char → Bool) (s : GoString) :
    dropTrailing p s = [] ↔ ∀ c ∈ s, p c = true := by
  induction s with
  | nil => simp [dropTrailing]
  | cons c cs ih =>
    simp only [dropTrailing, List.mem_cons, forall_eq_or_imp]
    cases h : dropTrailing p cs with
    | nil =>
      have hall := ih.mp h
      by_cases hp : p c = true
      · simp only [hp, if_true, true_and]
        exact ⟨fun _ => hall, fun _ => trivial⟩
      · simp [hp]
    | cons d ds =>
      have hne : ¬ ∀ c ∈ cs, p c = true := fun hall => by
        have := ih.mpr hall
        rw [h] at this
        exact List.cons_ne_nil _ _ this
      simp [hne]

theorem dropWhile_eq_nil_iff (p : Char → Bool) (s : GoString) :
    s.dropWhile p = [] ↔ ∀ c ∈ s, p c = true := by
  induction s with
  | nil => simp
  | cons c cs ih =>
    by_cases hp : p c = true
    · simp [List.dropWhile_cons, hp, ih]
    · simp [List.dropWhile_cons, hp]

theorem dropWhile_head_not (p : Char → Bool) (s : GoString) (c : Char) (r : GoString)
    (h : s.dropWhile p = c :: r) : p c = false := by
  induction s with
  | nil => simp at h
  | cons d ds ih =>
    by_cases hp : p d = true
    · rw [List.dropWhile_cons, if_pos hp] at h
      exact ih h
    · rw [List.dropWhile_cons, if_neg hp] at h
      simp only [List.cons.injEq] at h
      rw [← h.1]
      simpa using hp

/-- A string trims to the empty string exactly when all of it is white space. -/
theorem TrimSpace_eq_nil_iff (s : GoString) :
    TrimSpace s = [] ↔ ∀ c ∈ s, isSpace c = true := by
  unfold TrimSpace
  rw [dropTrailing_eq_nil_iff]
  constructor
  · intro h
    cases hd : s.dropWhile isSpace with
    | nil => exact (dropWhile_eq_nil_iff _ _).mp hd
    | cons c r =>
      have h1 := dropWhile_head_not _ _ _ _ hd
      have h2 := h c (by rw [hd]; simp)
      rw [h1] at h2
      exact absurd h2 (by decide)
  · intro h
    rw [(dropWhile_eq_nil_iff _ _).mpr h]
    simp

theorem TrimSpace_cons_ne_nil (c : Char) (s : GoString) (hc : isSpace c = false) :
    TrimSpace (c :: s) ≠ [] := by
  intro h
  have := (TrimSpace_eq_nil_iff _).mp h c (by simp)
  rw [hc] at this
  exact absurd this (by decide)

/-! ### The response writer -/

theorem apiWrite_status (w : ResponseWriter) (hw : w.Fresh) (statusCode : Int)
    (errorType message requestID : GoString) :
    (apiWrite w statusCode errorType message requestID).status = some statusCode := by
  obtain ⟨h1, h2, h3⟩ := hw
  simp only [apiWrite, ResponseWriter.WriteHeader, ResponseWriter.Write, h1,
    ResponseWriter.status]
  split <;> rfl

theorem apiWrite_body (w : ResponseWriter) (hw : w.Fresh) (statusCode : Int)
    (errorType message requestID : GoString) :
    (apiWrite w statusCode errorType message requestID).body
      = Marshal errorType message requestID := by
  obtain ⟨h1, h2, h3⟩ := hw
  simp only [apiWrite, ResponseWriter.WriteHeader, ResponseWriter.Write, h1,
    ResponseWriter.body]
  split
  · simp [h2, writtenBytes]
  · rename_i h; exact absurd h h3
  · simp [h2, writtenBytes]

theorem apiWrite_contentType (w : ResponseWriter) (hw : w.Fresh) (statusCode : Int)
    (errorType message requestID : GoString) :
    (apiWrite w statusCode errorType message requestID).sentHeader.Get "Content-Type".toList
      = "application/json".toList := by
  obtain ⟨h1, h2, h3⟩ := hw
  simp only [apiWrite, ResponseWriter.WriteHeader, ResponseWriter.Write, h1,
    ResponseWriter.sentHeader]
  split <;>
    simp [Header.Get, Header.Values, Header.Set, Header.lookup_store_self]

/-- The encoded envelope `apierrors.Marshal` returns. -/
theorem Marshal_eq (errorType message requestID : GoString) :
    Marshal errorType message requestID
      = encodeValue (MarshalPayload errorType message requestID).toJSON := rfl

/-! ## Claims -/

/-- C1: for every header map and every credential, `ApplyAuthHeaders` in bearer
mode leaves `Authorization` with the single value `"Bearer " + key` and no
`x-api-key` entry, and in x-api-key mode leaves `x-api-key` with the single
value `key` and no `Authorization` entry. -/
theorem ApplyAuthHeaders_sets_one_credential (h : Header) (p : UpstreamParams) :
    ((ApplyAuthHeaders h { p with AuthType := AuthTypeBearer }).Values "Authorization".toList
        = ["Bearer ".toList ++ p.APIKey]
      ∧ (ApplyAuthHeaders h { p with AuthType := AuthTypeBearer }).lookup
          (CanonicalMIMEHeaderKey "x-api-key".toList) = none)
    ∧ ((ApplyAuthHeaders h { p with AuthType := AuthTypeXAPIKey }).Values "x-api-key".toList
        = [p.APIKey]
      ∧ (ApplyAuthHeaders h { p with AuthType := AuthTypeXAPIKey }).lookup
          (CanonicalMIMEHeaderKey "Authorization".toList) = none) := by
  have hne : "Authorization".toList ≠ "X-Api-Key".toList := by decide
  have hx : AuthTypeXAPIKey ≠ AuthTypeBearer := by decide
  refine ⟨⟨?_, ?_⟩, ?_, ?_⟩
  · simp only [ApplyAuthHeaders, Header.Values, Header.Set, if_true]
    rw [Header.lookup_store_self]; rfl
  · simp only [ApplyAuthHeaders, Header.Set, Header.Del, if_true,
      canonical_Authorization, canonical_x_api_key]
    rw [Header.lookup_store_ne _ _ _ _ hne, Header.lookup_delete_self]
  · simp only [ApplyAuthHeaders, Header.Values, Header.Set, if_neg hx]
    rw [Header.lookup_store_self]; rfl
  · simp only [ApplyAuthHeaders, Header.Set, Header.Del, if_neg hx,
      canonical_Authorization, canonical_x_api_key]
    rw [Header.lookup_store_ne _ _ _ _ hne.symm,
      Header.lookup_delete_ne _ _ _ hne.symm, Header.lookup_delete_self]

/-! ### The header filter followed by the credential writer -/

theorem Header.lookup_eq_none_of_not_mem (h : Header) (k : GoString) (hk : k ∉ h.keys) :
    h.lookup k = none := by
  induction h with
  | nil => rfl
  | cons e t ih =>
    obtain ⟨k1, vs1⟩ := e
    simp only [Header.keys, List.map_cons, List.mem_cons, not_or] at hk
    simp only [Header.lookup]
    rw [if_neg (fun h1 => hk.1 h1.symm)]
    exact ih hk.2

theorem lookup_addValues (dst : Header) (k : GoString) (vs : List GoString) (k2 : GoString)
    (hk : CanonicalMIMEHeaderKey k = k) :
    (addValues dst k vs).lookup k2 =
      if k = k2 ∧ vs ≠ [] then some ((dst.lookup k).getD [] ++ vs) else dst.lookup k2 := by
  induction vs generalizing dst with
  | nil => simp [addValues]
  | cons v vs ih =>
    simp only [addValues]
    rw [ih]
    by_cases h : k = k2
    · subst h
      by_cases hvs : vs = []
      · subst hvs
        simp [Header.Add, hk, Header.lookup_store_self]
      · simp [Header.Add, hk, Header.lookup_store_self, hvs]
    · simp [h, Header.Add, hk, Header.lookup_store_ne _ _ _ _ h]

/-- What `copyRequestHeaders` leaves under a key, for a source map with one
entry per key and canonical kept keys. -/
theorem lookup_copyRequestHeaders (src : Header) (hsrc : src.Inbound) (dst : Header)
    (k : GoString) :
    (copyRequestHeaders dst src).lookup k =
      if isHopByHopHeader k || isCredentialHeader k then dst.lookup k
      else match src.lookup k with
        | some (v :: vs) => some ((dst.lookup k).getD [] ++ v :: vs)
        | _ => dst.lookup k := by
  induction src generalizing dst with
  | nil => simp [copyRequestHeaders, Header.lookup]
  | cons e t ih =>
    obtain ⟨k1, vs1⟩ := e
    have ht : Header.Inbound t := by
      refine ⟨(List.nodup_cons.mp hsrc.1).2, fun k hk hc => hsrc.2 k ?_ hc⟩
      simp only [Header.keys, List.map_cons, List.mem_cons]
      exact Or.inr hk
    have hnot : k1 ∉ Header.keys t := (List.nodup_cons.mp hsrc.1).1
    simp only [copyRequestHeaders, Header.lookup]
    by_cases hh : isHopByHopHeader k1 = true
    · rw [if_pos hh, ih ht]
      by_cases hk : k1 = k
      · subst hk; simp [hh]
      · simp [hk]
    · rw [if_neg hh]
      by_cases hc : isCredentialHeader k1 = true
      · rw [if_pos hc, ih ht]
        by_cases hk : k1 = k
        · subst hk; simp [hc]
        · simp [hk]
      · rw [if_neg hc, ih ht]
        have hcan : CanonicalMIMEHeaderKey k1 = k1 :=
          hsrc.2 k1 (by simp [Header.keys]) (by simpa using hc)
        rw [lookup_addValues _ _ _ _ hcan]
        by_cases hk : k1 = k
        · subst hk
          rw [Header.lookup_eq_none_of_not_mem t k1 hnot]
          simp only [Bool.not_eq_true] at hh hc
          simp only [hh, hc, Bool.or_self, Bool.false_eq_true, if_false, if_true, true_and]
          cases vs1 with
          | nil => simp
          | cons v vs => simp
        · simp [hk]

theorem Header.lookup_store (h : Header) (k k2 : GoString) (vs : List GoString) :
    (h.store k vs).lookup k2 = if k = k2 then some vs else h.lookup k2 := by
  by_cases hk : k = k2
  · subst hk; simp [Header.lookup_store_self]
  · simp [hk, Header.lookup_store_ne _ _ _ _ hk]

theorem Header.lookup_delete (h : Header) (k k2 : GoString) :
    (h.delete k).lookup k2 = if k = k2 then none else h.lookup k2 := by
  by_cases hk : k = k2
  · subst hk; simp [Header.lookup_delete_self]
  · simp [hk, Header.lookup_delete_ne _ _ _ hk]

/-- What `ApplyAuthHeaders` leaves under a key depends on the map only through
that key. -/
theorem lookup_ApplyAuthHeaders_congr (h1 h2 : Header) (p : UpstreamParams) (k : GoString)
    (hk : h1.lookup k = h2.lookup k) :
    (ApplyAuthHeaders h1 p).lookup k = (ApplyAuthHeaders h2 p).lookup k := by
  unfold ApplyAuthHeaders
  simp only [Header.Del, Header.Set]
  split <;> simp only [Header.lookup_store, Header.lookup_delete, hk]

/-- C2: two inbound header maps that agree on every header other than
`Authorization` and `x-api-key` (in any letter case) give the same upstream
header map after `copyRequestHeaders` into an empty map and `ApplyAuthHeaders`;
the entries under credential header names are those that `ApplyAuthHeaders`
writes into an empty map, so they depend on the route parameters only. -/
theorem upstream_headers_ignore_inbound_credentials (h1 h2 : Header) (p : UpstreamParams)
    (hw1 : h1.Inbound) (hw2 : h2.Inbound)
    (hagree : ∀ k, isCredentialHeader k = false → h1.lookup k = h2.lookup k) :
    Header.Same (ApplyAuthHeaders (copyRequestHeaders [] h1) p)
        (ApplyAuthHeaders (copyRequestHeaders [] h2) p)
      ∧ ∀ k, isCredentialHeader k = true →
          (ApplyAuthHeaders (copyRequestHeaders [] h1) p).lookup k
            = (ApplyAuthHeaders [] p).lookup k := by
  constructor
  · intro k
    apply lookup_ApplyAuthHeaders_congr
    rw [lookup_copyRequestHeaders h1 hw1, lookup_copyRequestHeaders h2 hw2]
    by_cases hc : isCredentialHeader k = true
    · simp [hc]
    · simp only [Bool.not_eq_true] at hc
      rw [hagree k hc]
  · intro k hc
    apply lookup_ApplyAuthHeaders_congr
    rw [lookup_copyRequestHeaders h1 hw1]
    simp [hc, Header.lookup]

/-- C2 at a concrete pair of inbound header maps: one carries
`Authorization` and `X-Api-Key`, the other a lower-case `x-api-key` only. -/
theorem upstream_headers_ignore_inbound_credentials_witness :
    Header.Same
        (ApplyAuthHeaders (copyRequestHeaders []
          [("Accept".toList, ["a".toList, "b".toList]),
           ("Authorization".toList, ["Bearer inbound".toList]),
           ("X-Api-Key".toList, ["inbound".toList])])
          ⟨"glm".toList, "https://a".toList, "target-key".toList, AuthTypeBearer⟩)
        (ApplyAuthHeaders (copyRequestHeaders []
          [("x-api-key".toList, ["other".toList]),
           ("Accept".toList, ["a".toList, "b".toList])])
          ⟨"glm".toList, "https://a".toList, "target-key".toList, AuthTypeBearer⟩)
      ∧ ∀ k, isCredentialHeader k = true →
          (ApplyAuthHeaders (copyRequestHeaders []
            [("Accept".toList, ["a".toList, "b".toList]),
             ("Authorization".toList, ["Bearer inbound".toList]),
             ("X-Api-Key".toList, ["inbound".toList])])
            ⟨"glm".toList, "https://a".toList, "target-key".toList, AuthTypeBearer⟩).lookup k
            = (ApplyAuthHeaders []
                ⟨"glm".toList, "https://a".toList, "target-key".toList, AuthTypeBearer⟩).lookup k :=
  upstream_headers_ignore_inbound_credentials _ _ _
    ⟨by decide, by decide⟩ ⟨by decide, by decide⟩
    (by
      intro k hk
      by_cases h1 : "Accept".toList = k
      · subst h1; rfl
      · have h2 : ¬ "Authorization".toList = k := by
          intro h; rw [← h] at hk; revert hk; decide
        have h3 : ¬ "X-Api-Key".toList = k := by
          intro h; rw [← h] at hk; revert hk; decide
        have h4 : ¬ "x-api-key".toList = k := by
          intro h; rw [← h] at hk; revert hk; decide
        simp only [Header.lookup, if_neg h1, if_neg h2, if_neg h3, if_neg h4])

/-- C4: a body that parses to an object whose `model` is a non-blank string
`m` with no route is answered with status 400 and the envelope of type
`invalid_request_error` whose message is `"unknown model: "` followed by `m`
unchanged; no upstream request is built. -/
theorem unknown_model_yields_400 (f64 : Float64Conv) (lib : URLLib) (cfg : Config)
    (client : Client) (w : ResponseWriter) (r : Request) (body : GoString) (payload : JMap)
    (m : GoString)
    (hw : w.Fresh)
    (hread : ReadAll r.Body = (body, none))
    (hparse : unmarshalMap f64 body = some payload)
    (hmodel : payload.get "model".toList = some (JValue.str m))
    (hnonblank : TrimSpace m ≠ [])
    (hroute : (RouteByModel cfg m).2 = false) :
    (proxyJSON f64 lib cfg client w r).upstream = none
      ∧ (proxyJSON f64 lib cfg client w r).w.status = some 400
      ∧ (proxyJSON f64 lib cfg client w r).w.body
          = encodeValue (Envelope.toJSON
              ⟨"error".toList,
               ⟨"invalid_request_error".toList, "unknown model: ".toList ++ m⟩,
               requestIDFromContext r⟩) := by
  have hproxy : proxyJSON f64 lib cfg client w r
      = ⟨apiWrite w 400 "invalid_request_error".toList ("unknown model: ".toList ++ m)
          (requestIDFromContext r), none, []⟩ := by
    rcases hr : RouteByModel cfg m with ⟨rt, b⟩
    rw [hr] at hroute
    simp only at hroute
    subst hroute
    unfold proxyJSON
    simp only [hread, hparse, hmodel, if_neg hnonblank, hr]
  have hmsg : TrimSpace ("unknown model: ".toList ++ m) ≠ [] :=
    TrimSpace_cons_ne_nil 'u' ("nknown model: ".toList ++ m) (by decide)
  rw [hproxy]
  refine ⟨rfl, apiWrite_status w hw _ _ _ _, ?_⟩
  rw [apiWrite_body w hw, Marshal_eq]
  simp only [MarshalPayload, if_neg hmsg]

/-- C4 at the body `{"model":" opus "}` against the sample configuration. -/
theorem unknown_model_yields_400_witness :
    (RouteByModel (Validate sampleURLLib sampleConfig).1 " opus ".toList).2 = false
      ∧ (proxyJSON sampleFloat64 sampleURLLib (Validate sampleURLLib sampleConfig).1
          (sampleClient 200 []) sampleWriter
          (sampleRequest "\x7b\"model\":\" opus \"\x7d".toList)).upstream = none
      ∧ (proxyJSON sampleFloat64 sampleURLLib (Validate sampleURLLib sampleConfig).1
          (sampleClient 200 []) sampleWriter
          (sampleRequest "\x7b\"model\":\" opus \"\x7d".toList)).w.status = some 400
      ∧ (proxyJSON sampleFloat64 sampleURLLib (Validate sampleURLLib sampleConfig).1
          (sampleClient 200 []) sampleWriter
          (sampleRequest "\x7b\"model\":\" opus \"\x7d".toList)).w.body
          = encodeValue (Envelope.toJSON
              ⟨"error".toList,
               ⟨"invalid_request_error".toList, "unknown model:  opus ".toList⟩,
               "req-1".toList⟩) :=
  ⟨by decide,
   unknown_model_yields_400 sampleFloat64 sampleURLLib (Validate sampleURLLib sampleConfig).1
    (sampleClient 200 []) sampleWriter (sampleRequest "\x7b\"model\":\" opus \"\x7d".toList)
    "\x7b\"model\":\" opus \"\x7d".toList [("model".toList, JValue.str " opus ".toList)]
    " opus ".toList
    ⟨rfl, rfl, by decide⟩ (by rfl) (by rfl) (by rfl) (by decide) (by decide)⟩

/-! ### The index built by `Validate` -/

theorem indexLookup_indexStore (index : List (GoString × Nat)) (k : GoString) (i : Nat)
    (k2 : GoString) :
    indexLookup (indexStore index k i) k2 = if k = k2 then some i else indexLookup index k2 := by
  induction index with
  | nil => simp [indexStore, indexLookup]
  | cons e t ih =>
    obtain ⟨k1, i1⟩ := e
    by_cases hk : k1 = k
    · subst hk
      by_cases hk2 : k1 = k2
      · simp [indexStore, indexLookup, hk2]
      · simp [indexStore, indexLookup, hk2]
    · by_cases hk2 : k1 = k2
      · subst hk2
        have hk3 : ¬ k = k1 := fun h => hk h.symm
        simp [indexStore, indexLookup, hk, hk3]
      · simp [indexStore, indexLookup, hk, hk2, ih]

/-- The loop of `Validate` keeps the keys of the index equal to the names of
the routes rewritten so far. -/
theorem validateLoop_index_keys (lib : URLLib) (todo : List ModelRoute) :
    ∀ (i : Nat) (done : List ModelRoute) (index : List (GoString × Nat))
      (ml : List ModelRoute) (idx : List (GoString × Nat)),
      (∀ k, (indexLookup index k).isSome = true ↔ k ∈ done.map (fun r => r.ModelName)) →
      validateLoop lib i done todo index = (ml, Except.ok idx) →
      ∀ k, (indexLookup idx k).isSome = true ↔ k ∈ ml.map (fun r => r.ModelName) := by
  induction todo with
  | nil =>
    intro i done index ml idx hinv h
    simp only [validateLoop, Prod.mk.injEq, Except.ok.injEq] at h
    rw [← h.1, ← h.2]
    exact hinv
  | cons route todo ih =>
    intro i done index ml idx hinv h
    simp only [validateLoop] at h
    cases hr : validateRoute lib i route index with
    | error e => rw [hr] at h; simp at h
    | ok p =>
      obtain ⟨modelName, authType⟩ := p
      rw [hr] at h
      refine ih _ _ _ ml idx ?_ h
      intro k
      rw [indexLookup_indexStore]
      by_cases hk : modelName = k
      · simp [hk]
      · have hk2 : ¬ k = modelName := fun h => hk h.symm
        simp [hk, hk2, hinv k]

/-- After a successful `Validate` the keys of the index are the configured
names. -/
theorem Validate_index_keys (lib : URLLib) (c : Config) (hv : (Validate lib c).2 = none)
    (k : GoString) :
    (indexLookup (Validate lib c).1.index k).isSome = true ↔ k ∈ (Validate lib c).1.names := by
  unfold Validate at hv ⊢
  by_cases h0 : c.ModelList.length = 0
  · simp [h0] at hv
  · rw [if_neg h0] at hv ⊢
    rcases hl : validateLoop lib 0 [] c.ModelList [] with ⟨ml, res⟩
    rw [hl] at hv
    cases res with
    | error e => exact absurd hv (by simp)
    | ok idx =>
      simp only [Config.names]
      exact validateLoop_index_keys lib c.ModelList 0 [] [] ml idx (by simp [indexLookup]) hl k

/-- C5, as the code has it: on a validated config `RouteByModel(s)` reports
found exactly when `strings.TrimSpace(s)` is, character for character, one of
the configured model names. -/
theorem RouteByModel_found_iff_trimmed_name (lib : URLLib) (c : Config)
    (hv : (Validate lib c).2 = none) (s : GoString) :
    (RouteByModel (Validate lib c).1 s).2 = true ↔ TrimSpace s ∈ (Validate lib c).1.names := by
  rw [← Validate_index_keys lib c hv]
  unfold RouteByModel
  cases indexLookup (Validate lib c).1.index (TrimSpace s) <;> simp

/-- C5 on the sample configuration: `" sonnet "` is found, `"Sonnet"` is not. -/
theorem RouteByModel_found_iff_trimmed_name_witness :
    (Validate sampleURLLib sampleConfig).2 = none
      ∧ ((RouteByModel (Validate sampleURLLib sampleConfig).1 " sonnet ".toList).2 = true
          ↔ TrimSpace " sonnet ".toList ∈ (Validate sampleURLLib sampleConfig).1.names)
      ∧ ((RouteByModel (Validate sampleURLLib sampleConfig).1 "Sonnet".toList).2 = true
          ↔ TrimSpace "Sonnet".toList ∈ (Validate sampleURLLib sampleConfig).1.names) :=
  ⟨by decide,
   RouteByModel_found_iff_trimmed_name sampleURLLib sampleConfig (by decide) " sonnet ".toList,
   RouteByModel_found_iff_trimmed_name sampleURLLib sampleConfig (by decide) "Sonnet".toList⟩

/-- C5 as stated fails: on the validated sample configuration, whose only name
is `sonnet`, the requested name `" sonnet "` is found although it is not equal
to a configured name. -/
theorem RouteByModel_untrimmed_name_found :
    (Validate sampleURLLib sampleConfig).2 = none
      ∧ (Validate sampleURLLib sampleConfig).1.names = ["sonnet".toList]
      ∧ (RouteByModel (Validate sampleURLLib sampleConfig).1 " sonnet ".toList).2 = true
      ∧ " sonnet ".toList ∉ (Validate sampleURLLib sampleConfig).1.names := by
  decide

/-! ### The error normalizer -/

theorem isSpace_not_value_start (c : Char) (hc : isSpace c = true) :
    isJSONSpace c = true ∨
      (c ≠ '{' ∧ c ≠ '[' ∧ c ≠ '"' ∧ c ≠ 't' ∧ c ≠ 'f' ∧ c ≠ 'n' ∧ c ≠ '-' ∧ isDigit c = false) := by
  by_cases hj : isJSONSpace c = true
  · exact Or.inl hj
  · refine Or.inr ⟨?_, ?_, ?_, ?_, ?_, ?_, ?_, ?_⟩
    all_goals first
      | (intro h; subst h; revert hc; decide)
      | (simp only [isSpace, isDigit, Bool.or_eq_true, Bool.and_eq_true, decide_eq_true_eq] at hc ⊢
         simp only [Bool.and_eq_false_iff, decide_eq_false_iff_not]
         omega)

/-- White space alone is not a JSON document. -/
theorem parseValue_blank (fuel depth : Nat) (s : GoString) (hs : ∀ c ∈ s, isSpace c = true) :
    parseValue fuel depth s = none := by
  cases fuel with
  | zero => simp [parseValue]
  | succ fuel =>
    rw [parseValue]
    cases hd : skipSpace s with
    | nil => rfl
    | cons c r =>
      have hmem : c ∈ s := by
        have : c ∈ skipSpace s := by rw [hd]; simp
        exact (List.dropWhile_sublist _).subset this
      have hnot : isJSONSpace c = false := dropWhile_head_not _ _ _ _ hd
      rcases isSpace_not_value_start c (hs c hmem) with h | ⟨h1, h2, h3, h4, h5, h6, h7, h8⟩
      · rw [hnot] at h; exact absurd h (by decide)
      · simp only [h1, h2, h3, h4, h5, h6, h7, h8, if_false, Bool.false_eq_true,
          Bool.or_self, decide_False]

theorem unmarshalMap_blank (f64 : Float64Conv) (body : GoString) (hb : TrimSpace body = []) :
    unmarshalMap f64 body = none := by
  unfold unmarshalMap parseJSON
  rw [parseValue_blank _ _ _ ((TrimSpace_eq_nil_iff body).mp hb)]

theorem nonBlankString_trim_ne_nil (v : Option JValue) (msg : GoString)
    (h : nonBlankString v = some msg) : TrimSpace msg ≠ [] := by
  unfold nonBlankString at h
  split at h
  · split at h
    · rename_i h1
      simp only [Option.some.injEq] at h
      rw [← h]; exact h1
    · simp at h
  · simp at h

/-- The message `NormalizeUpstreamError` passes on is the one the precedence
of the specification yields. -/
theorem extractMessage_or_status (f64 : Float64Conv) (statusCode : Int) (body : GoString) :
    (if extractMessage f64 body = [] then StatusText statusCode else extractMessage f64 body)
      = specMessage f64 statusCode body := by
  by_cases hb : TrimSpace body = []
  · have h1 : extractMessage f64 body = [] := by
      unfold extractMessage
      simp only [hb, if_true]
    rw [h1, if_pos rfl]
    unfold specMessage
    simp only [unmarshalMap_blank f64 body hb, Option.none_bind, hb, ne_eq, not_true_eq_false,
      if_false]
  · have h1 : extractMessage f64 body = specMessage f64 statusCode body
        ∧ specMessage f64 statusCode body ≠ [] := by
      unfold extractMessage specMessage
      simp only [hb, if_false, ne_eq, not_false_eq_true, if_true]
      cases hu : unmarshalMap f64 body with
      | none =>
        simp only [Option.none_bind]
        exact ⟨trivial, hb⟩
      | some generic =>
        simp only [Option.some_bind]
        cases h1 : nonBlankString (generic.get "message".toList) with
        | some msg => exact ⟨rfl, nonBlankString_trim_ne_nil _ _ h1⟩
        | none =>
          simp only
          cases hget : generic.get "error".toList with
          | none => exact ⟨rfl, hb⟩
          | some v =>
            cases v with
            | obj errObj =>
              simp only
              cases h2 : nonBlankString (JMap.get errObj "message".toList) with
              | some msg => exact ⟨trivial, nonBlankString_trim_ne_nil _ _ h2⟩
              | none => exact ⟨trivial, hb⟩
            | null => exact ⟨rfl, hb⟩
            | bool b => exact ⟨rfl, hb⟩
            | num l => exact ⟨rfl, hb⟩
            | str l => exact ⟨rfl, hb⟩
            | arr l => exact ⟨rfl, hb⟩
    rw [h1.1, if_neg h1.2]

theorem errorType_eq (statusCode : Int) :
    (if statusCode ≥ 500 then "api_error".toList else "invalid_request_error".toList)
      = errorTypeFor statusCode := by
  unfold errorTypeFor
  by_cases h : statusCode ≥ 500
  · rw [if_pos h, if_neg (by omega)]
  · rw [if_neg h, if_pos (by omega)]

/-- What `NormalizeUpstreamError` returns for a body that is not a canonical
envelope. -/
theorem NormalizeUpstreamError_synthesized (f64 : Float64Conv) (statusCode : Int)
    (body requestID : GoString) (h : IsAnthropicErrorPayload body = false) :
    NormalizeUpstreamError f64 statusCode body requestID
      = Marshal (errorTypeFor statusCode) (specMessage f64 statusCode body) requestID := by
  unfold NormalizeUpstreamError
  simp only [h, Bool.false_eq_true, if_false]
  rw [errorType_eq, extractMessage_or_status]

/-- C6, as the code has it: a body that parses as an envelope whose top-level
type is `error` and whose `error.type` and `error.message` are not blank is
returned unchanged, whatever the status code and the request id. -/
theorem canonical_envelope_passes_through (f64 : Float64Conv) (statusCode : Int)
    (body requestID : GoString) (e : Envelope)
    (hparse : unmarshalEnvelope body = some e)
    (htype : e.Type_ = "error".toList)
    (ht : TrimSpace e.Error.Type_ ≠ [])
    (hm : TrimSpace e.Error.Message ≠ []) :
    NormalizeUpstreamError f64 statusCode body requestID = body := by
  have hlen : ¬ body.length = 0 := by
    intro h
    have hnil : body = [] := List.length_eq_zero.mp h
    rw [hnil] at hparse
    have hnone : unmarshalEnvelope [] = none := by decide
    rw [hnone] at hparse
    exact Option.noConfusion hparse
  have hcanon : IsAnthropicErrorPayload body = true := by
    unfold IsAnthropicErrorPayload
    simp only [hlen, if_false, hparse, htype, ne_eq, not_true_eq_false, ht, hm,
      decide_False, Bool.or_self, Bool.false_eq_true]
  unfold NormalizeUpstreamError
  rw [if_pos hcanon]

/-- C6 at the body of the adapter test, with status 400 and request id
`req-1`. -/
theorem canonical_envelope_passes_through_witness :
    NormalizeUpstreamError sampleFloat64 400
        ("\x7b\"type\":\"error\",\"error\":\x7b\"type\":\"invalid_request_error\"," ++
          "\"message\":\"bad\"\x7d\x7d").toList "req-1".toList
      = ("\x7b\"type\":\"error\",\"error\":\x7b\"type\":\"invalid_request_error\"," ++
          "\"message\":\"bad\"\x7d\x7d").toList :=
  canonical_envelope_passes_through sampleFloat64 400 _ "req-1".toList
    ⟨"error".toList, ⟨"invalid_request_error".toList, "bad".toList⟩, []⟩
    (by rfl) rfl (by decide) (by decide)

/-- C6 as stated fails: an envelope whose `error.message` is the one-space
string, which is not empty, is not passed through; it is wrapped. -/
theorem whitespace_message_envelope_not_passed_through :
    unmarshalEnvelope
        ("\x7b\"type\":\"error\",\"error\":\x7b\"type\":\"overloaded_error\"," ++
          "\"message\":\" \"\x7d\x7d").toList
      = some ⟨"error".toList, ⟨"overloaded_error".toList, " ".toList⟩, []⟩
    ∧ "overloaded_error".toList ≠ [] ∧ " ".toList ≠ []
    ∧ NormalizeUpstreamError sampleFloat64 529
        ("\x7b\"type\":\"error\",\"error\":\x7b\"type\":\"overloaded_error\"," ++
          "\"message\":\" \"\x7d\x7d").toList "req-1".toList
      ≠ ("\x7b\"type\":\"error\",\"error\":\x7b\"type\":\"overloaded_error\"," ++
          "\"message\":\" \"\x7d\x7d").toList := by
  decide

/-- C7: for a body that is not a canonical envelope, `NormalizeUpstreamError`
returns the serialization of an envelope with top-level type `error`, the given
request id, and error type `invalid_request_error` below status 500 and
`api_error` from 500 on; its message is not empty. -/
theorem non_canonical_body_is_wrapped (f64 : Float64Conv) (statusCode : Int)
    (body requestID : GoString) (h : IsAnthropicErrorPayload body = false) :
    ∃ msg : GoString, msg ≠ [] ∧
      NormalizeUpstreamError f64 statusCode body requestID
        = encodeValue (Envelope.toJSON
            ⟨"error".toList,
             ⟨if statusCode < 500 then "invalid_request_error".toList else "api_error".toList,
              msg⟩,
             requestID⟩) := by
  rw [NormalizeUpstreamError_synthesized f64 statusCode body requestID h, Marshal_eq]
  by_cases hb : TrimSpace (specMessage f64 statusCode body) = []
  · refine ⟨"request failed".toList, by decide, ?_⟩
    simp only [MarshalPayload, hb, if_true, errorTypeFor]
  · refine ⟨specMessage f64 statusCode body, ?_, ?_⟩
    · intro h0; rw [h0] at hb; exact hb rfl
    · simp only [MarshalPayload, hb, if_false, errorTypeFor]

/-- C7 at the body `backend failure` with status 502: the error type is
`api_error` and the message is `backend failure`. -/
theorem non_canonical_body_is_wrapped_witness :
    IsAnthropicErrorPayload "backend failure".toList = false
      ∧ (∃ msg : GoString, msg ≠ [] ∧
          NormalizeUpstreamError sampleFloat64 502 "backend failure".toList "req-2".toList
            = encodeValue (Envelope.toJSON
                ⟨"error".toList,
                 ⟨if (502 : Int) < 500 then "invalid_request_error".toList
                    else "api_error".toList, msg⟩,
                 "req-2".toList⟩))
      ∧ NormalizeUpstreamError sampleFloat64 502 "backend failure".toList "req-2".toList
          = encodeValue (Envelope.toJSON
              ⟨"error".toList, ⟨"api_error".toList, "backend failure".toList⟩,
               "req-2".toList⟩) :=
  ⟨by decide,
   non_canonical_body_is_wrapped sampleFloat64 502 "backend failure".toList "req-2".toList
    (by decide),
   by decide⟩

/-- C8, as the code has it: for a body that is not a canonical envelope the
message handed to `Marshal` is the trimmed top-level `message` string when the
body decodes to an object and that string is not blank; else the trimmed
`error.message` string when not blank; else the trimmed body text when not
empty; else the reason phrase of the status code. -/
theorem synthesized_message_precedence (f64 : Float64Conv) (statusCode : Int)
    (body requestID : GoString) (h : IsAnthropicErrorPayload body = false) :
    NormalizeUpstreamError f64 statusCode body requestID
      = encodeValue (MarshalPayload
          (if statusCode < 500 then "invalid_request_error".toList else "api_error".toList)
          (specMessage f64 statusCode body) requestID).toJSON := by
  rw [NormalizeUpstreamError_synthesized f64 statusCode body requestID h, Marshal_eq]
  rfl

/-- C8 at four bodies, one for each source of the message. -/
theorem synthesized_message_precedence_witness :
    (specMessage sampleFloat64 400
        ("\x7b\"message\":\" top \",\"error\":\x7b\"message\":\"inner\"\x7d\x7d").toList
        = "top".toList
      ∧ specMessage sampleFloat64 400
          ("\x7b\"message\":\" \",\"error\":\x7b\"message\":\"inner \"\x7d\x7d").toList
        = "inner".toList
      ∧ specMessage sampleFloat64 400 " [1,2] ".toList = "[1,2]".toList
      ∧ specMessage sampleFloat64 404 "  ".toList = "Not Found".toList)
    ∧ NormalizeUpstreamError sampleFloat64 400
        ("\x7b\"message\":\" \",\"error\":\x7b\"message\":\"inner \"\x7d\x7d").toList
        "req-1".toList
      = encodeValue (MarshalPayload
          (if (400 : Int) < 500 then "invalid_request_error".toList else "api_error".toList)
          (specMessage sampleFloat64 400
            ("\x7b\"message\":\" \",\"error\":\x7b\"message\":\"inner \"\x7d\x7d").toList)
          "req-1".toList).toJSON :=
  ⟨by decide,
   synthesized_message_precedence sampleFloat64 400 _ "req-1".toList (by decide)⟩

/-- C8 as stated fails: for the body `{"message":" hi "}` the message of the
envelope is `hi`, not the top-level `message` string ` hi `. -/
theorem top_level_message_is_trimmed :
    IsAnthropicErrorPayload "\x7b\"message\":\" hi \"\x7d".toList = false
    ∧ unmarshalMap sampleFloat64 "\x7b\"message\":\" hi \"\x7d".toList
        = some [("message".toList, JValue.str " hi ".toList)]
    ∧ NormalizeUpstreamError sampleFloat64 400 "\x7b\"message\":\" hi \"\x7d".toList []
        = encodeValue (Envelope.toJSON
            ⟨"error".toList, ⟨"invalid_request_error".toList, "hi".toList⟩, []⟩)
    ∧ NormalizeUpstreamError sampleFloat64 400 "\x7b\"message\":\" hi \"\x7d".toList []
        ≠ encodeValue (Envelope.toJSON
            ⟨"error".toList, ⟨"invalid_request_error".toList, " hi ".toList⟩, []⟩) := by
  refine ⟨by decide, by rfl, by decide, by decide⟩

/-- C9: the envelope `Marshal` encodes has the message `request failed` when
the given message is blank and the given message otherwise, so its message is
never empty; `NormalizeUpstreamError` on an empty body with a status code
without reason phrase yields the message `request failed`. -/
theorem Marshal_message_never_empty (errorType message requestID : GoString) :
    Marshal errorType message requestID
        = encodeValue (Envelope.toJSON
            ⟨"error".toList,
             ⟨errorType, if TrimSpace message = [] then "request failed".toList else message⟩,
             requestID⟩)
      ∧ (if TrimSpace message = [] then "request failed".toList else message) ≠ []
      ∧ ∀ (f64 : Float64Conv) (statusCode : Int), StatusText statusCode = [] →
          NormalizeUpstreamError f64 statusCode [] requestID
            = encodeValue (Envelope.toJSON
                ⟨"error".toList,
                 ⟨if statusCode < 500 then "invalid_request_error".toList
                    else "api_error".toList, "request failed".toList⟩,
                 requestID⟩) := by
  refine ⟨rfl, ?_, ?_⟩
  · by_cases hb : TrimSpace message = []
    · rw [if_pos hb]; decide
    · rw [if_neg hb]
      intro h0; rw [h0] at hb; exact hb rfl
  · intro f64 statusCode hst
    rw [NormalizeUpstreamError_synthesized f64 statusCode [] requestID (by decide), Marshal_eq]
    have hs : specMessage f64 statusCode [] = [] := by
      rw [← extractMessage_or_status]
      have h1 : extractMessage f64 [] = [] := by
        unfold extractMessage
        simp only [show TrimSpace [] = [] from rfl, if_true]
      rw [h1, if_pos rfl, hst]
    simp only [MarshalPayload, hs, show TrimSpace [] = [] from rfl, if_true, errorTypeFor]

/-- C9 at the blank message of two spaces, and at status 599, which has no
reason phrase. -/
theorem Marshal_message_never_empty_witness :
    Marshal "api_error".toList "  ".toList "req-1".toList
        = encodeValue (Envelope.toJSON
            ⟨"error".toList, ⟨"api_error".toList, "request failed".toList⟩, "req-1".toList⟩)
      ∧ StatusText 599 = []
      ∧ NormalizeUpstreamError sampleFloat64 599 [] "req-1".toList
          = encodeValue (Envelope.toJSON
              ⟨"error".toList, ⟨"api_error".toList, "request failed".toList⟩,
               "req-1".toList⟩) :=
  ⟨(Marshal_message_never_empty "api_error".toList "  ".toList "req-1".toList).1,
   by decide,
   (Marshal_message_never_empty "api_error".toList "  ".toList "req-1".toList).2.2
     sampleFloat64 599 (by decide)⟩

/-! ### The buffered path -/

/-- When the engine has handed a request to the HTTP client and the client has
answered, the response written is the relayed upstream response. -/
theorem proxyJSON_dispatched (f64 : Float64Conv) (lib : URLLib) (cfg : Config)
    (client : Client) (w : ResponseWriter) (r : Request) (upReq : UpstreamRequest)
    (resp : UpstreamResponse)
    (hup : (proxyJSON f64 lib cfg client w r).upstream = some upReq)
    (hresp : client upReq = Except.ok resp) :
    (proxyJSON f64 lib cfg client w r).w
      = (relayResponse f64 w resp (requestIDFromContext r)).1 := by
  revert hup
  unfold proxyJSON
  simp only
  split
  · split <;> (intro hup; exact absurd hup (by simp))
  · split
    · intro hup; exact absurd hup (by simp)
    · split
      · split
        · intro hup; exact absurd hup (by simp)
        · split
          · intro hup; exact absurd hup (by simp)
          · split
            · intro hup; exact absurd hup (by simp)
            · split
              · intro hup; exact absurd hup (by simp)
              · split
                · intro hup; exact absurd hup (by simp)
                · split
                  · rename_i heq
                    intro hup
                    simp only [Option.some.injEq] at hup
                    rw [hup, hresp] at heq
                    exact absurd heq (by simp)
                  · rename_i heq
                    intro hup
                    simp only [Option.some.injEq] at hup
                    rw [hup, hresp] at heq
                    simp only [Except.ok.injEq] at heq
                    rw [heq]
      · intro hup; exact absurd hup (by simp)

/-- C10: on the buffered path, with the upstream body read in full as `b` and
upstream status `s`, the client response has status `s`; its body is `b` when
`s < 400`, and is `NormalizeUpstreamError(s, b, requestID)` with content type
`application/json` when `s >= 400`. -/
theorem buffered_response_is_relayed (f64 : Float64Conv) (lib : URLLib) (cfg : Config)
    (client : Client) (w : ResponseWriter) (r : Request) (upReq : UpstreamRequest)
    (resp : UpstreamResponse) (b : GoString)
    (hw : w.Fresh)
    (hup : (proxyJSON f64 lib cfg client w r).upstream = some upReq)
    (hresp : client upReq = Except.ok resp)
    (hct : isEventStream resp.Header = false)
    (hread : ReadAll resp.Body = (b, none)) :
    (proxyJSON f64 lib cfg client w r).w.status = some resp.StatusCode
      ∧ (resp.StatusCode < 400 → (proxyJSON f64 lib cfg client w r).w.body = b)
      ∧ (resp.StatusCode ≥ 400 →
          (proxyJSON f64 lib cfg client w r).w.body
              = NormalizeUpstreamError f64 resp.StatusCode b (requestIDFromContext r)
            ∧ (proxyJSON f64 lib cfg client w r).w.sentHeader.Get "Content-Type".toList
              = "application/json".toList) := by
  rw [proxyJSON_dispatched f64 lib cfg client w r upReq resp hup hresp]
  obtain ⟨h1, h2, h3⟩ := hw
  unfold relayResponse
  simp only [hct, Bool.false_eq_true, if_false, hread]
  by_cases hs : resp.StatusCode ≥ 400
  · have hlt : ¬ resp.StatusCode < 400 := by omega
    simp only [hs, if_true, hlt, false_implies, true_implies, true_and]
    simp only [ResponseWriter.WriteHeader, ResponseWriter.Write, h1, ResponseWriter.status,
      ResponseWriter.body, ResponseWriter.sentHeader]
    split
    · simp [h2, writtenBytes, Header.Get, Header.Values, Header.Set, Header.lookup_store_self]
    · rename_i h; exact absurd h h3
    · simp [h2, writtenBytes, Header.Get, Header.Values, Header.Set, Header.lookup_store_self]
  · have hlt : resp.StatusCode < 400 := by omega
    simp only [hs, if_false, hlt, false_implies, true_implies, and_true]
    simp only [ResponseWriter.WriteHeader, ResponseWriter.Write, h1, ResponseWriter.status,
      ResponseWriter.body]
    split
    · simp [h2, writtenBytes]
    · rename_i h; exact absurd h h3
    · simp [h2, writtenBytes]

/-- C10 at the plain-text upstream error of the server tests: status 502 and
body `backend broken`. -/
theorem buffered_response_is_relayed_witness :
    (proxyJSON sampleFloat64 sampleURLLib (Validate sampleURLLib sampleConfig).1
        (sampleClient 502 "backend broken\n".toList) sampleWriter
        (sampleRequest "\x7b\"model\":\"sonnet\"\x7d".toList)).upstream
      = some ⟨"POST".toList, "https://api.example.com/v1/messages".toList,
          [("Content-Type".toList, ["application/json".toList]),
           ("Authorization".toList, ["Bearer target-key".toList])],
          "\x7b\"model\":\"glm-4.7\"\x7d".toList⟩
    ∧ (proxyJSON sampleFloat64 sampleURLLib (Validate sampleURLLib sampleConfig).1
        (sampleClient 502 "backend broken\n".toList) sampleWriter
        (sampleRequest "\x7b\"model\":\"sonnet\"\x7d".toList)).w.status = some 502
    ∧ (proxyJSON sampleFloat64 sampleURLLib (Validate sampleURLLib sampleConfig).1
        (sampleClient 502 "backend broken\n".toList) sampleWriter
        (sampleRequest "\x7b\"model\":\"sonnet\"\x7d".toList)).w.body
      = NormalizeUpstreamError sampleFloat64 502 "backend broken\n".toList "req-1".toList
    ∧ (proxyJSON sampleFloat64 sampleURLLib (Validate sampleURLLib sampleConfig).1
        (sampleClient 502 "backend broken\n".toList) sampleWriter
        (sampleRequest "\x7b\"model\":\"sonnet\"\x7d".toList)).w.sentHeader.Get
          "Content-Type".toList
      = "application/json".toList :=
  have h := buffered_response_is_relayed sampleFloat64 sampleURLLib
    (Validate sampleURLLib sampleConfig).1 (sampleClient 502 "backend broken\n".toList)
    sampleWriter (sampleRequest "\x7b\"model\":\"sonnet\"\x7d".toList)
    ⟨"POST".toList, "https://api.example.com/v1/messages".toList,
      [("Content-Type".toList, ["application/json".toList]),
       ("Authorization".toList, ["Bearer target-key".toList])],
      "\x7b\"model\":\"glm-4.7\"\x7d".toList⟩
    ⟨502, [("Content-Length".toList, ["15".toList]),
           ("Content-Type".toList, ["text/plain; charset=utf-8".toList])],
      [("backend broken\n".toList, none), ([], some ReadError.eof)]⟩
    "backend broken\n".toList
    ⟨rfl, rfl, by decide⟩ (by rfl) (by rfl) (by decide) (by rfl)
  ⟨by rfl, h.1, (h.2.2 (by decide)).1, (h.2.2 (by decide)).2⟩

/-! ### The order of strings and the entries of a map -/

theorem Char.eq_of_toNat_eq {a b : Char} (h : a.toNat = b.toNat) : a = b := by
  rw [← Char.ofNat_toNat a, ← Char.ofNat_toNat b, h]

theorem strLess_irrefl (a : GoString) : strLess a a = false := by
  induction a with
  | nil => rfl
  | cons c s ih => simp [strLess, ih]

theorem strLess_trans : ∀ (a b c : GoString), strLess a b = true → strLess b c = true →
    strLess a c = true
  | [], [], _, h, _ => by simp [strLess] at h
  | [], _ :: _, [], _, h => by simp [strLess] at h
  | [], _ :: _, _ :: _, _, _ => by simp [strLess]
  | _ :: _, [], _, h, _ => by simp [strLess] at h
  | _ :: _, _ :: _, [], _, h => by simp [strLess] at h
  | x :: s, y :: t, z :: u, h1, h2 => by
    simp only [strLess, Bool.or_eq_true, decide_eq_true_eq, Bool.and_eq_true] at h1 h2 ⊢
    rcases h1 with h1 | ⟨h1, h1'⟩
    · rcases h2 with h2 | ⟨h2, _⟩
      · exact Or.inl (by omega)
      · subst h2; exact Or.inl h1
    · subst h1
      rcases h2 with h2 | ⟨h2, h2'⟩
      · exact Or.inl h2
      · exact Or.inr ⟨h2, strLess_trans s t u h1' h2'⟩

theorem strLess_total : ∀ (a b : GoString), a = b ∨ strLess a b = true ∨ strLess b a = true
  | [], [] => Or.inl rfl
  | [], _ :: _ => Or.inr (Or.inl (by simp [strLess]))
  | _ :: _, [] => Or.inr (Or.inr (by simp [strLess]))
  | x :: s, y :: t => by
    simp only [strLess, Bool.or_eq_true, decide_eq_true_eq, Bool.and_eq_true, List.cons.injEq]
    rcases Nat.lt_trichotomy x.toNat y.toNat with h | h | h
    · exact Or.inr (Or.inl (Or.inl h))
    · have hxy : x = y := Char.eq_of_toNat_eq h
      subst hxy
      rcases strLess_total s t with h1 | h1 | h1
      · exact Or.inl ⟨rfl, h1⟩
      · exact Or.inr (Or.inl (Or.inr ⟨rfl, h1⟩))
      · exact Or.inr (Or.inr (Or.inr ⟨rfl, h1⟩))
    · exact Or.inr (Or.inr (Or.inl h))

theorem strLess_ne {a b : GoString} (h : strLess a b = true) : a ≠ b := by
  intro hab
  subst hab
  rw [strLess_irrefl] at h
  exact absurd h (by decide)

theorem strLess_asymm {a b : GoString} (h : strLess a b = true) : strLess b a = false := by
  cases hba : strLess b a with
  | false => rfl
  | true =>
    have := strLess_trans a b a h hba
    rw [strLess_irrefl] at this
    exact absurd this (by decide)

theorem JMap.get_insert_self (m : JMap) (k : GoString) (v : JValue) :
    (JMap.insert m k v).get k = some v := by
  induction m with
  | nil => simp [JMap.insert, JMap.get]
  | cons e t ih =>
    obtain ⟨k1, v1⟩ := e
    simp only [JMap.insert]
    by_cases h1 : k = k1
    · rw [if_pos h1]; simp [JMap.get]
    · rw [if_neg h1]
      by_cases h2 : strLess k k1 = true
      · rw [if_pos h2]; simp [JMap.get]
      · rw [if_neg h2]
        have h3 : ¬ k1 = k := fun h => h1 h.symm
        simp only [JMap.get, if_neg h3]
        exact ih

theorem JMap.get_insert_ne (m : JMap) (k k2 : GoString) (v : JValue) (hne : k2 ≠ k) :
    (JMap.insert m k v).get k2 = m.get k2 := by
  have hne2 : ¬ k = k2 := fun h => hne h.symm
  induction m with
  | nil => simp [JMap.insert, JMap.get, hne2]
  | cons e t ih =>
    obtain ⟨k1, v1⟩ := e
    simp only [JMap.insert]
    by_cases h1 : k = k1
    · subst h1
      rw [if_pos rfl]
      simp [JMap.get, hne2]
    · rw [if_neg h1]
      by_cases h2 : strLess k k1 = true
      · rw [if_pos h2]
        simp only [JMap.get, if_neg hne2]
      · rw [if_neg h2]
        by_cases h3 : k1 = k2
        · simp only [JMap.get, if_pos h3]
        · simp only [JMap.get, if_neg h3]
          exact ih

theorem JMap.keys_insert (m : JMap) (k : GoString) (v : JValue) (k2 : GoString) :
    k2 ∈ (JMap.insert m k v).map Prod.fst ↔ k2 = k ∨ k2 ∈ m.map Prod.fst := by
  induction m with
  | nil => simp [JMap.insert]
  | cons e t ih =>
    obtain ⟨k1, v1⟩ := e
    simp only [JMap.insert]
    by_cases h1 : k = k1
    · subst h1
      rw [if_pos rfl]
      simp
    · rw [if_neg h1]
      by_cases h2 : strLess k k1 = true
      · rw [if_pos h2]; simp
      · rw [if_neg h2]
        simp only [List.map_cons, List.mem_cons, ih]
        constructor
        · rintro (h | h | h)
          · exact Or.inr (Or.inl h)
          · exact Or.inl h
          · exact Or.inr (Or.inr h)
        · rintro (h | h | h)
          · exact Or.inr (Or.inl h)
          · exact Or.inl h
          · exact Or.inr (Or.inr h)

/-- A map write keeps the keys strictly increasing. -/
theorem keysIncreasing_insert (m : JMap) (k : GoString) (v : JValue) (hm : keysIncreasing m) :
    keysIncreasing (JMap.insert m k v) := by
  induction m with
  | nil => simp [JMap.insert, keysIncreasing]
  | cons e t ih =>
    obtain ⟨k1, v1⟩ := e
    unfold keysIncreasing at hm ih ⊢
    simp only [List.map_cons, List.pairwise_cons] at hm
    simp only [JMap.insert]
    by_cases h1 : k = k1
    · subst h1
      rw [if_pos rfl]
      simp only [List.map_cons, List.pairwise_cons]
      exact hm
    · rw [if_neg h1]
      by_cases h2 : strLess k k1 = true
      · rw [if_pos h2]
        simp only [List.map_cons, List.pairwise_cons, List.mem_cons, forall_eq_or_imp]
        exact ⟨⟨h2, fun a ha => strLess_trans _ _ _ h2 (hm.1 a ha)⟩, hm⟩
      · rw [if_neg h2]
        simp only [List.map_cons, List.pairwise_cons]
        refine ⟨fun a ha => ?_, ih hm.2⟩
        rcases (JMap.keys_insert t k v a).mp ha with h | h
        · subst h
          rcases strLess_total a k1 with h3 | h3 | h3
          · exact absurd h3 h1
          · exact absurd h3 h2
          · exact h3
        · exact hm.1 a h

/-- Writing a key above all keys of a sorted map appends the entry. -/
theorem JMap.insert_last (m : JMap) (k : GoString) (v : JValue)
    (hk : ∀ a ∈ m.map Prod.fst, strLess a k = true) :
    JMap.insert m k v = m ++ [(k, v)] := by
  induction m with
  | nil => rfl
  | cons e t ih =>
    obtain ⟨k1, v1⟩ := e
    have h1 : strLess k1 k = true := hk k1 (by simp)
    have h2 : ¬ k = k1 := fun h => strLess_ne h1 h.symm
    have h3 : ¬ strLess k k1 = true := by rw [strLess_asymm h1]; decide
    simp only [JMap.insert, if_neg h2, if_neg h3, List.cons_append]
    rw [ih (fun a ha => hk a (by simp only [List.map_cons, List.mem_cons]; exact Or.inr ha))]

/-! ### Strings: reading back what the encoder writes -/

theorem scanString_text (c : Char) (r : GoString) (h1 : c ≠ '"') (h2 : c ≠ '\\')
    (h3 : ¬ c.toNat < 32) :
    scanString StringMode.text none (c :: r)
      = consChar c (scanString StringMode.text none r) := by
  rw [scanString]
  simp only [if_neg h1, if_neg h2, if_neg h3, flushPending]

theorem scanString_simple_escape (e ch : Char) (r : GoString) (he : e ≠ 'u')
    (hu : unescapeChar e = some ch) :
    scanString StringMode.text none ('\\' :: e :: r)
      = consChar ch (scanString StringMode.text none r) := by
  rw [scanString]
  rw [if_neg (by decide), if_pos rfl, scanString]
  simp only [if_neg he, hu, flushPending]

theorem scanString_hex_escape (a b c d : Char) (x y z w : Nat) (r : GoString)
    (ha : hexVal a = some x) (hb : hexVal b = some y) (hc : hexVal c = some z)
    (hd : hexVal d = some w)
    (hn : ¬ ((0xD800 ≤ ((x * 16 + y) * 16 + z) * 16 + w
              && ((x * 16 + y) * 16 + z) * 16 + w < 0xDC00) = true))
    (hn2 : ¬ ((0xDC00 ≤ ((x * 16 + y) * 16 + z) * 16 + w
              && ((x * 16 + y) * 16 + z) * 16 + w < 0xE000) = true)) :
    scanString StringMode.text none ('\\' :: 'u' :: a :: b :: c :: d :: r)
      = consChar (Char.ofNat (((x * 16 + y) * 16 + z) * 16 + w))
          (scanString StringMode.text none r) := by
  rw [scanString]
  rw [if_neg (by decide), if_pos rfl, scanString, if_pos rfl]
  rw [scanString]
  simp only [ha, show (0 : Nat) < 3 from by decide, if_true]
  rw [scanString]
  simp only [hb, show (0 + 1 : Nat) < 3 from by decide, if_true]
  rw [scanString]
  simp only [hc, show (0 + 1 + 1 : Nat) < 3 from by decide, if_true]
  rw [scanString]
  simp only [hd, show ¬ (0 + 1 + 1 + 1 : Nat) < 3 from by decide, if_false, Nat.zero_mul,
    Nat.zero_add, if_neg hn, if_neg hn2]

theorem hexVal_hexDigit (n : Nat) (hn : n < 16) : hexVal (hexDigit n) = some n := by
  revert n
  decide

theorem parseString_escapeChar (c : Char) (tail : GoString) :
    scanString StringMode.text none (escapeChar c ++ tail)
      = consChar c (scanString StringMode.text none tail) := by
  unfold escapeChar
  simp only
  split
  · rename_i h; subst h
    exact scanString_simple_escape '"' '"' tail (by decide) (by decide)
  · split
    · rename_i h; subst h
      exact scanString_simple_escape '\\' '\\' tail (by decide) (by decide)
    · split
      · rename_i h
        have hc : c = Char.ofNat 8 := Char.eq_of_toNat_eq h
        subst hc
        exact scanString_simple_escape 'b' _ tail (by decide) (by decide)
      · split
        · rename_i h
          have hc : c = Char.ofNat 12 := Char.eq_of_toNat_eq h
          subst hc
          exact scanString_simple_escape 'f' _ tail (by decide) (by decide)
        · split
          · rename_i h
            have hc : c = Char.ofNat 10 := Char.eq_of_toNat_eq h
            subst hc
            exact scanString_simple_escape 'n' _ tail (by decide) (by decide)
          · split
            · rename_i h
              have hc : c = Char.ofNat 13 := Char.eq_of_toNat_eq h
              subst hc
              exact scanString_simple_escape 'r' _ tail (by decide) (by decide)
            · split
              · rename_i h
                have hc : c = Char.ofNat 9 := Char.eq_of_toNat_eq h
                subst hc
                exact scanString_simple_escape 't' _ tail (by decide) (by decide)
              · split
                · rename_i h
                  have hn : c.toNat < 128 := by
                    simp only [Bool.or_eq_true, decide_eq_true_eq] at h
                    rcases h with ((h | h) | h) | h
                    · omega
                    · subst h; decide
                    · subst h; decide
                    · subst h; decide
                  have h := scanString_hex_escape '0' '0' (hexDigit (c.toNat / 16))
                    (hexDigit (c.toNat % 16)) 0 0 (c.toNat / 16) (c.toNat % 16) tail
                    (by decide) (by decide) (hexVal_hexDigit _ (by omega))
                    (hexVal_hexDigit _ (by omega))
                    (by simp only [Bool.and_eq_true, decide_eq_true_eq]; omega)
                    (by simp only [Bool.and_eq_true, decide_eq_true_eq]; omega)
                  have hv : ((0 * 16 + 0) * 16 + c.toNat / 16) * 16 + c.toNat % 16 = c.toNat := by
                    omega
                  rw [hv, Char.ofNat_toNat] at h
                  exact h
                · split
                  · rename_i h
                    have hc : c = Char.ofNat 0x2028 := Char.eq_of_toNat_eq h
                    subst hc
                    exact scanString_hex_escape '2' '0' '2' '8' 2 0 2 8 tail (by decide)
                      (by decide) (by decide) (by decide) (by decide) (by decide)
                  · split
                    · rename_i h
                      have hc : c = Char.ofNat 0x2029 := Char.eq_of_toNat_eq h
                      subst hc
                      exact scanString_hex_escape '2' '0' '2' '9' 2 0 2 9 tail (by decide)
                        (by decide) (by decide) (by decide) (by decide) (by decide)
                    · rename_i h1 h2 _ _ _ _ _ h8 _ _
                      have h32 : ¬ c.toNat < 32 := by
                        simp only [Bool.or_eq_true, decide_eq_true_eq, not_or] at h8
                        exact h8.1.1.1
                      exact scanString_text c tail h1 h2 h32

/-- The decoder reads back the string the encoder wrote. -/
theorem parseString_escapeString (s rest : GoString) :
    parseString (escapeString s ++ '"' :: rest) = some (s, rest) := by
  unfold parseString
  induction s with
  | nil =>
    simp only [escapeString, List.nil_append]
    rw [scanString]
    simp only [if_true, flushPending]
  | cons c s ih =>
    simp only [escapeString, List.append_assoc]
    rw [parseString_escapeChar, ih]
    rfl

/-! ### Numbers -/

theorem mem_of_dropWhile (p : Char → Bool) (Q : Char → Prop) (s : GoString)
    (hp : ∀ c, p c = true → Q c) (hd : ∀ c ∈ s.dropWhile p, Q c) : ∀ c ∈ s, Q c := by
  induction s with
  | nil => intro c hc; simp at hc
  | cons a s ih =>
    intro c hc
    by_cases ha : p a = true
    · rw [List.dropWhile_cons, if_pos ha] at hd
      rcases List.mem_cons.mp hc with h | h
      · rw [h]; exact hp a ha
      · exact ih hd c h
    · rw [List.dropWhile_cons, if_neg ha] at hd
      exact hd c hc

theorem isDigit_isNumberChar (c : Char) (h : isDigit c = true) : isNumberChar c = true := by
  simp [isNumberChar, h]

theorem all_isDigit_isNumberChar (t : GoString) (h : t.all isDigit = true) :
    ∀ c ∈ t, isNumberChar c = true := by
  intro c hc
  exact isDigit_isNumberChar c (List.all_eq_true.mp h c hc)

theorem validExp_chars (s : GoString) (h : validExp s = true) :
    ∀ c ∈ s, isNumberChar c = true := by
  cases s with
  | nil => intro c hc; simp at hc
  | cons a r =>
    simp only [validExp] at h
    split at h
    · rename_i ha
      have hA : isNumberChar a = true := by
        simp only [Bool.or_eq_true, decide_eq_true_eq] at ha
        rcases ha with ha | ha <;> subst ha <;> decide
      cases r with
      | nil => simp at h
      | cons b t =>
        simp only at h
        split at h
        · rename_i hb
          have hB : isNumberChar b = true := by
            simp only [Bool.or_eq_true, decide_eq_true_eq] at hb
            rcases hb with hb | hb <;> subst hb <;> decide
          simp only [Bool.and_eq_true] at h
          intro c hc
          rcases List.mem_cons.mp hc with h1 | h1
          · rw [h1]; exact hA
          · rcases List.mem_cons.mp h1 with h2 | h2
            · rw [h2]; exact hB
            · exact all_isDigit_isNumberChar t h.2 c h2
        · simp only [Bool.and_eq_true] at h
          intro c hc
          rcases List.mem_cons.mp hc with h1 | h1
          · rw [h1]; exact hA
          · rcases List.mem_cons.mp h1 with h2 | h2
            · rw [h2]; exact isDigit_isNumberChar b h.1
            · exact all_isDigit_isNumberChar t h.2 c h2
    · simp at h

theorem validFrac_chars (s : GoString) (h : validFrac s = true) :
    ∀ c ∈ s, isNumberChar c = true := by
  cases s with
  | nil => intro c hc; simp at hc
  | cons a r =>
    simp only [validFrac] at h
    split at h
    · rename_i ha
      subst ha
      cases r with
      | nil => simp at h
      | cons d t =>
        simp only [Bool.and_eq_true] at h
        intro c hc
        rcases List.mem_cons.mp hc with h1 | h1
        · rw [h1]; decide
        · rcases List.mem_cons.mp h1 with h2 | h2
          · rw [h2]; exact isDigit_isNumberChar d h.1
          · exact mem_of_dropWhile isDigit _ t isDigit_isNumberChar (validExp_chars _ h.2) c h2
    · exact validExp_chars _ h

theorem validInt_chars (s : GoString) (h : validInt s = true) :
    ∀ c ∈ s, isNumberChar c = true := by
  cases s with
  | nil => simp [validInt] at h
  | cons a r =>
    simp only [validInt] at h
    split at h
    · rename_i ha
      subst ha
      intro c hc
      rcases List.mem_cons.mp hc with h1 | h1
      · rw [h1]; decide
      · exact validFrac_chars r h c h1
    · split at h
      · rename_i ha
        intro c hc
        rcases List.mem_cons.mp hc with h1 | h1
        · rw [h1]; exact isDigit_isNumberChar a ha
        · exact mem_of_dropWhile isDigit _ r isDigit_isNumberChar (validFrac_chars _ h) c h1
      · simp at h

/-- A number literal consists of number characters. -/
theorem validNumber_chars (s : GoString) (h : validNumber s = true) :
    ∀ c ∈ s, isNumberChar c = true := by
  cases s with
  | nil => simp [validNumber] at h
  | cons a r =>
    simp only [validNumber] at h
    split at h
    · rename_i ha
      subst ha
      intro c hc
      rcases List.mem_cons.mp hc with h1 | h1
      · rw [h1]; decide
      · exact validInt_chars r h c h1
    · exact validInt_chars _ h

/-- A number literal begins with a minus sign or a digit. -/
theorem validNumber_head (s : GoString) (h : validNumber s = true) :
    ∃ c r, s = c :: r ∧ (c = '-' ∨ isDigit c = true) := by
  cases s with
  | nil => simp [validNumber] at h
  | cons a r =>
    refine ⟨a, r, rfl, ?_⟩
    simp only [validNumber] at h
    split at h
    · rename_i ha; exact Or.inl ha
    · simp only [validInt] at h
      split at h
      · rename_i ha; subst ha; exact Or.inr (by decide)
      · split at h
        · rename_i ha; exact Or.inr ha
        · simp at h

theorem takeWhile_append_end (p : Char → Bool) (l rest : GoString)
    (hl : ∀ c ∈ l, p c = true) (hr : ∀ c r, rest = c :: r → p c = false) :
    (l ++ rest).takeWhile p = l ∧ (l ++ rest).dropWhile p = rest := by
  induction l with
  | nil =>
    cases rest with
    | nil => simp
    | cons c r =>
      have := hr c r rfl
      simp [List.takeWhile_cons, List.dropWhile_cons, this]
  | cons a l ih =>
    have ha : p a = true := hl a (by simp)
    have := ih (fun c hc => hl c (by simp [hc]))
    simp [List.takeWhile_cons, List.dropWhile_cons, ha, this.1, this.2]

/-! ### Documents: reading back what the encoder writes -/

theorem isValueStart_facts (c : Char) (h : isValueStart c = true) :
    isJSONSpace c = false ∧ c ≠ ']' ∧ c ≠ '}' ∧ c ≠ ',' := by
  simp only [isValueStart, Bool.or_eq_true, decide_eq_true_eq] at h
  rcases h with ((((((h | h) | h) | h) | h) | h) | h) | h
  · subst h; decide
  · subst h; decide
  · subst h; decide
  · subst h; decide
  · subst h; decide
  · subst h; decide
  · subst h; decide
  · refine ⟨?_, ?_, ?_, ?_⟩
    · simp only [isDigit, Bool.and_eq_true, decide_eq_true_eq] at h
      simp only [isJSONSpace, Bool.or_eq_false_iff, decide_eq_false_iff_not]
      omega
    · intro hc; subst hc; revert h; decide
    · intro hc; subst hc; revert h; decide
    · intro hc; subst hc; revert h; decide

theorem numberStart_facts (c : Char) (h : c = '-' ∨ isDigit c = true) :
    c ≠ '{' ∧ c ≠ '[' ∧ c ≠ '"' ∧ c ≠ 't' ∧ c ≠ 'f' ∧ c ≠ 'n'
      ∧ (c = '-' || isDigit c) = true ∧ isValueStart c = true := by
  rcases h with h | h
  · subst h; decide
  · refine ⟨?_, ?_, ?_, ?_, ?_, ?_, ?_, ?_⟩
    · intro hc; subst hc; revert h; decide
    · intro hc; subst hc; revert h; decide
    · intro hc; subst hc; revert h; decide
    · intro hc; subst hc; revert h; decide
    · intro hc; subst hc; revert h; decide
    · intro hc; subst hc; revert h; decide
    · simp [h]
    · simp [isValueStart, h]

theorem skipSpace_cons (c : Char) (r : GoString) (h : isJSONSpace c = false) :
    skipSpace (c :: r) = c :: r := by
  simp [skipSpace, List.dropWhile_cons, h]

/-- The text of a value begins with a character that can begin a value. -/
theorem encodeValue_head (v : JValue) (hv : v.Numbers (fun l => validNumber l = true)) :
    ∃ c r, encodeValue v = c :: r ∧ isValueStart c = true := by
  cases v with
  | null => exact ⟨'n', "ull".toList, rfl, by decide⟩
  | bool b =>
    cases b
    · exact ⟨'f', "alse".toList, rfl, by decide⟩
    · exact ⟨'t', "rue".toList, rfl, by decide⟩
  | num lit =>
    simp only [JValue.Numbers] at hv
    obtain ⟨c, r, h1, h2⟩ := validNumber_head lit hv
    exact ⟨c, r, by simp [encodeValue, h1], (numberStart_facts c h2).2.2.2.2.2.2.2⟩
  | str s =>
    exact ⟨'"', escapeString s ++ ['"'], by simp only [encodeValue, encodeString], by decide⟩
  | arr xs => exact ⟨'[', encodeElements xs ++ [']'], by simp only [encodeValue], by decide⟩
  | obj ms => exact ⟨'{', encodeMembers ms ++ ['}'], by simp only [encodeValue], by decide⟩

theorem encodeElements_head (xs : List JValue) (hne : xs ≠ [])
    (hv : numbersList (fun l => validNumber l = true) xs) :
    ∃ c r, encodeElements xs = c :: r ∧ isValueStart c = true := by
  cases xs with
  | nil => exact absurd rfl hne
  | cons v xs =>
    simp only [numbersList] at hv
    obtain ⟨c, r, hc, hstart⟩ := encodeValue_head v hv.1
    cases xs with
    | nil => exact ⟨c, r, by simp only [encodeElements, hc], hstart⟩
    | cons w ws =>
      refine ⟨c, r ++ ',' :: encodeElements (w :: ws), ?_, hstart⟩
      rw [encodeElements, hc, List.cons_append]

theorem encodeMembers_head (ms : List (GoString × JValue)) (hne : ms ≠ []) :
    ∃ r, encodeMembers ms = '"' :: r := by
  cases ms with
  | nil => exact absurd rfl hne
  | cons e ms =>
    obtain ⟨k, v⟩ := e
    cases ms with
    | nil =>
      refine ⟨escapeString k ++ ['"'] ++ ':' :: encodeValue v, ?_⟩
      simp only [encodeMembers, encodeString, List.cons_append]
    | cons w ws =>
      refine ⟨escapeString k ++ ['"'] ++ ':' :: (encodeValue v ++ ',' :: encodeMembers (w :: ws)), ?_⟩
      rw [encodeMembers]
      simp only [encodeString, List.cons_append]

theorem NumberEnd_cons (c : Char) (r : GoString) (h : isNumberChar c = false) :
    NumberEnd (c :: r) := by
  intro c1 r1 h1
  simp only [List.cons.injEq] at h1
  rw [← h1.1]; exact h

mutual
/-- Reading the text of a value gives the value back. -/
theorem parseValue_encodeValue :
    ∀ (v : JValue) (fuel depth : Nat) (rest : GoString),
      v.Numbers (fun l => validNumber l = true) → v.size ≤ fuel →
      depth + v.height ≤ maxNestingDepth → NumberEnd rest →
      parseValue fuel depth (encodeValue v ++ rest) = some (v, rest)
  | JValue.null, fuel, depth, rest, _, hsz, _, _ => by
    cases fuel with
    | zero => simp [JValue.size] at hsz
    | succ f =>
      show parseValue (f + 1) depth ('n' :: 'u' :: 'l' :: 'l' :: rest) = _
      rw [parseValue, skipSpace_cons _ _ (by decide)]
      simp [dropPrefix]
  | JValue.bool b, fuel, depth, rest, _, hsz, _, _ => by
    cases fuel with
    | zero => simp [JValue.size] at hsz
    | succ f =>
      cases b
      · show parseValue (f + 1) depth ('f' :: 'a' :: 'l' :: 's' :: 'e' :: rest) = _
        rw [parseValue, skipSpace_cons _ _ (by decide)]
        simp [dropPrefix]
      · show parseValue (f + 1) depth ('t' :: 'r' :: 'u' :: 'e' :: rest) = _
        rw [parseValue, skipSpace_cons _ _ (by decide)]
        simp [dropPrefix]
  | JValue.num lit, fuel, depth, rest, hnum, hsz, _, hend => by
    cases fuel with
    | zero => simp [JValue.size] at hsz
    | succ f =>
      simp only [JValue.Numbers] at hnum
      obtain ⟨c, r, hlit, hc⟩ := validNumber_head lit hnum
      obtain ⟨h1, h2, h3, h4, h5, h6, h7, h8⟩ := numberStart_facts c hc
      have htd := takeWhile_append_end isNumberChar lit rest (validNumber_chars lit hnum) hend
      simp only [encodeValue]
      rw [hlit] at htd ⊢
      rw [List.cons_append] at htd ⊢
      rw [parseValue, skipSpace_cons _ _ (isValueStart_facts c h8).1]
      simp only [if_neg h1, if_neg h2, if_neg h3, if_neg h4, if_neg h5, if_neg h6, h7, if_true,
        htd.1, htd.2, ← hlit, hnum]
  | JValue.str s, fuel, depth, rest, _, hsz, _, _ => by
    cases fuel with
    | zero => simp [JValue.size] at hsz
    | succ f =>
      simp only [encodeValue, encodeString, List.cons_append, List.append_assoc,
        List.singleton_append]
      rw [parseValue, skipSpace_cons _ _ (by decide)]
      simp [parseString_escapeString]
  | JValue.arr xs, fuel, depth, rest, hnum, hsz, hd, _ => by
    cases fuel with
    | zero => simp [JValue.size] at hsz
    | succ f =>
      simp only [JValue.size] at hsz
      simp only [JValue.height] at hd
      simp only [JValue.Numbers] at hnum
      have hdepth : depth < maxNestingDepth := by omega
      simp only [encodeValue, List.cons_append, List.append_assoc, List.singleton_append,
        List.nil_append]
      rw [parseValue, skipSpace_cons _ _ (by decide)]
      simp only [show ¬ ('[' = '{') from by decide, if_false, if_true, hdepth]
      cases xs with
      | nil =>
        simp only [encodeElements, List.nil_append]
        rw [skipSpace_cons _ _ (by decide)]
        simp
      | cons v xs =>
        have hrec := parseElements_encodeElements (v :: xs) f (depth + 1) rest
          (by simp) hnum (by omega) (by omega)
        obtain ⟨c, r, hc, hstart⟩ := encodeElements_head (v :: xs) (by simp) hnum
        rw [hc, List.cons_append] at hrec ⊢
        rw [skipSpace_cons _ _ (isValueStart_facts c hstart).1]
        simp only [if_neg (isValueStart_facts c hstart).2.1, hrec, Option.map_some']
  | JValue.obj ms, fuel, depth, rest, hnum, hsz, hd, _ => by
    cases fuel with
    | zero => simp [JValue.size] at hsz
    | succ f =>
      simp only [JValue.size] at hsz
      simp only [JValue.height] at hd
      simp only [JValue.Numbers] at hnum
      have hdepth : depth < maxNestingDepth := by omega
      simp only [encodeValue, List.cons_append, List.append_assoc, List.singleton_append,
        List.nil_append]
      rw [parseValue, skipSpace_cons _ _ (by decide)]
      simp only [if_true, hdepth]
      cases ms with
      | nil =>
        simp only [encodeMembers, List.nil_append]
        rw [skipSpace_cons _ _ (by decide)]
        simp
      | cons e ms =>
        have hrec := parseMembers_encodeMembers (e :: ms) f (depth + 1) rest
          (by simp) hnum (by omega) (by omega)
        obtain ⟨r2, hr2⟩ := encodeMembers_head (e :: ms) (by simp)
        rw [hr2, List.cons_append] at hrec ⊢
        rw [skipSpace_cons _ _ (by decide)]
        simp only [show ¬ ('"' = '}') from by decide, if_false, hrec, Option.map_some']
/-- Reading the text of the elements of an array gives the elements back. -/
theorem parseElements_encodeElements :
    ∀ (xs : List JValue) (fuel depth : Nat) (rest : GoString), xs ≠ [] →
      numbersList (fun l => validNumber l = true) xs → sizeList xs ≤ fuel →
      depth + heightList xs ≤ maxNestingDepth →
      parseElements fuel depth (encodeElements xs ++ ']' :: rest) = some (xs, rest)
  | [], _, _, _, hne, _, _, _ => absurd rfl hne
  | [v], fuel, depth, rest, _, hnum, hsz, hd => by
    cases fuel with
    | zero => simp [sizeList] at hsz
    | succ f =>
      simp only [sizeList] at hsz
      simp only [heightList] at hd
      simp only [numbersList] at hnum
      have hv := parseValue_encodeValue v f depth (']' :: rest) hnum.1 (by omega) (by omega)
        (NumberEnd_cons _ _ (by decide))
      simp only [encodeElements]
      rw [parseElements, hv]
      simp only [skipSpace_cons _ _ (show isJSONSpace ']' = false from by decide)]
      simp
  | v :: w :: xs, fuel, depth, rest, _, hnum, hsz, hd => by
    cases fuel with
    | zero => simp [sizeList] at hsz
    | succ f =>
      rw [sizeList] at hsz
      rw [heightList] at hd
      rw [numbersList] at hnum
      have hv := parseValue_encodeValue v f depth
        (',' :: (encodeElements (w :: xs) ++ ']' :: rest)) hnum.1 (by omega) (by omega)
        (NumberEnd_cons _ _ (by decide))
      have hrec := parseElements_encodeElements (w :: xs) f depth rest (by simp) hnum.2
        (by omega) (by omega)
      rw [encodeElements]
      simp only [List.append_assoc, List.cons_append]
      rw [parseElements, hv]
      simp only [skipSpace_cons _ _ (show isJSONSpace ',' = false from by decide)]
      simp only [if_true, hrec, Option.map_some']
/-- Reading the text of the members of an object gives the members back. -/
theorem parseMembers_encodeMembers :
    ∀ (ms : List (GoString × JValue)) (fuel depth : Nat) (rest : GoString), ms ≠ [] →
      numbersMembers (fun l => validNumber l = true) ms → sizeMembers ms ≤ fuel →
      depth + heightMembers ms ≤ maxNestingDepth →
      parseMembers fuel depth (encodeMembers ms ++ '}' :: rest) = some (ms, rest)
  | [], _, _, _, hne, _, _, _ => absurd rfl hne
  | [(k, v)], fuel, depth, rest, _, hnum, hsz, hd => by
    cases fuel with
    | zero => simp [sizeMembers] at hsz
    | succ f =>
      simp only [sizeMembers] at hsz
      simp only [heightMembers] at hd
      simp only [numbersMembers] at hnum
      have hv := parseValue_encodeValue v f depth ('}' :: rest) hnum.1 (by omega) (by omega)
        (NumberEnd_cons _ _ (by decide))
      simp only [encodeMembers, encodeString, List.cons_append, List.append_assoc,
        List.singleton_append, List.nil_append]
      rw [parseMembers, skipSpace_cons _ _ (by decide)]
      simp only [if_true, parseString_escapeString]
      rw [skipSpace_cons _ _ (by decide)]
      simp only [if_true, hv]
      rw [skipSpace_cons _ _ (by decide)]
      simp
  | (k, v) :: w :: ms, fuel, depth, rest, _, hnum, hsz, hd => by
    cases fuel with
    | zero => simp [sizeMembers] at hsz
    | succ f =>
      rw [sizeMembers] at hsz
      rw [heightMembers] at hd
      rw [numbersMembers] at hnum
      have hv := parseValue_encodeValue v f depth
        (',' :: (encodeMembers (w :: ms) ++ '}' :: rest)) hnum.1 (by omega) (by omega)
        (NumberEnd_cons _ _ (by decide))
      have hrec := parseMembers_encodeMembers (w :: ms) f depth rest (by simp) hnum.2
        (by omega) (by omega)
      rw [encodeMembers]
      simp only [encodeString, List.cons_append, List.append_assoc, List.singleton_append,
        List.nil_append]
      rw [parseMembers, skipSpace_cons _ _ (by decide)]
      simp only [if_true, parseString_escapeString]
      rw [skipSpace_cons _ _ (by decide)]
      simp only [if_true, hv]
      rw [skipSpace_cons _ _ (by decide)]
      simp only [if_true, hrec, Option.map_some']
end

/-! ### The size of a document and the length of its text -/

mutual
theorem size_le_length :
    ∀ (v : JValue), v.Numbers (fun l => validNumber l = true) →
      v.size ≤ (encodeValue v).length
  | JValue.null, _ => by simp [JValue.size, encodeValue]
  | JValue.bool b, _ => by cases b <;> simp [JValue.size, encodeValue]
  | JValue.num lit, h => by
    simp only [JValue.Numbers] at h
    obtain ⟨c, r, hlit, _⟩ := validNumber_head lit h
    simp [JValue.size, encodeValue, hlit]
  | JValue.str s, _ => by simp [JValue.size, encodeValue, encodeString]
  | JValue.arr xs, h => by
    simp only [JValue.Numbers] at h
    have := sizeList_le_length xs h
    simp only [JValue.size, encodeValue, List.length_cons, List.length_append,
      List.length_singleton, List.length_nil]
    omega
  | JValue.obj ms, h => by
    simp only [JValue.Numbers] at h
    have := sizeMembers_le_length ms h
    simp only [JValue.size, encodeValue, List.length_cons, List.length_append,
      List.length_singleton, List.length_nil]
    omega
theorem sizeList_le_length :
    ∀ (xs : List JValue), numbersList (fun l => validNumber l = true) xs →
      sizeList xs ≤ (encodeElements xs).length + 1
  | [], _ => by simp [sizeList]
  | [v], h => by
    simp only [numbersList] at h
    have := size_le_length v h.1
    simp only [sizeList, encodeElements]
    omega
  | v :: w :: xs, h => by
    rw [numbersList] at h
    have h1 := size_le_length v h.1
    have h2 := sizeList_le_length (w :: xs) h.2
    rw [sizeList, encodeElements]
    simp only [List.length_append, List.length_cons]
    omega
theorem sizeMembers_le_length :
    ∀ (ms : List (GoString × JValue)), numbersMembers (fun l => validNumber l = true) ms →
      sizeMembers ms ≤ (encodeMembers ms).length + 1
  | [], _ => by simp [sizeMembers]
  | [(k, v)], h => by
    simp only [numbersMembers] at h
    have := size_le_length v h.1
    simp only [sizeMembers, encodeMembers, List.length_append, List.length_cons]
    omega
  | (k, v) :: w :: ms, h => by
    rw [numbersMembers] at h
    have h1 := size_le_length v h.1
    have h2 := sizeMembers_le_length (w :: ms) h.2
    rw [sizeMembers, encodeMembers]
    simp only [List.length_append, List.length_cons]
    omega
end

/-- `json.Unmarshal`'s reading of a document gives back a tree whose text is
the input, for a tree within the nesting limit and with well-formed numbers. -/
theorem parseJSON_encodeValue (v : JValue) (hn : v.Numbers (fun l => validNumber l = true))
    (hh : v.height ≤ maxNestingDepth) : parseJSON (encodeValue v) = some v := by
  unfold parseJSON
  have hsz := size_le_length v hn
  have h := parseValue_encodeValue v (2 * (encodeValue v).length + 2) 0 [] hn (by omega)
    (by omega) (by intro c r hc; exact absurd hc (by simp))
  rw [List.append_nil] at h
  rw [h]
  rfl

/-! ### Map writes keep the shape of a decoded document -/

theorem numbersMembers_insert (P : GoString → Prop) (m : JMap) (k : GoString) (v : JValue)
    (hm : numbersMembers P m) (hv : v.Numbers P) : numbersMembers P (JMap.insert m k v) := by
  induction m with
  | nil => simp only [JMap.insert, numbersMembers]; exact ⟨hv, trivial⟩
  | cons e t ih =>
    obtain ⟨k1, v1⟩ := e
    simp only [numbersMembers] at hm
    simp only [JMap.insert]
    split
    · simp only [numbersMembers]; exact ⟨hv, hm.2⟩
    · split
      · simp only [numbersMembers]; exact ⟨hv, hm.1, hm.2⟩
      · simp only [numbersMembers]; exact ⟨hm.1, ih hm.2⟩

theorem mapsSortedMembers_insert (m : JMap) (k : GoString) (v : JValue)
    (hm : mapsSortedMembers m) (hv : v.MapsSorted) : mapsSortedMembers (JMap.insert m k v) := by
  induction m with
  | nil => simp only [JMap.insert, mapsSortedMembers]; exact ⟨hv, trivial⟩
  | cons e t ih =>
    obtain ⟨k1, v1⟩ := e
    simp only [mapsSortedMembers] at hm
    simp only [JMap.insert]
    split
    · simp only [mapsSortedMembers]; exact ⟨hv, hm.2⟩
    · split
      · simp only [mapsSortedMembers]; exact ⟨hv, hm.1, hm.2⟩
      · simp only [mapsSortedMembers]; exact ⟨hm.1, ih hm.2⟩

theorem heightMembers_insert (m : JMap) (k : GoString) (v : JValue) :
    heightMembers (JMap.insert m k v) ≤ max (heightMembers m) v.height := by
  induction m with
  | nil => simp [JMap.insert, heightMembers]
  | cons e t ih =>
    obtain ⟨k1, v1⟩ := e
    simp only [JMap.insert]
    split
    · simp only [heightMembers]; omega
    · split
      · simp only [heightMembers]; omega
      · simp only [heightMembers]; omega

/-! ### What the reader of a document returns -/

/-- A document that was read has well-formed numbers and stays within the
nesting limit. -/
theorem parse_shape (fuel : Nat) :
    (∀ depth s v r, parseValue fuel depth s = some (v, r) →
        v.Numbers (fun l => validNumber l = true) ∧ v.height ≤ maxNestingDepth - depth)
    ∧ (∀ depth s xs r, parseElements fuel depth s = some (xs, r) →
        numbersList (fun l => validNumber l = true) xs
          ∧ heightList xs ≤ maxNestingDepth - depth)
    ∧ (∀ depth s ms r, parseMembers fuel depth s = some (ms, r) →
        numbersMembers (fun l => validNumber l = true) ms
          ∧ heightMembers ms ≤ maxNestingDepth - depth) := by
  induction fuel with
  | zero =>
    refine ⟨?_, ?_, ?_⟩
    · intro depth s v r h; simp [parseValue] at h
    · intro depth s xs r h; simp [parseElements] at h
    · intro depth s ms r h; simp [parseMembers] at h
  | succ f ih =>
    obtain ⟨ihV, ihE, ihM⟩ := ih
    refine ⟨?_, ?_, ?_⟩
    · intro depth s v r h
      rw [parseValue] at h
      split at h
      · exact absurd h (by simp)
      · split at h
        · split at h
          · split at h
            · exact absurd h (by simp)
            · split at h
              · simp only [Option.some.injEq, Prod.mk.injEq] at h
                rw [← h.1]
                simp only [JValue.Numbers, numbersMembers, JValue.height, heightMembers]
                exact ⟨trivial, by omega⟩
              · cases hm : parseMembers f (depth + 1) _ with
                | none => rw [hm] at h; simp at h
                | some p =>
                  rw [hm] at h
                  simp only [Option.map_some', Option.some.injEq, Prod.mk.injEq] at h
                  have := (ihM _ _ _ _ hm).2
                  rw [← h.1]
                  simp only [JValue.Numbers, JValue.height]
                  exact ⟨(ihM _ _ _ _ hm).1, by omega⟩
          · exact absurd h (by simp)
        · split at h
          · split at h
            · split at h
              · exact absurd h (by simp)
              · split at h
                · simp only [Option.some.injEq, Prod.mk.injEq] at h
                  rw [← h.1]
                  simp only [JValue.Numbers, numbersList, JValue.height, heightList]
                  exact ⟨trivial, by omega⟩
                · cases hm : parseElements f (depth + 1) _ with
                  | none => rw [hm] at h; simp at h
                  | some p =>
                    rw [hm] at h
                    simp only [Option.map_some', Option.some.injEq, Prod.mk.injEq] at h
                    have := (ihE _ _ _ _ hm).2
                    rw [← h.1]
                    simp only [JValue.Numbers, JValue.height]
                    exact ⟨(ihE _ _ _ _ hm).1, by omega⟩
            · exact absurd h (by simp)
          · split at h
            · cases hp : parseString _ with
              | none => rw [hp] at h; simp at h
              | some p =>
                rw [hp] at h
                simp only [Option.map_some', Option.some.injEq, Prod.mk.injEq] at h
                rw [← h.1]
                simp only [JValue.Numbers, JValue.height]
                exact ⟨trivial, by omega⟩
            · split at h
              · cases hp : dropPrefix "rue".toList _ with
                | none => rw [hp] at h; simp at h
                | some p =>
                  rw [hp] at h
                  simp only [Option.map_some', Option.some.injEq, Prod.mk.injEq] at h
                  rw [← h.1]
                  simp only [JValue.Numbers, JValue.height]
                  exact ⟨trivial, by omega⟩
              · split at h
                · cases hp : dropPrefix "alse".toList _ with
                  | none => rw [hp] at h; simp at h
                  | some p =>
                    rw [hp] at h
                    simp only [Option.map_some', Option.some.injEq, Prod.mk.injEq] at h
                    rw [← h.1]
                    simp only [JValue.Numbers, JValue.height]
                    exact ⟨trivial, by omega⟩
                · split at h
                  · cases hp : dropPrefix "ull".toList _ with
                    | none => rw [hp] at h; simp at h
                    | some p =>
                      rw [hp] at h
                      simp only [Option.map_some', Option.some.injEq, Prod.mk.injEq] at h
                      rw [← h.1]
                      simp only [JValue.Numbers, JValue.height]
                      exact ⟨trivial, by omega⟩
                  · split at h
                    · split at h
                      · rename_i hvalid
                        simp only [Option.some.injEq, Prod.mk.injEq] at h
                        rw [← h.1]
                        simp only [JValue.Numbers, JValue.height]
                        exact ⟨hvalid, by omega⟩
                      · exact absurd h (by simp)
                    · exact absurd h (by simp)
    · intro depth s xs r h
      rw [parseElements] at h
      split at h
      · exact absurd h (by simp)
      · rename_i v r1 hv
        have hV := ihV _ _ _ _ hv
        split at h
        · exact absurd h (by simp)
        · split at h
          · cases hm : parseElements f depth _ with
            | none => rw [hm] at h; simp at h
            | some p =>
              rw [hm] at h
              simp only [Option.map_some', Option.some.injEq, Prod.mk.injEq] at h
              have hE := ihE _ _ _ _ hm
              rw [← h.1]
              simp only [numbersList, heightList]
              exact ⟨⟨hV.1, hE.1⟩, by have := hV.2; have := hE.2; omega⟩
          · split at h
            · simp only [Option.some.injEq, Prod.mk.injEq] at h
              rw [← h.1]
              simp only [numbersList, heightList]
              exact ⟨⟨hV.1, trivial⟩, by have := hV.2; omega⟩
            · exact absurd h (by simp)
    · intro depth s ms r h
      rw [parseMembers] at h
      split at h
      · exact absurd h (by simp)
      · split at h
        · split at h
          · exact absurd h (by simp)
          · split at h
            · exact absurd h (by simp)
            · split at h
              · split at h
                · exact absurd h (by simp)
                · rename_i v r3 hv
                  have hV := ihV _ _ _ _ hv
                  split at h
                  · exact absurd h (by simp)
                  · split at h
                    · cases hm : parseMembers f depth _ with
                      | none => rw [hm] at h; simp at h
                      | some p =>
                        rw [hm] at h
                        simp only [Option.map_some', Option.some.injEq, Prod.mk.injEq] at h
                        have hM := ihM _ _ _ _ hm
                        rw [← h.1]
                        simp only [numbersMembers, heightMembers]
                        exact ⟨⟨hV.1, hM.1⟩, by have := hV.2; have := hM.2; omega⟩
                    · split at h
                      · simp only [Option.some.injEq, Prod.mk.injEq] at h
                        rw [← h.1]
                        simp only [numbersMembers, heightMembers]
                        exact ⟨⟨hV.1, trivial⟩, by have := hV.2; omega⟩
                      · exact absurd h (by simp)
              · exact absurd h (by simp)
        · exact absurd h (by simp)

/-! ### Storing a document into an `any` -/

mutual
/-- What `json.Unmarshal` stores into an `any` has numbers that convert to
themselves and sorted maps, and is nested no deeper than the document. -/
theorem toInterface_shape (f64 : Float64Conv) (hlaw : f64.Lawful) :
    ∀ (v w : JValue), v.Numbers (fun l => validNumber l = true) →
      toInterface f64 v = some w →
      w.Numbers f64.Fixes ∧ w.MapsSorted ∧ w.height ≤ v.height
  | JValue.null, w, _, h => by
    simp only [toInterface, Option.some.injEq] at h
    subst h
    simp [JValue.Numbers, JValue.MapsSorted]
  | JValue.bool b, w, _, h => by
    simp only [toInterface, Option.some.injEq] at h
    subst h
    simp [JValue.Numbers, JValue.MapsSorted]
  | JValue.str s, w, _, h => by
    simp only [toInterface, Option.some.injEq] at h
    subst h
    simp [JValue.Numbers, JValue.MapsSorted]
  | JValue.num lit, w, hv, h => by
    simp only [JValue.Numbers] at hv
    simp only [toInterface] at h
    cases hc : f64 lit with
    | none => rw [hc] at h; simp at h
    | some c =>
      rw [hc] at h
      simp only [Option.map_some', Option.some.injEq] at h
      subst h
      simp only [JValue.Numbers, JValue.MapsSorted, JValue.height]
      exact ⟨hlaw lit c hv hc, trivial, Nat.le_refl _⟩
  | JValue.arr xs, w, hv, h => by
    simp only [JValue.Numbers] at hv
    simp only [toInterface] at h
    cases hc : toInterfaceList f64 xs with
    | none => rw [hc] at h; simp at h
    | some ys =>
      rw [hc] at h
      simp only [Option.map_some', Option.some.injEq] at h
      subst h
      have := toInterfaceList_shape f64 hlaw xs ys hv hc
      simp only [JValue.Numbers, JValue.MapsSorted, JValue.height]
      exact ⟨this.1, this.2.1, by have := this.2.2; omega⟩
  | JValue.obj ms, w, hv, h => by
    simp only [JValue.Numbers] at hv
    simp only [toInterface] at h
    cases hc : toInterfaceMap f64 ms [] with
    | none => rw [hc] at h; simp at h
    | some m =>
      rw [hc] at h
      simp only [Option.map_some', Option.some.injEq] at h
      subst h
      have := toInterfaceMap_shape f64 hlaw ms [] m hv hc trivial
        (by simp [keysIncreasing]) trivial
      simp only [JValue.Numbers, JValue.MapsSorted, JValue.height]
      refine ⟨this.1, ⟨this.2.1, this.2.2.1⟩, ?_⟩
      have := this.2.2.2
      simp only [heightMembers] at this
      omega
/-- The elements stored into a `[]any`. -/
theorem toInterfaceList_shape (f64 : Float64Conv) (hlaw : f64.Lawful) :
    ∀ (xs ys : List JValue), numbersList (fun l => validNumber l = true) xs →
      toInterfaceList f64 xs = some ys →
      numbersList f64.Fixes ys ∧ mapsSortedList ys ∧ heightList ys ≤ heightList xs
  | [], ys, _, h => by
    simp only [toInterfaceList, Option.some.injEq] at h
    subst h
    simp [numbersList, mapsSortedList]
  | v :: r, ys, hv, h => by
    simp only [numbersList] at hv
    simp only [toInterfaceList] at h
    cases h1 : toInterface f64 v with
    | none => rw [h1] at h; simp at h
    | some a =>
      cases h2 : toInterfaceList f64 r with
      | none => rw [h1, h2] at h; simp at h
      | some b =>
        rw [h1, h2] at h
        simp only [Option.some.injEq] at h
        subst h
        have hA := toInterface_shape f64 hlaw v a hv.1 h1
        have hB := toInterfaceList_shape f64 hlaw r b hv.2 h2
        simp only [numbersList, mapsSortedList, heightList]
        exact ⟨⟨hA.1, hB.1⟩, ⟨hA.2.1, hB.2.1⟩, by have := hA.2.2; have := hB.2.2; omega⟩
/-- The members stored one after the other into a map. -/
theorem toInterfaceMap_shape (f64 : Float64Conv) (hlaw : f64.Lawful) :
    ∀ (ms : List (GoString × JValue)) (acc m : JMap),
      numbersMembers (fun l => validNumber l = true) ms →
      toInterfaceMap f64 ms acc = some m →
      numbersMembers f64.Fixes acc → keysIncreasing acc → mapsSortedMembers acc →
      numbersMembers f64.Fixes m ∧ keysIncreasing m ∧ mapsSortedMembers m
        ∧ heightMembers m ≤ max (heightMembers acc) (heightMembers ms)
  | [], acc, m, _, h, h1, h2, h3 => by
    simp only [toInterfaceMap, Option.some.injEq] at h
    subst h
    exact ⟨h1, h2, h3, by omega⟩
  | (k, v) :: r, acc, m, hv, h, h1, h2, h3 => by
    simp only [numbersMembers] at hv
    simp only [toInterfaceMap] at h
    cases hc : toInterface f64 v with
    | none => rw [hc] at h; simp at h
    | some a =>
      rw [hc] at h
      simp only at h
      have hA := toInterface_shape f64 hlaw v a hv.1 hc
      have hrec := toInterfaceMap_shape f64 hlaw r (JMap.insert acc k a) m hv.2 h
        (numbersMembers_insert _ acc k a h1 hA.1) (keysIncreasing_insert acc k a h2)
        (mapsSortedMembers_insert acc k a h3 hA.2.1)
      refine ⟨hrec.1, hrec.2.1, hrec.2.2.1, ?_⟩
      have := hrec.2.2.2
      have := heightMembers_insert acc k a
      have := hA.2.2
      simp only [heightMembers]
      omega
end

mutual
/-- Storing into an `any` a document that is already of the stored shape
changes nothing. -/
theorem toInterface_fixed (f64 : Float64Conv) :
    ∀ (w : JValue), w.Numbers f64.Fixes → w.MapsSorted → toInterface f64 w = some w
  | JValue.null, _, _ => by simp [toInterface]
  | JValue.bool b, _, _ => by simp [toInterface]
  | JValue.str s, _, _ => by simp [toInterface]
  | JValue.num lit, hn, _ => by
    simp only [JValue.Numbers, Float64Conv.Fixes] at hn
    simp [toInterface, hn.2]
  | JValue.arr xs, hn, hs => by
    simp only [JValue.Numbers] at hn
    simp only [JValue.MapsSorted] at hs
    simp [toInterface, toInterfaceList_fixed f64 xs hn hs]
  | JValue.obj ms, hn, hs => by
    simp only [JValue.Numbers] at hn
    simp only [JValue.MapsSorted] at hs
    have := toInterfaceMap_fixed f64 ms [] hn hs.2 (by simpa using hs.1)
    simp [toInterface, this]
/-- The elements of a stored array are stored unchanged. -/
theorem toInterfaceList_fixed (f64 : Float64Conv) :
    ∀ (xs : List JValue), numbersList f64.Fixes xs → mapsSortedList xs →
      toInterfaceList f64 xs = some xs
  | [], _, _ => by simp [toInterfaceList]
  | v :: r, hn, hs => by
    simp only [numbersList] at hn
    simp only [mapsSortedList] at hs
    simp [toInterfaceList, toInterface_fixed f64 v hn.1 hs.1,
      toInterfaceList_fixed f64 r hn.2 hs.2]
/-- The entries of a stored map, written in key order, give the map back. -/
theorem toInterfaceMap_fixed (f64 : Float64Conv) :
    ∀ (ms : List (GoString × JValue)) (acc : JMap), numbersMembers f64.Fixes ms →
      mapsSortedMembers ms → keysIncreasing (acc ++ ms) →
      toInterfaceMap f64 ms acc = some (acc ++ ms)
  | [], acc, _, _, _ => by simp [toInterfaceMap]
  | (k, v) :: r, acc, hn, hs, hk => by
    simp only [numbersMembers] at hn
    simp only [mapsSortedMembers] at hs
    have hlast : JMap.insert acc k v = acc ++ [(k, v)] := by
      apply JMap.insert_last
      intro a ha
      unfold keysIncreasing at hk
      rw [List.map_append, List.pairwise_append] at hk
      exact hk.2.2 a ha k (by simp)
    have hk2 : keysIncreasing ((acc ++ [(k, v)]) ++ r) := by
      rw [List.append_assoc]; exact hk
    have hrec := toInterfaceMap_fixed f64 r (acc ++ [(k, v)]) hn.2 hs.2 hk2
    simp only [toInterfaceMap, toInterface_fixed f64 v hn.1 hs.1, hlast, hrec]
    simp
end

/-! ### The payload sent upstream -/

mutual
theorem Numbers_mono (P Q : GoString → Prop) (hPQ : ∀ l, P l → Q l) :
    ∀ (v : JValue), v.Numbers P → v.Numbers Q
  | JValue.null, _ => by simp [JValue.Numbers]
  | JValue.bool _, _ => by simp [JValue.Numbers]
  | JValue.str _, _ => by simp [JValue.Numbers]
  | JValue.num lit, h => by
    simp only [JValue.Numbers] at h ⊢
    exact hPQ lit h
  | JValue.arr xs, h => by
    simp only [JValue.Numbers] at h ⊢
    exact numbersList_mono P Q hPQ xs h
  | JValue.obj ms, h => by
    simp only [JValue.Numbers] at h ⊢
    exact numbersMembers_mono P Q hPQ ms h
theorem numbersList_mono (P Q : GoString → Prop) (hPQ : ∀ l, P l → Q l) :
    ∀ (xs : List JValue), numbersList P xs → numbersList Q xs
  | [], _ => by simp [numbersList]
  | v :: r, h => by
    simp only [numbersList] at h ⊢
    exact ⟨Numbers_mono P Q hPQ v h.1, numbersList_mono P Q hPQ r h.2⟩
theorem numbersMembers_mono (P Q : GoString → Prop) (hPQ : ∀ l, P l → Q l) :
    ∀ (ms : List (GoString × JValue)), numbersMembers P ms → numbersMembers Q ms
  | [], _ => by simp [numbersMembers]
  | (k, v) :: r, h => by
    simp only [numbersMembers] at h ⊢
    exact ⟨Numbers_mono P Q hPQ v h.1, numbersMembers_mono P Q hPQ r h.2⟩
end

theorem parseJSON_shape (body : GoString) (v : JValue) (h : parseJSON body = some v) :
    v.Numbers (fun l => validNumber l = true) ∧ v.height ≤ maxNestingDepth := by
  unfold parseJSON at h
  cases hp : parseValue (2 * body.length + 2) 0 body with
  | none => rw [hp] at h; simp at h
  | some p =>
    obtain ⟨v1, r⟩ := p
    rw [hp] at h
    simp only at h
    split at h
    · simp only [Option.some.injEq] at h
      subst h
      have := (parse_shape _).1 _ _ _ _ hp
      exact ⟨this.1, by have := this.2; omega⟩
    · simp at h

/-- The map `json.Unmarshal` fills has the shape of a decoded document. -/
theorem unmarshalMap_shape (f64 : Float64Conv) (hlaw : f64.Lawful) (body : GoString)
    (payload : JMap) (h : unmarshalMap f64 body = some payload) :
    numbersMembers f64.Fixes payload ∧ keysIncreasing payload ∧ mapsSortedMembers payload
      ∧ heightMembers payload + 1 ≤ maxNestingDepth := by
  unfold unmarshalMap at h
  cases hp : parseJSON body with
  | none => rw [hp] at h; simp at h
  | some v =>
    rw [hp] at h
    cases v with
    | null =>
      simp only [Option.some.injEq] at h
      subst h
      exact ⟨trivial, by simp [keysIncreasing], trivial, by decide⟩
    | obj ms =>
      simp only at h
      have hs := parseJSON_shape body _ hp
      simp only [JValue.Numbers, JValue.height] at hs
      have := toInterfaceMap_shape f64 hlaw ms [] payload hs.1 h trivial
        (by simp [keysIncreasing]) trivial
      refine ⟨this.1, this.2.1, this.2.2.1, ?_⟩
      have h1 := this.2.2.2
      have h2 := hs.2
      simp only [heightMembers] at h1
      omega
    | bool b => simp at h
    | num l => simp at h
    | str s => simp at h
    | arr xs => simp at h

/-- `json.Unmarshal` reads back the map that `json.Marshal` wrote. -/
theorem unmarshalMap_marshal (f64 : Float64Conv) (m : JMap)
    (hn : numbersMembers f64.Fixes m) (hk : keysIncreasing m) (hs : mapsSortedMembers m)
    (hh : heightMembers m + 1 ≤ maxNestingDepth) :
    unmarshalMap f64 (encodeValue (JValue.obj m)) = some m := by
  have hvalid : (JValue.obj m).Numbers (fun l => validNumber l = true) := by
    simp only [JValue.Numbers]
    exact numbersMembers_mono _ _ (fun l hl => hl.1) m hn
  have hp := parseJSON_encodeValue (JValue.obj m) hvalid (by simp only [JValue.height]; exact hh)
  unfold unmarshalMap
  rw [hp]
  simp only
  have := toInterfaceMap_fixed f64 m [] hn hs (by simpa using hk)
  simpa using this

theorem JMap.mem_keys_of_get (m : JMap) (k : GoString) (v : JValue) (h : m.get k = some v) :
    k ∈ m.map Prod.fst := by
  induction m with
  | nil => simp [JMap.get] at h
  | cons e t ih =>
    obtain ⟨k1, v1⟩ := e
    simp only [JMap.get] at h
    by_cases hk : k1 = k
    · simp [hk]
    · rw [if_neg hk] at h
      simp only [List.map_cons, List.mem_cons]
      exact Or.inr (ih h)

theorem NewRequest_body (lib : URLLib) (method url body : GoString) (req : UpstreamRequest)
    (h : NewRequest lib method url body = some req) : req.Body = body := by
  unfold NewRequest at h
  simp only at h
  repeat' split at h
  all_goals first
    | (simp only [Option.some.injEq] at h; rw [← h])
    | exact absurd h (by simp)

/-- The body of the request handed to the HTTP client is the encoded payload
with the route's model written over the `model` entry. -/
theorem proxyJSON_upstream_body (f64 : Float64Conv) (lib : URLLib) (cfg : Config)
    (client : Client) (w : ResponseWriter) (r : Request) (body : GoString) (payload : JMap)
    (m : GoString) (upReq : UpstreamRequest)
    (hread : ReadAll r.Body = (body, none))
    (hparse : unmarshalMap f64 body = some payload)
    (hmodel : payload.get "model".toList = some (JValue.str m))
    (hup : (proxyJSON f64 lib cfg client w r).upstream = some upReq) :
    (RouteByModel cfg m).2 = true
      ∧ upReq.Body = encodeValue (JValue.obj
          (payload.insert "model".toList (JValue.str (RouteByModel cfg m).1.Params.Model))) := by
  revert hup
  unfold proxyJSON
  simp only [hread, hparse, hmodel]
  split
  · intro hup; exact absurd hup (by simp)
  · split
    · intro hup; exact absurd hup (by simp)
    · rename_i route hroute
      split
      · intro hup; exact absurd hup (by simp)
      · rename_i mutatedBody hmb
        split
        · intro hup; exact absurd hup (by simp)
        · split
          · intro hup; exact absurd hup (by simp)
          · rename_i req hreq
            have hbody := NewRequest_body _ _ _ _ _ hreq
            simp only [marshalMap, Option.some.injEq] at hmb
            have hfinal : ∀ u : UpstreamRequest, some { req with Header := u.Header } = some upReq →
                (RouteByModel cfg m).2 = true
                  ∧ upReq.Body = encodeValue (JValue.obj (payload.insert "model".toList
                      (JValue.str (RouteByModel cfg m).1.Params.Model))) := by
              intro u hu
              simp only [Option.some.injEq] at hu
              rw [← hu, hroute]
              simp only [hbody, hmb, and_self]
            split
            · intro hup
              exact hfinal ⟨[], [], _, []⟩ hup
            · intro hup
              exact hfinal ⟨[], [], _, []⟩ hup

theorem sampleFloat64_lawful : sampleFloat64.Lawful := by
  intro lit c hv hc
  unfold sampleFloat64 at hc ⊢
  split at hc
  · rename_i hcond
    simp only [Option.some.injEq] at hc
    subst hc
    exact ⟨hv, by rw [if_pos hcond]⟩
  · simp at hc

/-- C3, as the code has it: when the inbound body decodes to an object whose
`model` string resolves to a route and a request is sent upstream, the upstream
body decodes to an object with the same keys, whose `model` is the route's
upstream model and whose other entries have the values the client sent, both
bodies read as `json.Unmarshal` decodes them into a `map[string]any`, a number
as its `float64`. -/
theorem upstream_body_keeps_payload (f64 : Float64Conv) (hlaw : f64.Lawful) (lib : URLLib)
    (cfg : Config) (client : Client) (w : ResponseWriter) (r : Request) (body : GoString)
    (payload : JMap) (m : GoString) (upReq : UpstreamRequest)
    (hread : ReadAll r.Body = (body, none))
    (hparse : unmarshalMap f64 body = some payload)
    (hmodel : payload.get "model".toList = some (JValue.str m))
    (hup : (proxyJSON f64 lib cfg client w r).upstream = some upReq) :
    (RouteByModel cfg m).2 = true
      ∧ ∃ sent : JMap, unmarshalMap f64 upReq.Body = some sent
          ∧ (∀ k, k ∈ sent.map Prod.fst ↔ k ∈ payload.map Prod.fst)
          ∧ sent.get "model".toList = some (JValue.str (RouteByModel cfg m).1.Params.Model)
          ∧ ∀ k, k ≠ "model".toList → sent.get k = payload.get k := by
  obtain ⟨hfound, hbody⟩ :=
    proxyJSON_upstream_body f64 lib cfg client w r body payload m upReq hread hparse hmodel hup
  obtain ⟨h1, h2, h3, h4⟩ := unmarshalMap_shape f64 hlaw body payload hparse
  refine ⟨hfound,
    payload.insert "model".toList (JValue.str (RouteByModel cfg m).1.Params.Model), ?_, ?_, ?_, ?_⟩
  · rw [hbody]
    apply unmarshalMap_marshal
    · exact numbersMembers_insert _ _ _ _ h1 (by simp [JValue.Numbers])
    · exact keysIncreasing_insert _ _ _ h2
    · exact mapsSortedMembers_insert _ _ _ h3 (by simp [JValue.MapsSorted])
    · have := heightMembers_insert payload "model".toList
        (JValue.str (RouteByModel cfg m).1.Params.Model)
      simp only [JValue.height] at this
      omega
  · intro k
    rw [JMap.keys_insert]
    constructor
    · rintro (h | h)
      · rw [h]; exact JMap.mem_keys_of_get _ _ _ hmodel
      · exact h
    · exact fun h => Or.inr h
  · exact JMap.get_insert_self _ _ _
  · intro k hk
    exact JMap.get_insert_ne _ _ _ _ hk

/-- C3 at the request of the repository's server test, with a number field
added: the upstream body is the payload in key order with `model` rewritten to
`glm-4.7`. -/
theorem upstream_body_keeps_payload_witness :
    (proxyJSON sampleFloat64 sampleURLLib (Validate sampleURLLib sampleConfig).1
        (sampleClient 200 "ok".toList) sampleWriter
        (sampleRequest ("\x7b\"model\":\"sonnet\",\"stream\":false,\"max_tokens\":1024," ++
          "\"messages\":[\x7b\"role\":\"user\",\"content\":\"hi\"\x7d]\x7d").toList)).upstream
      = some ⟨"POST".toList, "https://api.example.com/v1/messages".toList,
          [("Content-Type".toList, ["application/json".toList]),
           ("Authorization".toList, ["Bearer target-key".toList])],
          ("\x7b\"max_tokens\":1024,\"messages\":[\x7b\"content\":\"hi\",\"role\":\"user\"\x7d]," ++
            "\"model\":\"glm-4.7\",\"stream\":false\x7d").toList⟩
    ∧ (RouteByModel (Validate sampleURLLib sampleConfig).1 "sonnet".toList).2 = true
    ∧ ∃ sent : JMap,
        unmarshalMap sampleFloat64
            ("\x7b\"max_tokens\":1024,\"messages\":[\x7b\"content\":\"hi\"," ++
              "\"role\":\"user\"\x7d],\"model\":\"glm-4.7\",\"stream\":false\x7d").toList
          = some sent
        ∧ (∀ k, k ∈ sent.map Prod.fst ↔
            k ∈ ["max_tokens".toList, "messages".toList, "model".toList, "stream".toList])
        ∧ sent.get "model".toList = some (JValue.str "glm-4.7".toList)
        ∧ ∀ k, k ≠ "model".toList → sent.get k =
            JMap.get
              [("max_tokens".toList, JValue.num "1024".toList),
               ("messages".toList, JValue.arr [JValue.obj
                  [("content".toList, JValue.str "hi".toList),
                   ("role".toList, JValue.str "user".toList)]]),
               ("model".toList, JValue.str "sonnet".toList),
               ("stream".toList, JValue.bool false)] k :=
  ⟨by rfl,
   upstream_body_keeps_payload sampleFloat64 sampleFloat64_lawful sampleURLLib
    (Validate sampleURLLib sampleConfig).1 (sampleClient 200 "ok".toList) sampleWriter
    (sampleRequest ("\x7b\"model\":\"sonnet\",\"stream\":false,\"max_tokens\":1024," ++
          "\"messages\":[\x7b\"role\":\"user\",\"content\":\"hi\"\x7d]\x7d").toList)
    ("\x7b\"model\":\"sonnet\",\"stream\":false,\"max_tokens\":1024," ++
          "\"messages\":[\x7b\"role\":\"user\",\"content\":\"hi\"\x7d]\x7d").toList
    [("max_tokens".toList, JValue.num "1024".toList),
     ("messages".toList, JValue.arr [JValue.obj
        [("content".toList, JValue.str "hi".toList),
         ("role".toList, JValue.str "user".toList)]]),
     ("model".toList, JValue.str "sonnet".toList),
     ("stream".toList, JValue.bool false)]
    "sonnet".toList
    ⟨"POST".toList, "https://api.example.com/v1/messages".toList,
      [("Content-Type".toList, ["application/json".toList]),
       ("Authorization".toList, ["Bearer target-key".toList])],
      ("\x7b\"max_tokens\":1024,\"messages\":[\x7b\"content\":\"hi\",\"role\":\"user\"\x7d]," ++
        "\"model\":\"glm-4.7\",\"stream\":false\x7d").toList⟩
    (by rfl) (by rfl) (by rfl) (by rfl)⟩

/-! ### The normalizer's output is canonical -/

theorem findField_envelope_type :
    findField ["type".toList, "error".toList, "request_id".toList] "type".toList
      = some "type".toList := by decide

theorem findField_envelope_error :
    findField ["type".toList, "error".toList, "request_id".toList] "error".toList
      = some "error".toList := by decide

theorem findField_envelope_request_id :
    findField ["type".toList, "error".toList, "request_id".toList] "request_id".toList
      = some "request_id".toList := by decide

theorem findField_inner_type :
    findField ["type".toList, "message".toList] "type".toList = some "type".toList := by decide

theorem findField_inner_message :
    findField ["type".toList, "message".toList] "message".toList = some "message".toList := by
  decide

/-- The decoder stores the two members of an encoded `Inner` into its two
fields. -/
theorem storeInner_encoded (t m : GoString) (cur : Inner) :
    storeInner [("type".toList, JValue.str t), ("message".toList, JValue.str m)] cur
      = some ⟨t, m⟩ := by
  simp only [storeInner, findField_inner_type, findField_inner_message, storeString, if_true,
    eq_false (show ¬ "message".toList = "type".toList by decide), if_false]

/-- Reading back the document `json.Marshal` writes for an envelope gives the
envelope. -/
theorem unmarshalEnvelope_encode (e : Envelope) :
    unmarshalEnvelope (encodeValue e.toJSON) = some e := by
  obtain ⟨T, ⟨t, m⟩, rid⟩ := e
  have hp : parseJSON (encodeValue (Envelope.toJSON ⟨T, ⟨t, m⟩, rid⟩))
      = some (Envelope.toJSON ⟨T, ⟨t, m⟩, rid⟩) := by
    apply parseJSON_encodeValue
    · by_cases h : rid = [] <;>
        simp [Envelope.toJSON, h, JValue.Numbers, numbersMembers]
    · by_cases h : rid = [] <;>
        simp [Envelope.toJSON, h, JValue.height, heightMembers, maxNestingDepth]
  unfold unmarshalEnvelope
  rw [hp]
  by_cases h : rid = []
  · subst h
    simp only [Envelope.toJSON, if_true, List.append_nil, storeEnvelope, findField_envelope_type,
      findField_envelope_error, storeString, storeInner_encoded,
      eq_false (show ¬ "error".toList = "type".toList by decide), if_false]
  · simp only [Envelope.toJSON, if_neg h, List.cons_append, List.nil_append, storeEnvelope,
      findField_envelope_type, findField_envelope_error, findField_envelope_request_id,
      storeString, storeInner_encoded, if_true,
      eq_false (show ¬ "error".toList = "type".toList by decide),
      eq_false (show ¬ "request_id".toList = "type".toList by decide),
      eq_false (show ¬ "request_id".toList = "error".toList by decide), if_false]

/-- What `Marshal` returns is a canonical envelope when the error type is not
blank. -/
theorem IsAnthropicErrorPayload_Marshal (errorType message requestID : GoString)
    (ht : TrimSpace errorType ≠ []) :
    IsAnthropicErrorPayload (Marshal errorType message requestID) = true := by
  rw [Marshal_eq]
  have hm : TrimSpace (MarshalPayload errorType message requestID).Error.Message ≠ [] := by
    simp only [MarshalPayload]
    by_cases hb : TrimSpace message = []
    · rw [if_pos hb]; decide
    · rw [if_neg hb]; exact hb
  have hlen : ¬ (encodeValue (MarshalPayload errorType message requestID).toJSON).length = 0 := by
    simp [Envelope.toJSON, encodeValue]
  unfold IsAnthropicErrorPayload
  rw [if_neg hlen, unmarshalEnvelope_encode]
  have hT : (MarshalPayload errorType message requestID).Type_ = "error".toList := rfl
  have hE : (MarshalPayload errorType message requestID).Error.Type_ = errorType := rfl
  simp only [hT, hE, ne_eq, not_true_eq_false, if_false, ht, hm, decide_False, Bool.or_self,
    Bool.false_eq_true]

theorem errorTypeFor_not_blank (statusCode : Int) : TrimSpace (errorTypeFor statusCode) ≠ [] := by
  unfold errorTypeFor
  by_cases h : statusCode < 500
  · rw [if_pos h]; decide
  · rw [if_neg h]; decide

/-- C21: the output of `NormalizeUpstreamError` is a canonical envelope for
every status code, body and request id, and so normalizing it again, with any
status code and request id, returns it unchanged. -/
theorem NormalizeUpstreamError_output_canonical (f64 : Float64Conv) (s : Int)
    (b r : GoString) :
    IsAnthropicErrorPayload (NormalizeUpstreamError f64 s b r) = true
      ∧ ∀ (g64 : Float64Conv) (s2 : Int) (r2 : GoString),
          NormalizeUpstreamError g64 s2 (NormalizeUpstreamError f64 s b r) r2
            = NormalizeUpstreamError f64 s b r := by
  have hc : IsAnthropicErrorPayload (NormalizeUpstreamError f64 s b r) = true := by
    cases hb : IsAnthropicErrorPayload b with
    | true =>
      have he : NormalizeUpstreamError f64 s b r = b := by
        unfold NormalizeUpstreamError
        rw [if_pos hb]
      rw [he, hb]
    | false =>
      rw [NormalizeUpstreamError_synthesized f64 s b r hb]
      exact IsAnthropicErrorPayload_Marshal _ _ _ (errorTypeFor_not_blank s)
  refine ⟨hc, ?_⟩
  intro g64 s2 r2
  generalize NormalizeUpstreamError f64 s b r = out at hc
  unfold NormalizeUpstreamError
  rw [if_pos hc]

/-! ### The index and the route list after `Validate` -/

theorem dropTrailing_cons_of_not (p : Char → Bool) (c : Char) (s : GoString)
    (hc : p c = false) : dropTrailing p (c :: s) = c :: dropTrailing p s := by
  rw [dropTrailing]
  cases h : dropTrailing p s with
  | nil => simp [hc]
  | cons d ds => rfl

theorem dropTrailing_idem (p : Char → Bool) (s : GoString) :
    dropTrailing p (dropTrailing p s) = dropTrailing p s := by
  induction s with
  | nil => rfl
  | cons c cs ih =>
    rw [dropTrailing]
    cases h : dropTrailing p cs with
    | nil =>
      by_cases hp : p c = true
      · simp [hp, dropTrailing]
      · simp [hp, dropTrailing]
    | cons d ds =>
      rw [h] at ih
      simp only
      rw [dropTrailing, ih]

/-- Trimming a trimmed string changes nothing. -/
theorem TrimSpace_idem (s : GoString) : TrimSpace (TrimSpace s) = TrimSpace s := by
  unfold TrimSpace
  cases hd : s.dropWhile isSpace with
  | nil => rfl
  | cons c r =>
    have hc := dropWhile_head_not _ _ _ _ hd
    rw [dropTrailing_cons_of_not _ _ _ hc, List.dropWhile_cons, if_neg (by simp [hc]),
      dropTrailing_cons_of_not _ _ _ hc, dropTrailing_idem]

/-- What the checks of `Validate` establish about a route they accept. -/
theorem validateRoute_ok (lib : URLLib) (i : Nat) (route : ModelRoute)
    (index : List (GoString × Nat)) (n a : GoString)
    (h : validateRoute lib i route index = Except.ok (n, a)) :
    n = TrimSpace route.ModelName ∧ n ≠ [] ∧ indexLookup index n = none
      ∧ TrimSpace route.Params.Model ≠ [] ∧ TrimSpace route.Params.APIBase ≠ []
      ∧ (∃ u, lib.Parse route.Params.APIBase = some u ∧ u.Scheme ≠ [] ∧ u.Host ≠ []
          ∧ (u.Scheme = "http".toList ∨ u.Scheme = "https".toList))
      ∧ TrimSpace route.Params.APIKey ≠ []
      ∧ a = ToLower (TrimSpace route.Params.AuthType)
      ∧ (a = AuthTypeXAPIKey ∨ a = AuthTypeBearer) := by
  unfold validateRoute at h
  simp only at h
  by_cases h1 : TrimSpace route.ModelName = []
  · rw [if_pos h1] at h; exact Except.noConfusion h
  rw [if_neg h1] at h
  by_cases h2 : (indexLookup index (TrimSpace route.ModelName)).isSome = true
  · rw [if_pos h2] at h; exact Except.noConfusion h
  rw [if_neg h2] at h
  by_cases h3 : TrimSpace route.Params.Model = []
  · rw [if_pos h3] at h; exact Except.noConfusion h
  rw [if_neg h3] at h
  by_cases h4 : TrimSpace route.Params.APIBase = []
  · rw [if_pos h4] at h; exact Except.noConfusion h
  rw [if_neg h4] at h
  cases hp : lib.Parse route.Params.APIBase with
  | none => rw [hp] at h; exact Except.noConfusion h
  | some u =>
    rw [hp] at h
    simp only at h
    by_cases h5 : (decide (u.Scheme = []) || decide (u.Host = [])) = true
    · rw [if_pos h5] at h; exact Except.noConfusion h
    rw [if_neg h5] at h
    by_cases h6 : (decide (u.Scheme ≠ "http".toList) && decide (u.Scheme ≠ "https".toList)) = true
    · rw [if_pos h6] at h; exact Except.noConfusion h
    rw [if_neg h6] at h
    by_cases h7 : TrimSpace route.Params.APIKey = []
    · rw [if_pos h7] at h; exact Except.noConfusion h
    rw [if_neg h7] at h
    by_cases h8 : (decide (ToLower (TrimSpace route.Params.AuthType) = AuthTypeXAPIKey)
        || decide (ToLower (TrimSpace route.Params.AuthType) = AuthTypeBearer)) = true
    · rw [if_pos h8] at h
      simp only [Except.ok.injEq, Prod.mk.injEq] at h
      obtain ⟨hn, ha⟩ := h
      subst hn
      subst ha
      refine ⟨rfl, h1, ?_, h3, h4, ⟨u, rfl, ?_, ?_, ?_⟩, h7, rfl, ?_⟩
      · cases hl : indexLookup index (TrimSpace route.ModelName) with
        | none => rfl
        | some j => rw [hl] at h2; exact absurd rfl h2
      · intro hs; apply h5; simp [hs]
      · intro hs; apply h5; simp [hs]
      · by_cases ha : u.Scheme = "http".toList
        · exact Or.inl ha
        · by_cases hb : u.Scheme = "https".toList
          · exact Or.inr hb
          · refine absurd ?_ h6
            rw [Bool.and_eq_true]
            exact ⟨decide_eq_true ha, decide_eq_true hb⟩
      · simpa using h8
    · rw [if_neg h8] at h; exact Except.noConfusion h

theorem getElem?_append_singleton_length {α : Type} (l : List α) (x : α) :
    (l ++ [x])[l.length]? = some x := by
  rw [List.getElem?_append_right (Nat.le_refl _)]
  simp

/-- The loop of `Validate` keeps the index the inverse of the route list: a
name is mapped to a position exactly when the route at that position carries
the name; and every name in the list is trimmed. -/
theorem validateLoop_index_positions (lib : URLLib) (todo : List ModelRoute) :
    ∀ (i : Nat) (done : List ModelRoute) (index : List (GoString × Nat))
      (ml : List ModelRoute) (idx : List (GoString × Nat)),
      done.length = i →
      (∀ k j, indexLookup index k = some j ↔ ∃ r, done[j]? = some r ∧ r.ModelName = k) →
      (∀ r ∈ done, TrimSpace r.ModelName = r.ModelName) →
      validateLoop lib i done todo index = (ml, Except.ok idx) →
      (∀ k j, indexLookup idx k = some j ↔ ∃ r, ml[j]? = some r ∧ r.ModelName = k)
        ∧ ∀ r ∈ ml, TrimSpace r.ModelName = r.ModelName := by
  induction todo with
  | nil =>
    intro i done index ml idx _ hinv htrim h
    simp only [validateLoop, Prod.mk.injEq, Except.ok.injEq] at h
    rw [← h.1, ← h.2]
    exact ⟨hinv, htrim⟩
  | cons route todo ih =>
    intro i done index ml idx hlen hinv htrim h
    subst hlen
    simp only [validateLoop] at h
    cases hr : validateRoute lib done.length route index with
    | error e => rw [hr] at h; simp at h
    | ok p =>
      obtain ⟨modelName, authType⟩ := p
      rw [hr] at h
      obtain ⟨hn, _, hnone, _⟩ := validateRoute_ok lib _ route index modelName authType hr
      refine ih _ _ _ ml idx ?_ ?_ ?_ h
      · simp
      · intro k j
        rw [indexLookup_indexStore]
        by_cases hk : modelName = k
        · subst hk
          rw [if_pos rfl]
          constructor
          · intro hj
            simp only [Option.some.injEq] at hj
            subst hj
            exact ⟨_, getElem?_append_singleton_length _ _, rfl⟩
          · rintro ⟨r, hr1, hr2⟩
            by_cases hj : j < done.length
            · rw [List.getElem?_append_left hj] at hr1
              have := (hinv modelName j).mpr ⟨r, hr1, hr2⟩
              rw [hnone] at this
              exact Option.noConfusion this
            · rw [List.getElem?_append_right (by omega)] at hr1
              cases hd : j - done.length with
              | zero =>
                have : j = done.length := by omega
                rw [this]
              | succ m =>
                rw [hd] at hr1
                simp at hr1
        · rw [if_neg hk, hinv k j]
          constructor
          · rintro ⟨r, hr1, hr2⟩
            have hj : j < done.length := by
              by_contra hcon
              rw [List.getElem?_eq_none (by omega)] at hr1
              exact Option.noConfusion hr1
            exact ⟨r, by rw [List.getElem?_append_left hj]; exact hr1, hr2⟩
          · rintro ⟨r, hr1, hr2⟩
            by_cases hj : j < done.length
            · rw [List.getElem?_append_left hj] at hr1
              exact ⟨r, hr1, hr2⟩
            · rw [List.getElem?_append_right (by omega)] at hr1
              cases hd : j - done.length with
              | zero =>
                rw [hd] at hr1
                simp only [List.getElem?_cons_zero, Option.some.injEq] at hr1
                rw [← hr1] at hr2
                exact absurd hr2 hk
              | succ m =>
                rw [hd] at hr1
                simp at hr1
      · intro r hr
        rw [List.mem_append] at hr
        rcases hr with hr | hr
        · exact htrim r hr
        · simp only [List.mem_singleton] at hr
          rw [hr]
          simp only
          rw [hn, TrimSpace_idem]

/-- After a successful `Validate` the index maps a name to a position exactly
when the route at that position carries the name, and every name is trimmed. -/
theorem Validate_index_positions (lib : URLLib) (c : Config) (hv : (Validate lib c).2 = none) :
    (∀ k j, indexLookup (Validate lib c).1.index k = some j
        ↔ ∃ r, (Validate lib c).1.ModelList[j]? = some r ∧ r.ModelName = k)
      ∧ ∀ r ∈ (Validate lib c).1.ModelList, TrimSpace r.ModelName = r.ModelName := by
  unfold Validate at hv ⊢
  by_cases h0 : c.ModelList.length = 0
  · simp [h0] at hv
  · rw [if_neg h0] at hv ⊢
    rcases hl : validateLoop lib 0 [] c.ModelList [] with ⟨ml, res⟩
    rw [hl] at hv
    cases res with
    | error e => exact absurd hv (by simp)
    | ok idx =>
      exact validateLoop_index_positions lib c.ModelList 0 [] [] ml idx rfl
        (by intro k j; simp [indexLookup]) (by intro r hr; simp at hr) hl

/-- C22: on a config that `Validate` accepts, `RouteByModel` of the name at a
position of the model list returns the route at that position, found; and a
route that `RouteByModel(s)` returns as found has the name
`strings.TrimSpace(s)`. -/
theorem RouteByModel_consistent_with_list (lib : URLLib) (c : Config)
    (hv : (Validate lib c).2 = none) :
    (∀ (i : Nat) (route : ModelRoute), (Validate lib c).1.ModelList[i]? = some route →
        RouteByModel (Validate lib c).1 route.ModelName = (route, true))
      ∧ ∀ (s : GoString) (route : ModelRoute),
          RouteByModel (Validate lib c).1 s = (route, true) →
          route.ModelName = TrimSpace s := by
  obtain ⟨hinv, htrim⟩ := Validate_index_positions lib c hv
  constructor
  · intro i route hi
    have hmem : route ∈ (Validate lib c).1.ModelList := List.getElem?_mem hi
    have hl := (hinv route.ModelName i).mpr ⟨route, hi, rfl⟩
    unfold RouteByModel
    rw [htrim route hmem, hl]
    simp only [Prod.mk.injEq, and_true]
    rw [List.getD_eq_getElem?_getD, hi]
    rfl
  · intro s route h
    unfold RouteByModel at h
    cases hl : indexLookup (Validate lib c).1.index (TrimSpace s) with
    | none => rw [hl] at h; simp at h
    | some idx =>
      rw [hl] at h
      simp only [Prod.mk.injEq, and_true] at h
      obtain ⟨r, hr1, hr2⟩ := (hinv (TrimSpace s) idx).mp hl
      rw [List.getD_eq_getElem?_getD, hr1] at h
      simp only [Option.getD_some] at h
      rw [← h, hr2]

/-- C22 on the sample configuration: the name at position 0 resolves to the
route at position 0, and the route found for `" sonnet "` is named `sonnet`. -/
theorem RouteByModel_consistent_with_list_witness :
    (Validate sampleURLLib sampleConfig).2 = none
      ∧ (Validate sampleURLLib sampleConfig).1.ModelList[0]?
          = some ⟨"sonnet".toList,
              ⟨"glm-4.7".toList, "https://api.example.com".toList, "target-key".toList,
               "bearer".toList⟩⟩
      ∧ RouteByModel (Validate sampleURLLib sampleConfig).1 "sonnet".toList
          = (⟨"sonnet".toList,
              ⟨"glm-4.7".toList, "https://api.example.com".toList, "target-key".toList,
               "bearer".toList⟩⟩, true)
      ∧ (RouteByModel (Validate sampleURLLib sampleConfig).1 " sonnet ".toList).1.ModelName
          = TrimSpace " sonnet ".toList :=
  ⟨by decide, by decide,
   (RouteByModel_consistent_with_list sampleURLLib sampleConfig (by decide)).1 0
     ⟨"sonnet".toList,
       ⟨"glm-4.7".toList, "https://api.example.com".toList, "target-key".toList,
        "bearer".toList⟩⟩ (by decide),
   (RouteByModel_consistent_with_list sampleURLLib sampleConfig (by decide)).2 " sonnet ".toList
     (RouteByModel (Validate sampleURLLib sampleConfig).1 " sonnet ".toList).1 (by decide)⟩

/-! ### The streaming path -/

theorem WriteHeader_events (w : ResponseWriter) (s : Int) : (w.WriteHeader s).events = w.events := by
  unfold ResponseWriter.WriteHeader
  cases w.sent <;> rfl

theorem WriteHeader_writeLimit (w : ResponseWriter) (s : Int) :
    (w.WriteHeader s).writeLimit = w.writeLimit := by
  unfold ResponseWriter.WriteHeader
  cases w.sent <;> rfl

theorem Flush_events (w : ResponseWriter) : w.Flush.events = w.events ++ [WriterEvent.flush] := by
  simp only [ResponseWriter.Flush, WriteHeader_events]

theorem Flush_writeLimit (w : ResponseWriter) : w.Flush.writeLimit = w.writeLimit := by
  simp only [ResponseWriter.Flush, WriteHeader_writeLimit]

/-- The events the loop of `streamResponse` appends: the expected writes and
flushes, cut after the last write the client accepts. -/
theorem streamLoop_events (body : Reader) :
    ∀ w : ResponseWriter,
      (streamLoop body w).1.events
        = w.events ++ (match w.writeLimit with
                       | none => streamedEvents body
                       | some n => (streamedEvents body).take (2 * n)) := by
  induction body with
  | nil =>
    intro w
    cases w.writeLimit <;> simp [streamLoop, streamedEvents]
  | cons rd rest ih =>
    intro w
    obtain ⟨chunk, err⟩ := rd
    by_cases hc : chunk.length > 0
    · simp only [streamLoop, streamedEvents, if_pos hc, ResponseWriter.Write]
      cases hl : w.writeLimit with
      | none =>
        simp only [WriteHeader_writeLimit, hl]
        cases err with
        | none =>
          simp only [ih, Flush_events, Flush_writeLimit, WriteHeader_events]
          simp
        | some e =>
          cases e <;> simp [Flush_events, WriteHeader_events]
      | some n =>
        cases n with
        | zero =>
          simp only [WriteHeader_writeLimit, hl]
          simp [WriteHeader_events]
        | succ n =>
          simp only [WriteHeader_writeLimit, hl]
          have h2 : 2 * (n + 1) = (2 * n) + 1 + 1 := by omega
          cases err with
          | none =>
            simp only [ih, Flush_events, Flush_writeLimit, WriteHeader_events]
            simp [h2]
          | some e =>
            cases e <;> simp [Flush_events, WriteHeader_events, h2]
    · simp only [streamLoop, streamedEvents, if_neg hc]
      cases err with
      | none => simp only [ih]; rfl
      | some e => cases e <;> cases w.writeLimit <;> simp

theorem writtenBytes_append (a b : List WriterEvent) :
    writtenBytes (a ++ b) = writtenBytes a ++ writtenBytes b := by
  induction a with
  | nil => rfl
  | cons e r ih => cases e <;> simp [writtenBytes, ih]

theorem writtenBytes_streamedEvents (body : Reader) :
    writtenBytes (streamedEvents body) = chunksUpToFirstError body := by
  induction body with
  | nil => rfl
  | cons rd rest ih =>
    obtain ⟨chunk, err⟩ := rd
    have hchunk : writtenBytes
        (if chunk.length > 0 then [WriterEvent.write chunk, WriterEvent.flush] else []) = chunk := by
      by_cases hc : chunk.length > 0
      · simp [hc, writtenBytes]
      · have : chunk = [] := List.length_eq_zero.mp (by omega)
        simp [this, writtenBytes]
    cases err with
    | none => simp only [streamedEvents, writtenBytes_append, hchunk, ih, chunksUpToFirstError]
    | some e =>
      simp only [streamedEvents, writtenBytes_append, hchunk, chunksUpToFirstError]
      simp [writtenBytes]

/-- C11: with a flushing writer `streamResponse` appends, for every read result
up to and including the first that reports an error, a write of the chunk
followed at once by one flush when the chunk is not empty, and nothing else; it
stops after the last write the client accepts. The bytes written are the
concatenation of those chunks when no write fails. -/
theorem streamResponse_writes_and_flushes (w : ResponseWriter) (body : Reader)
    (hf : w.flusher = true) :
    (streamResponse w body).1.events
        = w.events ++ (match w.writeLimit with
                       | none => streamedEvents body
                       | some n => (streamedEvents body).take (2 * n))
      ∧ writtenBytes (streamedEvents body) = chunksUpToFirstError body
      ∧ (w.writeLimit = none →
          (streamResponse w body).1.body = w.body ++ chunksUpToFirstError body) := by
  have he : (streamResponse w body).1.events
        = w.events ++ (match w.writeLimit with
                       | none => streamedEvents body
                       | some n => (streamedEvents body).take (2 * n)) := by
    unfold streamResponse
    rw [if_pos hf]
    exact streamLoop_events body w
  refine ⟨he, writtenBytes_streamedEvents body, ?_⟩
  intro hl
  rw [hl] at he
  simp only [ResponseWriter.body, he, writtenBytes_append, writtenBytes_streamedEvents]

/-- C11 on a body read as `ab`, an empty read, `c` with end-of-stream, and one
more chunk that is never read: two writes, each followed by a flush; with a
client that accepts one write only, the first write and its flush. -/
theorem streamResponse_writes_and_flushes_witness :
    ((streamResponse sampleWriter
          [("ab".toList, none), ([], none), ("c".toList, some ReadError.eof),
           ("d".toList, none)]).1.events
        = sampleWriter.events ++ (match sampleWriter.writeLimit with
            | none => streamedEvents
                [("ab".toList, none), ([], none), ("c".toList, some ReadError.eof),
                 ("d".toList, none)]
            | some n => (streamedEvents
                [("ab".toList, none), ([], none), ("c".toList, some ReadError.eof),
                 ("d".toList, none)]).take (2 * n))
      ∧ writtenBytes (streamedEvents
            [("ab".toList, none), ([], none), ("c".toList, some ReadError.eof),
             ("d".toList, none)])
          = chunksUpToFirstError
            [("ab".toList, none), ([], none), ("c".toList, some ReadError.eof),
             ("d".toList, none)]
      ∧ (sampleWriter.writeLimit = none →
          (streamResponse sampleWriter
              [("ab".toList, none), ([], none), ("c".toList, some ReadError.eof),
               ("d".toList, none)]).1.body
            = sampleWriter.body ++ chunksUpToFirstError
              [("ab".toList, none), ([], none), ("c".toList, some ReadError.eof),
               ("d".toList, none)]))
    ∧ (streamResponse sampleWriter
          [("ab".toList, none), ([], none), ("c".toList, some ReadError.eof),
           ("d".toList, none)]).1.events
        = [WriterEvent.write "ab".toList, WriterEvent.flush,
           WriterEvent.write "c".toList, WriterEvent.flush]
    ∧ (streamResponse { sampleWriter with writeLimit := some 1 }
          [("ab".toList, none), ([], none), ("c".toList, some ReadError.eof),
           ("d".toList, none)]).1.events
        = [WriterEvent.write "ab".toList, WriterEvent.flush] :=
  ⟨streamResponse_writes_and_flushes sampleWriter
     [("ab".toList, none), ([], none), ("c".toList, some ReadError.eof), ("d".toList, none)] rfl,
   by decide, by decide⟩

/-! ### The routing key -/

/-- C15: a body that parses and whose `model` is absent, not a string, or a
blank string is answered with status 400 and the envelope of type
`invalid_request_error` with message `model is required`, whatever the
configuration; no upstream request is built. -/
theorem missing_model_yields_400 (f64 : Float64Conv) (lib : URLLib) (cfg : Config)
    (client : Client) (w : ResponseWriter) (r : Request) (body : GoString) (payload : JMap)
    (hw : w.Fresh)
    (hread : ReadAll r.Body = (body, none))
    (hparse : unmarshalMap f64 body = some payload)
    (hmodel : ∀ m, payload.get "model".toList = some (JValue.str m) → TrimSpace m = []) :
    (proxyJSON f64 lib cfg client w r).upstream = none
      ∧ (proxyJSON f64 lib cfg client w r).w.status = some 400
      ∧ (proxyJSON f64 lib cfg client w r).w.body
          = encodeValue (Envelope.toJSON
              ⟨"error".toList,
               ⟨"invalid_request_error".toList, "model is required".toList⟩,
               requestIDFromContext r⟩) := by
  have hproxy : proxyJSON f64 lib cfg client w r
      = ⟨apiWrite w 400 "invalid_request_error".toList "model is required".toList
          (requestIDFromContext r), none, []⟩ := by
    unfold proxyJSON
    simp only [hread, hparse]
    cases hg : payload.get "model".toList with
    | none => rfl
    | some v =>
      cases v with
      | str m => simp only [if_pos (hmodel m hg)]
      | null => rfl
      | bool b => rfl
      | num l => rfl
      | arr xs => rfl
      | obj ms => rfl
  rw [hproxy]
  refine ⟨rfl, apiWrite_status w hw _ _ _ _, ?_⟩
  rw [apiWrite_body w hw, Marshal_eq]
  rfl

/-- C15 at the bodies `{}`, `{"model":7}` and `{"model":"  "}` against the
sample configuration. -/
theorem missing_model_yields_400_witness :
    ((proxyJSON sampleFloat64 sampleURLLib (Validate sampleURLLib sampleConfig).1
          (sampleClient 200 []) sampleWriter (sampleRequest "\x7b\x7d".toList)).upstream = none
      ∧ (proxyJSON sampleFloat64 sampleURLLib (Validate sampleURLLib sampleConfig).1
          (sampleClient 200 []) sampleWriter (sampleRequest "\x7b\x7d".toList)).w.status
          = some 400
      ∧ (proxyJSON sampleFloat64 sampleURLLib (Validate sampleURLLib sampleConfig).1
          (sampleClient 200 []) sampleWriter (sampleRequest "\x7b\x7d".toList)).w.body
          = encodeValue (Envelope.toJSON
              ⟨"error".toList,
               ⟨"invalid_request_error".toList, "model is required".toList⟩,
               requestIDFromContext (sampleRequest "\x7b\x7d".toList)⟩))
    ∧ (proxyJSON sampleFloat64 sampleURLLib (Validate sampleURLLib sampleConfig).1
          (sampleClient 200 []) sampleWriter
          (sampleRequest "\x7b\"model\":7\x7d".toList)).w.status = some 400
    ∧ (proxyJSON sampleFloat64 sampleURLLib (Validate sampleURLLib sampleConfig).1
          (sampleClient 200 []) sampleWriter
          (sampleRequest "\x7b\"model\":\"  \"\x7d".toList)).w.status = some 400 :=
  ⟨missing_model_yields_400 sampleFloat64 sampleURLLib (Validate sampleURLLib sampleConfig).1
     (sampleClient 200 []) sampleWriter (sampleRequest "\x7b\x7d".toList) "\x7b\x7d".toList []
     ⟨rfl, rfl, by decide⟩ (by rfl) (by rfl) (by intro m h; exact absurd h (by simp [JMap.get])),
   (missing_model_yields_400 sampleFloat64 sampleURLLib (Validate sampleURLLib sampleConfig).1
     (sampleClient 200 []) sampleWriter (sampleRequest "\x7b\"model\":7\x7d".toList)
     "\x7b\"model\":7\x7d".toList [("model".toList, JValue.num "7".toList)]
     ⟨rfl, rfl, by decide⟩ (by rfl) (by rfl)
     (by intro m h; exact absurd h (by simp [JMap.get]))).2.1,
   (missing_model_yields_400 sampleFloat64 sampleURLLib (Validate sampleURLLib sampleConfig).1
     (sampleClient 200 []) sampleWriter (sampleRequest "\x7b\"model\":\"  \"\x7d".toList)
     "\x7b\"model\":\"  \"\x7d".toList [("model".toList, JValue.str "  ".toList)]
     ⟨rfl, rfl, by decide⟩ (by rfl) (by rfl)
     (by
       intro m h
       have hm : m = "  ".toList := by
         simp only [JMap.get, if_true, Option.some.injEq, JValue.str.injEq] at h
         exact h.symm
       rw [hm]
       decide)).2.1⟩

/-! ### The header filter against the list of dropped names -/

theorem EqualFold_eq_map (a : GoString) :
    ∀ b : GoString, EqualFold a b = decide (a.map foldRune = b.map foldRune) := by
  induction a with
  | nil =>
    intro b
    cases b <;> simp [EqualFold]
  | cons c cs ih =>
    intro b
    cases b with
    | nil => simp [EqualFold]
    | cons d ds =>
      simp only [EqualFold, ih, List.map_cons, List.cons.injEq]
      by_cases h1 : foldRune c = foldRune d <;>
        by_cases h2 : List.map foldRune cs = List.map foldRune ds <;> simp [h1, h2]

theorem toLowerRune_eq_foldRune (c : Char) (hc : validHeaderFieldByte c = true) :
    toLowerRune c = foldRune c := by
  have hlt : c.toNat < 128 := by
    simp only [validHeaderFieldByte, isUpperASCII, isLowerASCII, Bool.or_eq_true,
      Bool.and_eq_true, decide_eq_true_eq] at hc
    omega
  unfold toLowerRune foldRune
  by_cases hu : isUpperASCII c = true
  · rw [if_pos hu, if_pos hu]
  · rw [if_neg hu, if_neg hu, if_neg (by omega), if_neg (by omega), if_neg (by omega),
      if_neg (by omega)]

theorem ToLower_eq_map_foldRune (k : GoString) (hk : k.all validHeaderFieldByte = true) :
    ToLower k = k.map foldRune := by
  unfold ToLower
  apply List.map_congr_left
  intro c hc
  exact toLowerRune_eq_foldRune c (List.all_eq_true.mp hk c hc)

/-- On a key of token characters the test of `isHopByHopHeader` is the
case-insensitive comparison with the nine names. -/
theorem isHopByHopHeader_eq_nameAmong (k : GoString) (hk : k.all validHeaderFieldByte = true) :
    isHopByHopHeader k = nameAmong hopByHopNames k := by
  simp only [isHopByHopHeader, nameAmong, hopByHopNames, List.any_cons, List.any_nil,
    Bool.or_false, EqualFold_eq_map, ToLower_eq_map_foldRune k hk, Bool.or_assoc]
  rfl

theorem isCredentialHeader_eq_nameAmong (k : GoString) :
    isCredentialHeader k = nameAmong ["authorization".toList, "x-api-key".toList] k := by
  simp only [isCredentialHeader, nameAmong, List.any_cons, List.any_nil, Bool.or_false,
    EqualFold_eq_map]
  rfl

theorem nameAmong_append (a b : List GoString) (k : GoString) :
    nameAmong (a ++ b) k = (nameAmong a k || nameAmong b k) := by
  simp [nameAmong, List.any_append]

theorem CanonicalKeys_inbound (src : Header) (hsrc : src.CanonicalKeys) : src.Inbound :=
  ⟨hsrc.1, fun k hk _ => (hsrc.2 k hk).2⟩

theorem Header.mem_keys_of_lookup (h : Header) (k : GoString) (vs : List GoString)
    (hl : h.lookup k = some vs) : k ∈ h.keys := by
  by_contra hn
  rw [Header.lookup_eq_none_of_not_mem h k hn] at hl
  exact Option.noConfusion hl

/-- C13: after `copyRequestHeaders` from a map with canonical keys into an
empty map, a name has values in the destination exactly when it has values in
the source and is not, compared case-insensitively, one of the nine hop-by-hop
names, `authorization` or `x-api-key`; and under every name that is not one of
these the destination holds the source's list of values. -/
theorem copyRequestHeaders_keeps_exactly (src : Header) (hsrc : src.CanonicalKeys)
    (k : GoString) :
    ((copyRequestHeaders [] src).read k ≠ []
        ↔ src.read k ≠ [] ∧ nameAmong requestDroppedNames k = false)
      ∧ (nameAmong requestDroppedNames k = false →
          (copyRequestHeaders [] src).read k = src.read k) := by
  have hl := lookup_copyRequestHeaders src (CanonicalKeys_inbound src hsrc) [] k
  cases hs : src.lookup k with
  | none =>
    have hr : (copyRequestHeaders [] src).read k = [] := by
      unfold Header.read
      rw [hl, hs]
      simp [Header.lookup]
    have hr2 : src.read k = [] := by unfold Header.read; rw [hs]; rfl
    rw [hr, hr2]
    simp
  | some vs =>
    have htok := (hsrc.2 k (Header.mem_keys_of_lookup src k vs hs)).1
    have hdrop : (isHopByHopHeader k || isCredentialHeader k)
        = nameAmong requestDroppedNames k := by
      rw [isHopByHopHeader_eq_nameAmong k htok, isCredentialHeader_eq_nameAmong,
        requestDroppedNames, nameAmong_append]
    rw [hdrop, hs] at hl
    have hr2 : src.read k = vs := by unfold Header.read; rw [hs]; rfl
    cases hd : nameAmong requestDroppedNames k with
    | true =>
      have hr : (copyRequestHeaders [] src).read k = [] := by
        unfold Header.read
        rw [hl, hd]
        simp [Header.lookup]
      rw [hr]
      simp
    | false =>
      have hr : (copyRequestHeaders [] src).read k = vs := by
        unfold Header.read
        rw [hl, hd]
        cases vs <;> simp [Header.lookup]
      rw [hr, hr2]
      simp

/-- C13 on a request header with a duplicated header, a hop-by-hop header and a
credential: `Accept` keeps its two values in order, `Connection` and
`Authorization` are gone. -/
theorem copyRequestHeaders_keeps_exactly_witness :
    Header.CanonicalKeys
        [("Accept".toList, ["a".toList, "b".toList]), ("Connection".toList, ["close".toList]),
         ("Authorization".toList, ["Bearer x".toList])]
    ∧ (((copyRequestHeaders []
            [("Accept".toList, ["a".toList, "b".toList]),
             ("Connection".toList, ["close".toList]),
             ("Authorization".toList, ["Bearer x".toList])]).read "Accept".toList ≠ []
          ↔ Header.read
              [("Accept".toList, ["a".toList, "b".toList]),
               ("Connection".toList, ["close".toList]),
               ("Authorization".toList, ["Bearer x".toList])] "Accept".toList ≠ []
            ∧ nameAmong requestDroppedNames "Accept".toList = false)
        ∧ (nameAmong requestDroppedNames "Accept".toList = false →
            (copyRequestHeaders []
              [("Accept".toList, ["a".toList, "b".toList]),
               ("Connection".toList, ["close".toList]),
               ("Authorization".toList, ["Bearer x".toList])]).read "Accept".toList
              = Header.read
                [("Accept".toList, ["a".toList, "b".toList]),
                 ("Connection".toList, ["close".toList]),
                 ("Authorization".toList, ["Bearer x".toList])] "Accept".toList))
    ∧ copyRequestHeaders []
        [("Accept".toList, ["a".toList, "b".toList]), ("Connection".toList, ["close".toList]),
         ("Authorization".toList, ["Bearer x".toList])]
        = [("Accept".toList, ["a".toList, "b".toList])] :=
  ⟨⟨by decide, by decide⟩,
   copyRequestHeaders_keeps_exactly
     [("Accept".toList, ["a".toList, "b".toList]), ("Connection".toList, ["close".toList]),
      ("Authorization".toList, ["Bearer x".toList])]
     ⟨by decide, by decide⟩ "Accept".toList,
   by decide⟩

/-- What `copyResponseHeaders` leaves under a key, for a source map with one
entry per key and canonical keys. -/
theorem lookup_copyResponseHeaders (src : Header) (hnd : src.keys.Nodup)
    (hcan : ∀ k ∈ src.keys, CanonicalMIMEHeaderKey k = k) (dst : Header) (k : GoString) :
    (copyResponseHeaders dst src).lookup k =
      if isHopByHopHeader k || EqualFold k "Content-Length".toList then dst.lookup k
      else match src.lookup k with
        | some (v :: vs) => some ((dst.lookup k).getD [] ++ v :: vs)
        | _ => dst.lookup k := by
  induction src generalizing dst with
  | nil => simp [copyResponseHeaders, Header.lookup]
  | cons e t ih =>
    obtain ⟨k1, vs1⟩ := e
    have hnd2 : (Header.keys t).Nodup := (List.nodup_cons.mp hnd).2
    have hcan2 : ∀ k ∈ Header.keys t, CanonicalMIMEHeaderKey k = k := by
      intro k hk
      refine hcan k ?_
      simp only [Header.keys, List.map_cons, List.mem_cons]
      exact Or.inr hk
    have hnot : k1 ∉ Header.keys t := (List.nodup_cons.mp hnd).1
    simp only [copyResponseHeaders, Header.lookup]
    by_cases hh : isHopByHopHeader k1 = true
    · rw [if_pos hh, ih hnd2 hcan2]
      by_cases hk : k1 = k
      · subst hk; simp [hh]
      · simp [hk]
    · rw [if_neg hh]
      by_cases hc : EqualFold k1 "Content-Length".toList = true
      · rw [if_pos hc, ih hnd2 hcan2]
        by_cases hk : k1 = k
        · subst hk; simp only [hc, Bool.or_true, if_true]
        · simp [hk]
      · rw [if_neg hc, ih hnd2 hcan2]
        have hcan1 : CanonicalMIMEHeaderKey k1 = k1 := hcan k1 (by simp [Header.keys])
        rw [lookup_addValues _ _ _ _ hcan1]
        by_cases hk : k1 = k
        · subst hk
          rw [Header.lookup_eq_none_of_not_mem t k1 hnot]
          simp only [Bool.not_eq_true] at hh hc
          simp only [hh, hc, Bool.or_self, Bool.false_eq_true, if_false, if_true, true_and]
          cases vs1 with
          | nil => simp
          | cons v vs => simp
        · simp [hk]

theorem contentLength_eq_nameAmong (k : GoString) :
    EqualFold k "Content-Length".toList = nameAmong ["content-length".toList] k := by
  simp only [nameAmong, List.any_cons, List.any_nil, Bool.or_false, EqualFold_eq_map]
  rfl

/-- C14: after `copyResponseHeaders` from a map with canonical keys, every name
that is not, compared case-insensitively, one of the nine hop-by-hop names or
`content-length` holds the values the destination had followed by the source's
values in their order; every name that is one of these holds what the
destination had. -/
theorem copyResponseHeaders_appends_kept (src : Header) (hsrc : src.CanonicalKeys)
    (dst : Header) (k : GoString) :
    (copyResponseHeaders dst src).read k
      = if nameAmong responseDroppedNames k then dst.read k else dst.read k ++ src.read k := by
  have hl := lookup_copyResponseHeaders src hsrc.1 (fun k hk => (hsrc.2 k hk).2) dst k
  cases hs : src.lookup k with
  | none =>
    have hr2 : src.read k = [] := by unfold Header.read; rw [hs]; rfl
    have hr : (copyResponseHeaders dst src).read k = dst.read k := by
      unfold Header.read
      rw [hl, hs]
      simp
    rw [hr, hr2, List.append_nil, ite_self]
  | some vs =>
    have htok := (hsrc.2 k (Header.mem_keys_of_lookup src k vs hs)).1
    have hdrop : (isHopByHopHeader k || EqualFold k "Content-Length".toList)
        = nameAmong responseDroppedNames k := by
      rw [isHopByHopHeader_eq_nameAmong k htok, contentLength_eq_nameAmong,
        responseDroppedNames, nameAmong_append]
    rw [hdrop, hs] at hl
    have hr2 : src.read k = vs := by unfold Header.read; rw [hs]; rfl
    rw [hr2]
    unfold Header.read
    rw [hl]
    cases hd : nameAmong responseDroppedNames k with
    | true => simp
    | false => cases vs <;> simp

/-- C14 on the response header of the sample upstream with a hop-by-hop header
added, copied into a map that already holds a request id and one `Vary` value:
`Vary` gets the upstream value appended, `Content-Length` and `Connection` are
not added. -/
theorem copyResponseHeaders_appends_kept_witness :
    Header.CanonicalKeys
        [("Content-Length".toList, ["15".toList]), ("Connection".toList, ["close".toList]),
         ("Vary".toList, ["Accept".toList])]
    ∧ (copyResponseHeaders
          [("X-Request-Id".toList, ["req-1".toList]), ("Vary".toList, ["Origin".toList])]
          [("Content-Length".toList, ["15".toList]), ("Connection".toList, ["close".toList]),
           ("Vary".toList, ["Accept".toList])]).read "Vary".toList
        = (if nameAmong responseDroppedNames "Vary".toList then
            Header.read
              [("X-Request-Id".toList, ["req-1".toList]), ("Vary".toList, ["Origin".toList])]
              "Vary".toList
          else
            Header.read
              [("X-Request-Id".toList, ["req-1".toList]), ("Vary".toList, ["Origin".toList])]
              "Vary".toList
            ++ Header.read
              [("Content-Length".toList, ["15".toList]), ("Connection".toList, ["close".toList]),
               ("Vary".toList, ["Accept".toList])] "Vary".toList)
    ∧ copyResponseHeaders
          [("X-Request-Id".toList, ["req-1".toList]), ("Vary".toList, ["Origin".toList])]
          [("Content-Length".toList, ["15".toList]), ("Connection".toList, ["close".toList]),
           ("Vary".toList, ["Accept".toList])]
        = [("X-Request-Id".toList, ["req-1".toList]),
           ("Vary".toList, ["Origin".toList, "Accept".toList])] :=
  ⟨⟨by decide, by decide⟩,
   copyResponseHeaders_appends_kept
     [("Content-Length".toList, ["15".toList]), ("Connection".toList, ["close".toList]),
      ("Vary".toList, ["Accept".toList])]
     ⟨by decide, by decide⟩
     [("X-Request-Id".toList, ["req-1".toList]), ("Vary".toList, ["Origin".toList])]
     "Vary".toList,
   by decide⟩

/-! ### The model list -/

theorem appendModels_eq (created : GoString) (routes : List ModelRoute) :
    ∀ items : List Model,
      appendModels created items routes
        = items ++ routes.map (fun route =>
            (⟨route.ModelName, "model".toList, route.ModelName, created⟩ : Model)) := by
  induction routes with
  | nil => intro items; simp [appendModels]
  | cons route rest ih => intro items; simp [appendModels, ih]

theorem BuildListResponse_Data (created : GoString) (cfg : Config) :
    (BuildListResponse created cfg).Data
      = cfg.ModelList.map (fun route =>
          (⟨route.ModelName, "model".toList, route.ModelName, created⟩ : Model)) := by
  unfold BuildListResponse
  simp only [appendModels_eq, List.nil_append]
  split <;> rfl

theorem getD_zero_eq_head? {α : Type} (l : List α) (d : α) : l.getD 0 d = l.head?.getD d := by
  cases l <;> rfl

theorem getD_last_eq_getLast? {α : Type} (l : List α) (d : α) :
    l.getD (l.length - 1) d = l.getLast?.getD d := by
  rw [List.getD_eq_getElem?_getD, List.getLast?_eq_getElem?]

theorem BuildListResponse_FirstID (created : GoString) (cfg : Config) :
    (BuildListResponse created cfg).FirstID
      = ((BuildListResponse created cfg).Data.head?.map (fun m => m.ID)).getD [] := by
  rw [BuildListResponse_Data]
  unfold BuildListResponse
  simp only [appendModels_eq, List.nil_append, getD_zero_eq_head?]
  cases cfg.ModelList <;> simp

theorem BuildListResponse_LastID (created : GoString) (cfg : Config) :
    (BuildListResponse created cfg).LastID
      = ((BuildListResponse created cfg).Data.getLast?.map (fun m => m.ID)).getD [] := by
  rw [BuildListResponse_Data]
  unfold BuildListResponse
  simp only [appendModels_eq, List.nil_append, getD_last_eq_getLast?]
  cases h : cfg.ModelList with
  | nil => simp
  | cons r rs =>
    simp only [List.length_map, List.length_cons, gt_iff_lt, Nat.zero_lt_succ, if_true]
    cases hl : (List.map (fun route =>
        (⟨route.ModelName, "model".toList, route.ModelName, created⟩ : Model))
        (r :: rs)).getLast? with
    | none => simp at hl
    | some m => simp

/-- C17: `BuildListResponse` returns as many entries as there are routes; the
entry at a position has id and display name equal to the name of the route at
that position, type `model` and the one timestamp of the call; `has_more` is
false; `first_id` and `last_id` are the ids of the first and of the last entry,
and both are empty when there is no entry. -/
theorem BuildListResponse_one_entry_per_route (created : GoString) (cfg : Config) :
    (BuildListResponse created cfg).Data.length = cfg.ModelList.length
      ∧ (∀ (i : Nat) (route : ModelRoute), cfg.ModelList[i]? = some route →
          (BuildListResponse created cfg).Data[i]?
            = some ⟨route.ModelName, "model".toList, route.ModelName, created⟩)
      ∧ (BuildListResponse created cfg).HasMore = false
      ∧ (∀ m, (BuildListResponse created cfg).Data.head? = some m →
          (BuildListResponse created cfg).FirstID = m.ID)
      ∧ (∀ m, (BuildListResponse created cfg).Data.getLast? = some m →
          (BuildListResponse created cfg).LastID = m.ID)
      ∧ ((BuildListResponse created cfg).Data = [] →
          (BuildListResponse created cfg).FirstID = []
            ∧ (BuildListResponse created cfg).LastID = []) := by
  refine ⟨?_, ?_, ?_, ?_, ?_, ?_⟩
  · rw [BuildListResponse_Data, List.length_map]
  · intro i route hi
    rw [BuildListResponse_Data, List.getElem?_map, hi]
    rfl
  · unfold BuildListResponse
    simp only
    split <;> rfl
  · intro m hm
    rw [BuildListResponse_FirstID, hm]
    rfl
  · intro m hm
    rw [BuildListResponse_LastID, hm]
    rfl
  · intro he
    rw [BuildListResponse_FirstID, BuildListResponse_LastID, he]
    exact ⟨rfl, rfl⟩

/-- C17 on the sample configuration with two routes, and on a configuration
without routes. -/
theorem BuildListResponse_one_entry_per_route_witness :
    (BuildListResponse "2026-01-01T00:00:00Z".toList sampleConfigTwo).Data.getLast?
        = some ⟨"haiku".toList, "model".toList, "haiku".toList, "2026-01-01T00:00:00Z".toList⟩
    ∧ (BuildListResponse "2026-01-01T00:00:00Z".toList sampleConfigTwo).LastID = "haiku".toList
    ∧ BuildListResponse "2026-01-01T00:00:00Z".toList sampleConfigTwo
        = ⟨[⟨"sonnet".toList, "model".toList, "sonnet".toList, "2026-01-01T00:00:00Z".toList⟩,
            ⟨"haiku".toList, "model".toList, "haiku".toList, "2026-01-01T00:00:00Z".toList⟩],
           "sonnet".toList, "haiku".toList, false⟩
    ∧ BuildListResponse "2026-01-01T00:00:00Z".toList ⟨[], [], []⟩ = ⟨[], [], [], false⟩ :=
  ⟨by decide,
   (BuildListResponse_one_entry_per_route "2026-01-01T00:00:00Z".toList sampleConfigTwo).2.2.2.2.1
     ⟨"haiku".toList, "model".toList, "haiku".toList, "2026-01-01T00:00:00Z".toList⟩
     (by decide),
   by decide, by decide⟩

theorem mem_insertString (x z : GoString) (l : List GoString) :
    z ∈ insertString x l ↔ z = x ∨ z ∈ l := by
  induction l with
  | nil => simp [insertString]
  | cons y ys ih =>
    simp only [insertString]
    by_cases h : strLess y x = true
    · rw [if_pos h]
      simp only [List.mem_cons, ih]
      tauto
    · rw [if_neg h]
      simp only [List.mem_cons]

theorem insertString_perm (x : GoString) (l : List GoString) :
    List.Perm (insertString x l) (x :: l) := by
  induction l with
  | nil => exact List.Perm.refl _
  | cons y ys ih =>
    simp only [insertString]
    by_cases h : strLess y x = true
    · rw [if_pos h]
      exact (List.Perm.cons y ih).trans (List.Perm.swap x y ys)
    · rw [if_neg h]

theorem sortStrings_perm (l : List GoString) : List.Perm (sortStrings l) l := by
  induction l with
  | nil => exact List.Perm.refl _
  | cons x xs ih =>
    simp only [sortStrings]
    exact (insertString_perm x _).trans (List.Perm.cons x ih)

theorem insertString_sorted (x : GoString) (l : List GoString)
    (hl : l.Pairwise (fun a b => strLess b a = false)) :
    (insertString x l).Pairwise (fun a b => strLess b a = false) := by
  induction l with
  | nil => simp [insertString]
  | cons y ys ih =>
    rw [List.pairwise_cons] at hl
    simp only [insertString]
    by_cases h : strLess y x = true
    · rw [if_pos h, List.pairwise_cons]
      refine ⟨?_, ih hl.2⟩
      intro z hz
      rcases (mem_insertString x z ys).mp hz with hz | hz
      · rw [hz]; exact strLess_asymm h
      · exact hl.1 z hz
    · rw [if_neg h, List.pairwise_cons]
      have hyx : strLess y x = false := by simpa using h
      refine ⟨?_, List.pairwise_cons.mpr hl⟩
      intro z hz
      rcases List.mem_cons.mp hz with hz | hz
      · rw [hz]; exact hyx
      · have hzy := hl.1 z hz
        cases hzx : strLess z x with
        | false => rfl
        | true =>
          rcases strLess_total x y with hxy | hxy | hxy
          · rw [hxy] at hzx; rw [hzx] at hzy; exact hzy
          · rw [strLess_trans z x y hzx hxy] at hzy; exact hzy
          · rw [hxy] at hyx; exact absurd hyx (by decide)

theorem sortStrings_sorted (l : List GoString) :
    (sortStrings l).Pairwise (fun a b => strLess b a = false) := by
  induction l with
  | nil => simp [sortStrings]
  | cons x xs ih => exact insertString_sorted x _ ih

/-- C18, as the code has it: the ids of `BuildListResponse(cfg).Data` are the
configured names in the order of the route list, a rearrangement of
`ModelNames(cfg)`, which is in ascending order; `first_id` is the first and
`last_id` the last name of the route list. -/
theorem BuildListResponse_ids_in_list_order (created : GoString) (cfg : Config) :
    (BuildListResponse created cfg).Data.map (fun m => m.ID) = cfg.names
      ∧ List.Perm ((BuildListResponse created cfg).Data.map (fun m => m.ID)) (ModelNames cfg)
      ∧ (ModelNames cfg).Pairwise (fun a b => strLess b a = false)
      ∧ (BuildListResponse created cfg).FirstID = cfg.names.head?.getD []
      ∧ (BuildListResponse created cfg).LastID = cfg.names.getLast?.getD [] := by
  have hids : (BuildListResponse created cfg).Data.map (fun m => m.ID) = cfg.names := by
    rw [BuildListResponse_Data, List.map_map]
    rfl
  refine ⟨hids, ?_, sortStrings_sorted _, ?_, ?_⟩
  · rw [hids]
    exact (sortStrings_perm _).symm
  · rw [BuildListResponse_FirstID, ← hids, List.head?_map]
  · rw [BuildListResponse_LastID, ← hids, List.getLast?_map]

/-- C18 as stated fails: on the validated configuration with the routes
`sonnet` and `haiku` in this order the ids are `sonnet`, `haiku` and `first_id`
is `sonnet`, while `ModelNames` is `haiku`, `sonnet`. -/
theorem BuildListResponse_ids_not_sorted :
    (Validate sampleURLLib sampleConfigTwo).2 = none
      ∧ (BuildListResponse "2026-01-01T00:00:00Z".toList
            (Validate sampleURLLib sampleConfigTwo).1).Data.map (fun m => m.ID)
          = ["sonnet".toList, "haiku".toList]
      ∧ ModelNames (Validate sampleURLLib sampleConfigTwo).1
          = ["haiku".toList, "sonnet".toList]
      ∧ (BuildListResponse "2026-01-01T00:00:00Z".toList
            (Validate sampleURLLib sampleConfigTwo).1).Data.map (fun m => m.ID)
          ≠ ModelNames (Validate sampleURLLib sampleConfigTwo).1
      ∧ (BuildListResponse "2026-01-01T00:00:00Z".toList
            (Validate sampleURLLib sampleConfigTwo).1).FirstID = "sonnet".toList
      ∧ (BuildListResponse "2026-01-01T00:00:00Z".toList
            (Validate sampleURLLib sampleConfigTwo).1).LastID = "haiku".toList := by
  decide

/-- C18, as the code has it, on the validated configuration with the routes
`sonnet` and `haiku`: the ids are the names in the order of the route list. -/
theorem BuildListResponse_ids_in_list_order_witness :
    (BuildListResponse "2026-01-01T00:00:00Z".toList
          (Validate sampleURLLib sampleConfigTwo).1).Data.map (fun m => m.ID)
        = (Validate sampleURLLib sampleConfigTwo).1.names
      ∧ (Validate sampleURLLib sampleConfigTwo).1.names = ["sonnet".toList, "haiku".toList] :=
  ⟨(BuildListResponse_ids_in_list_order "2026-01-01T00:00:00Z".toList
      (Validate sampleURLLib sampleConfigTwo).1).1,
   by decide⟩

/-! ### What `Validate` guarantees and what it rejects -/

theorem validateLoop_routes_valid (lib : URLLib) (todo : List ModelRoute) :
    ∀ (i : Nat) (done : List ModelRoute) (index : List (GoString × Nat))
      (ml : List ModelRoute) (idx : List (GoString × Nat)),
      (∀ r ∈ done, r.Valid lib) →
      validateLoop lib i done todo index = (ml, Except.ok idx) →
      ∀ r ∈ ml, r.Valid lib := by
  induction todo with
  | nil =>
    intro i done index ml idx hinv h
    simp only [validateLoop, Prod.mk.injEq, Except.ok.injEq] at h
    rw [← h.1]
    exact hinv
  | cons route todo ih =>
    intro i done index ml idx hinv h
    simp only [validateLoop] at h
    cases hr : validateRoute lib i route index with
    | error e => rw [hr] at h; simp at h
    | ok p =>
      obtain ⟨modelName, authType⟩ := p
      rw [hr] at h
      obtain ⟨hn, hne, _, hm, _, ⟨u, hu, _, hhost, hscheme⟩, hk, _, ha⟩ :=
        validateRoute_ok lib i route index modelName authType hr
      refine ih _ _ _ ml idx ?_ h
      intro r hr
      rw [List.mem_append] at hr
      rcases hr with hr | hr
      · exact hinv r hr
      · simp only [List.mem_singleton] at hr
        rw [hr]
        refine ⟨hne, ?_, hm, hk, ⟨u, hu, hhost, hscheme⟩, ha⟩
        simp only
        rw [hn, TrimSpace_idem]

theorem validateLoop_length (lib : URLLib) (todo : List ModelRoute) :
    ∀ (i : Nat) (done : List ModelRoute) (index : List (GoString × Nat))
      (ml : List ModelRoute) (idx : List (GoString × Nat)),
      validateLoop lib i done todo index = (ml, Except.ok idx) →
      ml.length = done.length + todo.length := by
  induction todo with
  | nil =>
    intro i done index ml idx h
    simp only [validateLoop, Prod.mk.injEq, Except.ok.injEq] at h
    rw [← h.1]
    rfl
  | cons route todo ih =>
    intro i done index ml idx h
    simp only [validateLoop] at h
    cases hr : validateRoute lib i route index with
    | error e => rw [hr] at h; simp at h
    | ok p =>
      obtain ⟨modelName, authType⟩ := p
      rw [hr] at h
      rw [ih _ _ _ ml idx h]
      simp only [List.length_append, List.length_cons, List.length_nil]
      omega

/-- The loop of `Validate` ends in an error when a route still to visit is
rejected by the checks whatever its position and the index. -/
theorem validateLoop_error_of_rejected (lib : URLLib) (r : ModelRoute)
    (hbad : ∀ i index n a, validateRoute lib i r index ≠ Except.ok (n, a))
    (todo : List ModelRoute) (hr : r ∈ todo) :
    ∀ (i : Nat) (done : List ModelRoute) (index : List (GoString × Nat))
      (ml : List ModelRoute) (idx : List (GoString × Nat)),
      validateLoop lib i done todo index ≠ (ml, Except.ok idx) := by
  induction todo with
  | nil => exact absurd hr (List.not_mem_nil r)
  | cons route todo ih =>
    intro i done index ml idx h
    simp only [validateLoop] at h
    cases hv : validateRoute lib i route index with
    | error e => rw [hv] at h; simp at h
    | ok p =>
      obtain ⟨modelName, authType⟩ := p
      rw [hv] at h
      rcases List.mem_cons.mp hr with hr | hr
      · rw [← hr] at hv
        exact hbad _ _ _ _ hv
      · exact ih hr _ _ _ ml idx h

/-- The loop of `Validate` ends in an error when the trimmed name of a route
still to visit is in the index already. -/
theorem validateLoop_error_of_indexed (lib : URLLib) (r : ModelRoute)
    (todo : List ModelRoute) (hr : r ∈ todo) :
    ∀ (i : Nat) (done : List ModelRoute) (index : List (GoString × Nat))
      (ml : List ModelRoute) (idx : List (GoString × Nat)),
      (indexLookup index (TrimSpace r.ModelName)).isSome = true →
      validateLoop lib i done todo index ≠ (ml, Except.ok idx) := by
  induction todo with
  | nil => exact absurd hr (List.not_mem_nil r)
  | cons route todo ih =>
    intro i done index ml idx hin h
    simp only [validateLoop] at h
    cases hv : validateRoute lib i route index with
    | error e => rw [hv] at h; simp at h
    | ok p =>
      obtain ⟨modelName, authType⟩ := p
      rw [hv] at h
      obtain ⟨hn, _, hnone, _⟩ := validateRoute_ok lib i route index modelName authType hv
      rcases List.mem_cons.mp hr with hr | hr
      · rw [hr, ← hn, hnone] at hin
        exact absurd hin (by decide)
      · refine ih hr _ _ _ ml idx ?_ h
        rw [indexLookup_indexStore]
        by_cases hk : modelName = TrimSpace r.ModelName
        · rw [if_pos hk]; rfl
        · rw [if_neg hk]; exact hin

/-- The loop of `Validate` ends in an error when two routes still to visit
have the same name after trimming. -/
theorem validateLoop_error_of_duplicate (lib : URLLib) (todo : List ModelRoute)
    (hdup : ¬ (todo.map (fun r => TrimSpace r.ModelName)).Nodup) :
    ∀ (i : Nat) (done : List ModelRoute) (index : List (GoString × Nat))
      (ml : List ModelRoute) (idx : List (GoString × Nat)),
      validateLoop lib i done todo index ≠ (ml, Except.ok idx) := by
  induction todo with
  | nil => exact absurd List.nodup_nil hdup
  | cons route todo ih =>
    intro i done index ml idx h
    simp only [validateLoop] at h
    cases hv : validateRoute lib i route index with
    | error e => rw [hv] at h; simp at h
    | ok p =>
      obtain ⟨modelName, authType⟩ := p
      rw [hv] at h
      obtain ⟨hn, _, _, _⟩ := validateRoute_ok lib i route index modelName authType hv
      rw [List.map_cons, List.nodup_cons, not_and_or, not_not] at hdup
      rcases hdup with hdup | hdup
      · obtain ⟨r, hr, heq⟩ := List.mem_map.mp hdup
        refine validateLoop_error_of_indexed lib r todo hr _ _ _ ml idx ?_ h
        rw [indexLookup_indexStore, heq, hn, if_pos rfl]
        rfl
      · exact ih hdup _ _ _ ml idx h

theorem Validate_error_of_loop (lib : URLLib) (c : Config)
    (h : ∀ ml idx, validateLoop lib 0 [] c.ModelList [] ≠ (ml, Except.ok idx)) :
    (Validate lib c).2 ≠ none := by
  unfold Validate
  by_cases h0 : c.ModelList.length = 0
  · rw [if_pos h0]; simp
  · rw [if_neg h0]
    rcases hl : validateLoop lib 0 [] c.ModelList [] with ⟨ml, res⟩
    cases res with
    | error e => simp
    | ok idx => exact absurd hl (h ml idx)

theorem Validate_routes_valid (lib : URLLib) (c : Config) (hv : (Validate lib c).2 = none) :
    (Validate lib c).1.ModelList ≠ [] ∧ ∀ r ∈ (Validate lib c).1.ModelList, r.Valid lib := by
  unfold Validate at hv ⊢
  by_cases h0 : c.ModelList.length = 0
  · simp [h0] at hv
  · rw [if_neg h0] at hv ⊢
    rcases hl : validateLoop lib 0 [] c.ModelList [] with ⟨ml, res⟩
    rw [hl] at hv
    cases res with
    | error e => exact absurd hv (by simp)
    | ok idx =>
      refine ⟨?_, validateLoop_routes_valid lib c.ModelList 0 [] [] ml idx
        (by intro r hr; simp at hr) hl⟩
      have hlen := validateLoop_length lib c.ModelList 0 [] [] ml idx hl
      simp only [List.length_nil, Nat.zero_add] at hlen
      intro hnil
      simp only at hnil
      rw [hnil] at hlen
      exact h0 hlen.symm

theorem Validate_names_nodup (lib : URLLib) (c : Config) (hv : (Validate lib c).2 = none) :
    (Validate lib c).1.names.Nodup := by
  obtain ⟨hinv, _⟩ := Validate_index_positions lib c hv
  rw [List.nodup_iff_getElem?_ne_getElem?]
  intro i j hij hj heq
  simp only [Config.names, List.getElem?_map] at heq
  simp only [Config.names, List.length_map] at hj
  have hi : i < (Validate lib c).1.ModelList.length := by omega
  rw [List.getElem?_eq_getElem hi, List.getElem?_eq_getElem hj] at heq
  simp only [Option.map_some', Option.some.injEq] at heq
  have h1 := (hinv _ i).mpr ⟨_, List.getElem?_eq_getElem hi, rfl⟩
  have h2 := (hinv _ j).mpr ⟨_, List.getElem?_eq_getElem hj, rfl⟩
  rw [heq, h2] at h1
  simp only [Option.some.injEq] at h1
  omega

/-- C16, as the code has it: a configuration that `Validate` accepts has
afterwards a model list that is not empty, names that are pairwise distinct,
and routes that are valid (name not empty and trimmed, model id and credential
not blank, base URL parsed with a host and scheme `http` or `https`, auth type
one of the two). Conversely `Validate` returns an error when two names are
equal after trimming, when a base URL parses with another scheme, when a
credential is blank, and when an auth type, trimmed and in lower case, is
neither of the two. -/
theorem Validate_guarantees_and_rejections (lib : URLLib) (c : Config) :
    ((Validate lib c).2 = none →
        (Validate lib c).1.ModelList ≠ []
          ∧ (Validate lib c).1.names.Nodup
          ∧ ∀ r ∈ (Validate lib c).1.ModelList, r.Valid lib)
      ∧ (¬ (c.ModelList.map (fun r => TrimSpace r.ModelName)).Nodup →
          (Validate lib c).2 ≠ none)
      ∧ (∀ r ∈ c.ModelList, ∀ u, lib.Parse r.Params.APIBase = some u →
          u.Scheme ≠ "http".toList → u.Scheme ≠ "https".toList → (Validate lib c).2 ≠ none)
      ∧ (∀ r ∈ c.ModelList, TrimSpace r.Params.APIKey = [] → (Validate lib c).2 ≠ none)
      ∧ (∀ r ∈ c.ModelList, ToLower (TrimSpace r.Params.AuthType) ≠ AuthTypeXAPIKey →
          ToLower (TrimSpace r.Params.AuthType) ≠ AuthTypeBearer →
          (Validate lib c).2 ≠ none) := by
  refine ⟨?_, ?_, ?_, ?_, ?_⟩
  · intro hv
    exact ⟨(Validate_routes_valid lib c hv).1, Validate_names_nodup lib c hv,
      (Validate_routes_valid lib c hv).2⟩
  · intro hdup
    exact Validate_error_of_loop lib c
      (validateLoop_error_of_duplicate lib c.ModelList hdup 0 [] [])
  · intro r hr u hu h1 h2
    refine Validate_error_of_loop lib c
      (validateLoop_error_of_rejected lib r ?_ c.ModelList hr 0 [] [])
    intro i index n a hok
    obtain ⟨_, _, _, _, _, ⟨u2, hu2, _, _, hs⟩, _⟩ := validateRoute_ok lib i r index n a hok
    rw [hu] at hu2
    simp only [Option.some.injEq] at hu2
    rw [← hu2] at hs
    rcases hs with hs | hs
    · exact h1 hs
    · exact h2 hs
  · intro r hr hk
    refine Validate_error_of_loop lib c
      (validateLoop_error_of_rejected lib r ?_ c.ModelList hr 0 [] [])
    intro i index n a hok
    obtain ⟨_, _, _, _, _, _, hk2, _⟩ := validateRoute_ok lib i r index n a hok
    exact hk2 hk
  · intro r hr h1 h2
    refine Validate_error_of_loop lib c
      (validateLoop_error_of_rejected lib r ?_ c.ModelList hr 0 [] [])
    intro i index n a hok
    obtain ⟨_, _, _, _, _, _, _, ha, hs⟩ := validateRoute_ok lib i r index n a hok
    rw [ha] at hs
    rcases hs with hs | hs
    · exact h1 hs
    · exact h2 hs

/-- C16, as the code has it, on the configurations of the repository's tests:
the two-route configuration is accepted and is valid afterwards; the names
`sonnet` and ` sonnet `, the base `ftp://invalid`, the credential of one space
and the auth type `token` are rejected. -/
theorem Validate_guarantees_and_rejections_witness :
    ((Validate tableURLLib sampleConfigTwo).1.ModelList ≠ []
        ∧ (Validate tableURLLib sampleConfigTwo).1.names.Nodup
        ∧ ∀ r ∈ (Validate tableURLLib sampleConfigTwo).1.ModelList, r.Valid tableURLLib)
    ∧ (Validate tableURLLib
        ⟨[], [sampleRoute "sonnet".toList "https://api.example.com".toList "k".toList
                "bearer".toList,
              sampleRoute " sonnet ".toList "https://api.example.com".toList "k".toList
                "bearer".toList], []⟩).2 ≠ none
    ∧ (Validate tableURLLib
        ⟨[], [sampleRoute "sonnet".toList "ftp://invalid".toList "k".toList
                "bearer".toList], []⟩).2 ≠ none
    ∧ (Validate tableURLLib
        ⟨[], [sampleRoute "sonnet".toList "https://api.example.com".toList " ".toList
                "bearer".toList], []⟩).2 ≠ none
    ∧ (Validate tableURLLib
        ⟨[], [sampleRoute "sonnet".toList "https://api.example.com".toList "k".toList
                "token".toList], []⟩).2 ≠ none
    ∧ (Validate tableURLLib
        ⟨[], [sampleRoute "sonnet".toList "ftp://invalid".toList "k".toList
                "bearer".toList], []⟩).2
        = some "model_list[0].params.api_base must use http/https".toList :=
  ⟨(Validate_guarantees_and_rejections tableURLLib sampleConfigTwo).1 (by decide),
   (Validate_guarantees_and_rejections tableURLLib _).2.1 (by decide),
   (Validate_guarantees_and_rejections tableURLLib _).2.2.1
     (sampleRoute "sonnet".toList "ftp://invalid".toList "k".toList "bearer".toList)
     (by simp)
     ⟨"ftp".toList, [], none, "invalid".toList, [], [], false, false, [], [], []⟩
     (by decide) (by decide) (by decide),
   (Validate_guarantees_and_rejections tableURLLib _).2.2.2.1
     (sampleRoute "sonnet".toList "https://api.example.com".toList " ".toList "bearer".toList)
     (by simp) (by decide),
   (Validate_guarantees_and_rejections tableURLLib _).2.2.2.2
     (sampleRoute "sonnet".toList "https://api.example.com".toList "k".toList "token".toList)
     (by simp) (by decide) (by decide),
   by decide⟩

/-- C16 as stated fails: the auth type `Bearer` is neither `x-api-key` nor
`bearer`, yet `Validate` returns no error on a configuration that carries it;
it rewrites the auth type to `bearer`. -/
theorem Validate_accepts_mixed_case_auth_type :
    "Bearer".toList ≠ AuthTypeXAPIKey ∧ "Bearer".toList ≠ AuthTypeBearer
      ∧ (Validate sampleURLLib
          ⟨[], [sampleRoute "sonnet".toList "https://api.example.com".toList "k".toList
                  "Bearer".toList], []⟩).2 = none
      ∧ (Validate sampleURLLib
          ⟨[], [sampleRoute "sonnet".toList "https://api.example.com".toList "k".toList
                  "Bearer".toList], []⟩).1.ModelList
          = [sampleRoute "sonnet".toList "https://api.example.com".toList "k".toList
              "bearer".toList] := by
  decide

/-! ### The upstream URL -/

theorem dropTrailing_append_of (p : Char → Bool) (c : Char) (hc : p c = true) (s : GoString) :
    dropTrailing p (s ++ [c]) = dropTrailing p s := by
  induction s with
  | nil => simp [dropTrailing, hc]
  | cons d ds ih =>
    rw [List.cons_append, dropTrailing, ih, dropTrailing]

theorem dropTrailing_getLast (p : Char → Bool) (s : GoString) (c : Char)
    (h : (dropTrailing p s).getLast? = some c) : p c = false := by
  induction s with
  | nil => simp [dropTrailing] at h
  | cons d ds ih =>
    rw [dropTrailing] at h
    cases hd : dropTrailing p ds with
    | nil =>
      rw [hd] at h
      by_cases hp : p d = true
      · simp [hp] at h
      · simp only [hp, Bool.false_eq_true, if_false, List.getLast?_singleton,
          Option.some.injEq] at h
        rw [← h]
        simpa using hp
    | cons e es =>
      rw [hd] at h ih
      simp only [List.getLast?_cons_cons] at h
      exact ih h

/-- C12, as the code has it: a leading slash on the upstream path changes
nothing; for a base whose parse with a slash appended is its parse with the
slash appended to the path, a trailing slash on the base changes nothing
either; the URL that is serialized has the path made of the base path without
its trailing slashes, one slash, and the upstream path without its leading
slashes, and the given query. -/
theorem BuildUpstreamURL_slash_invariant (lib : URLLib) (b p q : GoString) (u : URL)
    (hb : lib.Parse b = some u)
    (hb2 : lib.Parse (b ++ ['/']) = some { u with Path := u.Path ++ ['/'] }) :
    BuildUpstreamURL lib b p q = BuildUpstreamURL lib b ('/' :: p) q
      ∧ BuildUpstreamURL lib b p q = BuildUpstreamURL lib (b ++ ['/']) p q
      ∧ BuildUpstreamURL lib b p q
          = some (lib.String
              { u with
                Path := dropTrailing (fun c => c = '/') u.Path
                          ++ '/' :: p.dropWhile (fun c => c = '/'),
                RawQuery := q })
      ∧ (dropTrailing (fun c => c = '/') u.Path).getLast? ≠ some '/'
      ∧ (p.dropWhile (fun c => c = '/')).head? ≠ some '/' := by
  refine ⟨?_, ?_, ?_, ?_, ?_⟩
  · unfold BuildUpstreamURL
    rw [hb]
    simp only [List.dropWhile_cons, decide_True, if_true]
  · unfold BuildUpstreamURL
    rw [hb, hb2]
    simp only [dropTrailing_append_of (fun c => decide (c = '/')) '/' (by decide)]
  · unfold BuildUpstreamURL
    rw [hb]
  · intro h
    have := dropTrailing_getLast _ _ _ h
    exact absurd this (by decide)
  · intro h
    cases hd : p.dropWhile (fun c => decide (c = '/')) with
    | nil => rw [hd] at h; simp at h
    | cons c r =>
      rw [hd] at h
      simp only [List.head?_cons, Option.some.injEq] at h
      have := dropWhile_head_not _ _ _ _ hd
      rw [h] at this
      exact absurd this (by decide)

/-- C12 at the inputs of the specification: `https://a/x` with `/v1/messages`
and `https://a/x/` with `v1/messages` both give
`https://a/x/v1/messages?q=1`. -/
theorem BuildUpstreamURL_slash_invariant_witness :
    (BuildUpstreamURL tableURLLib "https://a/x".toList "v1/messages".toList "q=1".toList
        = BuildUpstreamURL tableURLLib "https://a/x".toList ('/' :: "v1/messages".toList)
            "q=1".toList
      ∧ BuildUpstreamURL tableURLLib "https://a/x".toList "v1/messages".toList "q=1".toList
        = BuildUpstreamURL tableURLLib ("https://a/x".toList ++ ['/']) "v1/messages".toList
            "q=1".toList)
    ∧ BuildUpstreamURL tableURLLib "https://a/x".toList "/v1/messages".toList "q=1".toList
        = some "https://a/x/v1/messages?q=1".toList
    ∧ BuildUpstreamURL tableURLLib "https://a/x/".toList "v1/messages".toList "q=1".toList
        = some "https://a/x/v1/messages?q=1".toList :=
  ⟨⟨(BuildUpstreamURL_slash_invariant tableURLLib "https://a/x".toList "v1/messages".toList
        "q=1".toList
        ⟨"https".toList, [], none, "a".toList, "/x".toList, [], false, false, [], [], []⟩
        (by decide) (by decide)).1,
    (BuildUpstreamURL_slash_invariant tableURLLib "https://a/x".toList "v1/messages".toList
        "q=1".toList
        ⟨"https".toList, [], none, "a".toList, "/x".toList, [], false, false, [], [], []⟩
        (by decide) (by decide)).2.1⟩,
   by decide, by decide⟩

/-- C12 as stated fails: the base `mailto:x` parses, as an opaque URL, and has
neither query nor fragment; with it the result is `mailto:x?q=1`, with
`mailto:x/` it is `mailto:x/?q=1`. -/
theorem BuildUpstreamURL_opaque_base_keeps_slash :
    tableURLLib.Parse "mailto:x".toList
        = some ⟨"mailto".toList, "x".toList, none, [], [], [], false, false, [], [], []⟩
      ∧ BuildUpstreamURL tableURLLib "mailto:x".toList "/v1/messages".toList "q=1".toList
          = some "mailto:x?q=1".toList
      ∧ BuildUpstreamURL tableURLLib ("mailto:x".toList ++ "/".toList) "/v1/messages".toList
            "q=1".toList
          = some "mailto:x/?q=1".toList
      ∧ BuildUpstreamURL tableURLLib "mailto:x".toList "/v1/messages".toList "q=1".toList
          ≠ BuildUpstreamURL tableURLLib ("mailto:x".toList ++ "/".toList)
              "/v1/messages".toList "q=1".toList := by
  decide

/-! ### The size of the inbound body -/

/-- A request whose body is read in full and names a routed model is handed to
the HTTP client, whatever the length of the body. -/
theorem proxyJSON_forwards (f64 : Float64Conv) (lib : URLLib) (cfg : Config)
    (client : Client) (w : ResponseWriter) (r : Request) (body : GoString) (payload : JMap)
    (m : GoString) (route : ModelRoute) (url : GoString) (req : UpstreamRequest)
    (hread : ReadAll r.Body = (body, none))
    (hparse : unmarshalMap f64 body = some payload)
    (hmodel : payload.get "model".toList = some (JValue.str m))
    (hnb : TrimSpace m ≠ [])
    (hroute : RouteByModel cfg m = (route, true))
    (hurl : BuildUpstreamURL lib route.Params.APIBase (TrimPrefix r.Path "/anthropic".toList)
        r.RawQuery = some url)
    (hreq : NewRequest lib r.Method url
        (encodeValue (JValue.obj (payload.insert "model".toList (JValue.str route.Params.Model))))
        = some req) :
    ∃ upReq, (proxyJSON f64 lib cfg client w r).upstream = some upReq
      ∧ upReq.Body = req.Body := by
  unfold proxyJSON
  simp only [hread, hparse, hmodel, if_neg hnb, hroute, marshalMap, hurl, hreq]
  split
  · exact ⟨_, rfl, rfl⟩
  · exact ⟨_, rfl, rfl⟩

theorem escapeString_replicate (n : Nat) :
    escapeString (List.replicate n 'a') = List.replicate n 'a' := by
  induction n with
  | zero => rfl
  | succ k ih =>
    rw [List.replicate_succ, escapeString, ih]
    rfl

theorem paddedBody_eq (n : Nat) :
    paddedBody n
      = encodeValue (JValue.obj [("model".toList, JValue.str "sonnet".toList),
          ("pad".toList, JValue.str (List.replicate n 'a'))]) := by
  have h1 : escapeString "model".toList = "model".toList := by decide
  have h2 : escapeString "sonnet".toList = "sonnet".toList := by decide
  have h3 : escapeString "pad".toList = "pad".toList := by decide
  simp only [encodeValue, encodeMembers, encodeString, escapeString_replicate, h1, h2, h3]
  simp [paddedBody]

theorem unmarshalMap_paddedBody (n : Nat) :
    unmarshalMap sampleFloat64 (paddedBody n)
      = some [("model".toList, JValue.str "sonnet".toList),
          ("pad".toList, JValue.str (List.replicate n 'a'))] := by
  rw [paddedBody_eq]
  apply unmarshalMap_marshal
  · simp [numbersMembers, JValue.Numbers]
  · simp only [keysIncreasing, List.map_cons, List.map_nil, List.pairwise_cons,
      List.mem_singleton, forall_eq, List.not_mem_nil, false_implies, implies_true,
      List.Pairwise.nil, and_true]
    decide
  · simp [mapsSortedMembers, JValue.MapsSorted]
  · simp [heightMembers, JValue.height, maxNestingDepth]

/-- C20 fails on the code: no reader in the program limits the inbound body, so
for every `n` the request with the body `{"model":"sonnet","pad":"a...a"}`,
longer than `n` and read in full, is handed to the HTTP client with its whole
padding and answered with the upstream status 200, not with 413. -/
theorem oversized_body_is_forwarded (n : Nat) :
    (paddedBody n).length > n
      ∧ ReadAll (sampleRequest (paddedBody n)).Body = (paddedBody n, none)
      ∧ (∃ upReq,
          (proxyJSON sampleFloat64 sampleURLLib (Validate sampleURLLib sampleConfig).1
            (sampleClient 200 "ok".toList) sampleWriter
            (sampleRequest (paddedBody n))).upstream = some upReq
          ∧ upReq.Body = encodeValue (JValue.obj [("model".toList, JValue.str "glm-4.7".toList),
              ("pad".toList, JValue.str (List.replicate n 'a'))]))
      ∧ (proxyJSON sampleFloat64 sampleURLLib (Validate sampleURLLib sampleConfig).1
            (sampleClient 200 "ok".toList) sampleWriter
            (sampleRequest (paddedBody n))).w.status = some 200
      ∧ (proxyJSON sampleFloat64 sampleURLLib (Validate sampleURLLib sampleConfig).1
            (sampleClient 200 "ok".toList) sampleWriter
            (sampleRequest (paddedBody n))).w.body = "ok".toList := by
  have hfwd := proxyJSON_forwards sampleFloat64 sampleURLLib
    (Validate sampleURLLib sampleConfig).1 (sampleClient 200 "ok".toList) sampleWriter
    (sampleRequest (paddedBody n)) (paddedBody n) _ "sonnet".toList
    ⟨"sonnet".toList,
      ⟨"glm-4.7".toList, "https://api.example.com".toList, "target-key".toList,
       "bearer".toList⟩⟩
    "https://api.example.com/v1/messages".toList
    ⟨"POST".toList, "https://api.example.com/v1/messages".toList, [],
      encodeValue (JValue.obj [("model".toList, JValue.str "glm-4.7".toList),
        ("pad".toList, JValue.str (List.replicate n 'a'))])⟩
    rfl (unmarshalMap_paddedBody n) rfl (by decide) (by decide) rfl rfl
  obtain ⟨upReq, hup, hbody⟩ := hfwd
  refine ⟨?_, rfl, ⟨upReq, hup, hbody⟩, ?_, ?_⟩
  · simp [paddedBody]
    omega
  · rw [proxyJSON_dispatched _ _ _ _ _ _ upReq _ hup rfl]
    have hid : requestIDFromContext (sampleRequest (paddedBody n)) = "req-1".toList := rfl
    rw [hid]
    decide
  · rw [proxyJSON_dispatched _ _ _ _ _ _ upReq _ hup rfl]
    have hid : requestIDFromContext (sampleRequest (paddedBody n)) = "req-1".toList := rfl
    rw [hid]
    decide

/-! ### The correlation id -/

theorem Header.Leads_store_ne (h : Header) (k : GoString) (vs : List GoString) (c : GoString)
    (hk : k ≠ "X-Request-Id".toList) (hl : h.Leads c) : Header.Leads (h.store k vs) c := by
  obtain ⟨rest, hr⟩ := hl
  exact ⟨rest, by rw [Header.lookup_store, if_neg hk]; exact hr⟩

theorem Header.Leads_Set (h : Header) (key value c : GoString)
    (hk : CanonicalMIMEHeaderKey key ≠ "X-Request-Id".toList) (hl : h.Leads c) :
    Header.Leads (h.Set key value) c :=
  Header.Leads_store_ne h _ _ c hk hl

theorem Header.Leads_Add (h : Header) (key value c : GoString) (hl : h.Leads c) :
    Header.Leads (h.Add key value) c := by
  by_cases hk : CanonicalMIMEHeaderKey key = "X-Request-Id".toList
  · obtain ⟨rest, hr⟩ := hl
    refine ⟨rest ++ [value], ?_⟩
    simp only [Header.Add, hk, Header.lookup_store_self, hr, Option.getD_some, List.cons_append]
  · exact Header.Leads_store_ne h _ _ c hk hl

theorem Leads_addValues (k : GoString) (vs : List GoString) (c : GoString) :
    ∀ dst : Header, dst.Leads c → Header.Leads (addValues dst k vs) c := by
  induction vs with
  | nil => intro dst h; exact h
  | cons v vs ih => intro dst h; exact ih _ (Header.Leads_Add dst k v c h)

theorem Leads_copyResponseHeaders (src : Header) (c : GoString) :
    ∀ dst : Header, dst.Leads c → Header.Leads (copyResponseHeaders dst src) c := by
  induction src with
  | nil => intro dst h; exact h
  | cons e t ih =>
    intro dst h
    obtain ⟨k, vs⟩ := e
    simp only [copyResponseHeaders]
    split
    · exact ih dst h
    · split
      · exact ih dst h
      · exact ih _ (Leads_addValues k vs c dst h)

theorem Carries_WriteHeader (w : ResponseWriter) (c : GoString) (s : Int) (h : w.Carries c) :
    (w.WriteHeader s).Carries c := by
  unfold ResponseWriter.WriteHeader
  cases hs : w.sent with
  | some p => exact h
  | none =>
    refine ⟨h.1, ?_⟩
    intro s2 h2 heq
    simp only [Option.some.injEq, Prod.mk.injEq] at heq
    rw [← heq.2]
    exact h.1

theorem Carries_Write (w : ResponseWriter) (c : GoString) (d : GoString) (h : w.Carries c) :
    (w.Write d).1.Carries c := by
  have h1 := Carries_WriteHeader w c 200 h
  unfold ResponseWriter.Write
  simp only
  split
  · exact h1
  · exact h1
  · exact h1

theorem Carries_Flush (w : ResponseWriter) (c : GoString) (h : w.Carries c) :
    w.Flush.Carries c :=
  Carries_WriteHeader w c 200 h

theorem Carries_setHeader (w : ResponseWriter) (c key value : GoString)
    (hk : CanonicalMIMEHeaderKey key ≠ "X-Request-Id".toList) (h : w.Carries c) :
    ResponseWriter.Carries { w with header := w.header.Set key value } c :=
  ⟨Header.Leads_Set _ _ _ _ hk h.1, h.2⟩

theorem Carries_apiWrite (w : ResponseWriter) (c : GoString) (s : Int)
    (ty msg rid : GoString) (h : w.Carries c) : (apiWrite w s ty msg rid).Carries c := by
  unfold apiWrite
  exact Carries_Write _ _ _
    (Carries_WriteHeader _ _ _ (Carries_setHeader w c _ _ (by decide) h))

theorem Carries_ioCopy (body : Reader) (c : GoString) :
    ∀ w : ResponseWriter, w.Carries c → (ioCopy body w).Carries c := by
  induction body with
  | nil => intro w h; exact h
  | cons rd rest ih =>
    intro w h
    obtain ⟨chunk, err⟩ := rd
    have hw := Carries_Write w c chunk h
    simp only [ioCopy]
    split
    · rcases hwr : w.Write chunk with ⟨w1, ok⟩
      rw [hwr] at hw
      cases ok with
      | false => exact hw
      | true =>
        cases err with
        | none => exact ih w1 hw
        | some e => exact hw
    · cases err with
      | none => exact ih w h
      | some e => exact h

theorem Carries_streamLoop (body : Reader) (c : GoString) :
    ∀ w : ResponseWriter, w.Carries c → (streamLoop body w).1.Carries c := by
  induction body with
  | nil => intro w h; exact h
  | cons rd rest ih =>
    intro w h
    obtain ⟨chunk, err⟩ := rd
    have hw := Carries_Write w c chunk h
    simp only [streamLoop]
    split
    · rcases hwr : w.Write chunk with ⟨w1, ok⟩
      rw [hwr] at hw
      cases ok with
      | false => exact hw
      | true =>
        cases err with
        | none => exact ih _ (Carries_Flush w1 c hw)
        | some e => cases e <;> exact Carries_Flush w1 c hw
    · cases err with
      | none => exact ih w h
      | some e => cases e <;> exact h

theorem Carries_streamResponse (w : ResponseWriter) (body : Reader) (c : GoString)
    (h : w.Carries c) : (streamResponse w body).1.Carries c := by
  unfold streamResponse
  split
  · exact Carries_streamLoop body c w h
  · exact Carries_ioCopy body c w h

theorem Carries_relayResponse (f64 : Float64Conv) (w : ResponseWriter)
    (resp : UpstreamResponse) (rid c : GoString) (h : w.Carries c) :
    (relayResponse f64 w resp rid).1.Carries c := by
  have h1 : ResponseWriter.Carries
      { w with header := copyResponseHeaders w.header resp.Header } c :=
    ⟨Leads_copyResponseHeaders _ _ _ h.1, h.2⟩
  unfold relayResponse
  simp only
  split
  · exact Carries_streamResponse _ _ _ (Carries_WriteHeader _ _ _ h1)
  · split
    · exact Carries_apiWrite _ _ _ _ _ _ h1
    · split
      · exact Carries_Write _ _ _
          (Carries_WriteHeader _ _ _ (Carries_setHeader _ c _ _ (by decide) h1))
      · exact Carries_Write _ _ _ (Carries_WriteHeader _ _ _ h1)

theorem handleUpstreamFailure_eq_apiWrite (w : ResponseWriter) (err : TransportError)
    (rid : GoString) :
    ∃ s ty msg, handleUpstreamFailure w err rid = apiWrite w s ty msg rid := by
  unfold handleUpstreamFailure
  split
  · exact ⟨_, _, _, rfl⟩
  · split
    · exact ⟨_, _, _, rfl⟩
    · exact ⟨_, _, _, rfl⟩

/-- What `proxyJSON` leaves on the response writer: an envelope written by
`apierrors.Write` with the request id of the context, or the relay of the
response that the HTTP client returned. -/
theorem proxyJSON_w_cases (f64 : Float64Conv) (lib : URLLib) (cfg : Config)
    (client : Client) (w : ResponseWriter) (r : Request) :
    (∃ s ty msg, (proxyJSON f64 lib cfg client w r).w
        = apiWrite w s ty msg (requestIDFromContext r))
      ∨ ∃ upReq resp, client upReq = Except.ok resp
          ∧ (proxyJSON f64 lib cfg client w r).w
              = (relayResponse f64 w resp (requestIDFromContext r)).1 := by
  unfold proxyJSON
  simp only
  split
  · split <;> exact Or.inl ⟨_, _, _, rfl⟩
  · split
    · exact Or.inl ⟨_, _, _, rfl⟩
    · split
      · split
        · exact Or.inl ⟨_, _, _, rfl⟩
        · split
          · exact Or.inl ⟨_, _, _, rfl⟩
          · split
            · exact Or.inl ⟨_, _, _, rfl⟩
            · split
              · exact Or.inl ⟨_, _, _, rfl⟩
              · split
                · exact Or.inl ⟨_, _, _, rfl⟩
                · split
                  · exact Or.inl (handleUpstreamFailure_eq_apiWrite _ _ _)
                  · rename_i heq
                    exact Or.inr ⟨_, _, heq, rfl⟩
      · exact Or.inl ⟨_, _, _, rfl⟩

theorem Carries_proxyJSON (f64 : Float64Conv) (lib : URLLib) (cfg : Config)
    (client : Client) (w : ResponseWriter) (r : Request) (c : GoString) (h : w.Carries c) :
    (proxyJSON f64 lib cfg client w r).w.Carries c := by
  rcases proxyJSON_w_cases f64 lib cfg client w r with ⟨s, ty, msg, he⟩ | ⟨upReq, resp, _, he⟩
  · rw [he]; exact Carries_apiWrite _ _ _ _ _ _ h
  · rw [he]; exact Carries_relayResponse _ _ _ _ _ h

theorem Carries_writeMethodNotAllowed (w : ResponseWriter) (r : Request) (allow c : GoString)
    (ha : CanonicalMIMEHeaderKey "Allow".toList ≠ "X-Request-Id".toList) (h : w.Carries c) :
    (writeMethodNotAllowed w r allow).Carries c := by
  unfold writeMethodNotAllowed
  exact Carries_apiWrite _ _ _ _ _ _ (Carries_setHeader w c _ _ ha h)

theorem Carries_handler (f64 : Float64Conv) (lib : URLLib) (cfg : Config) (client : Client)
    (created : GoString) (e : Endpoint) (w : ResponseWriter) (r : Request) (c : GoString)
    (h : w.Carries c) : (e.handler f64 lib cfg client created w r).w.Carries c := by
  cases e with
  | healthz =>
    simp only [Endpoint.handler, healthzHandler]
    split
    · exact Carries_WriteHeader _ _ _ h
    · exact Carries_Write _ _ _
        (Carries_WriteHeader _ _ _ (Carries_setHeader w c _ _ (by decide) h))
  | messages =>
    simp only [Endpoint.handler, HandleMessages]
    split
    · exact Carries_writeMethodNotAllowed _ _ _ _ (by decide) h
    · exact Carries_proxyJSON _ _ _ _ _ _ _ h
  | countTokens =>
    simp only [Endpoint.handler, HandleCountTokens]
    split
    · exact Carries_writeMethodNotAllowed _ _ _ _ (by decide) h
    · exact Carries_proxyJSON _ _ _ _ _ _ _ h
  | models =>
    simp only [Endpoint.handler, HandleModels]
    split
    · exact Carries_writeMethodNotAllowed _ _ _ _ (by decide) h
    · have hw := Carries_Write _ c
        (encodeValue (BuildModelsResponse created cfg).toJSON ++ ['\n'])
        (Carries_setHeader w c "Content-Type".toList "application/json".toList (by decide) h)
      split
      · rename_i w2 heq
        rw [heq] at hw
        exact hw
      · rename_i w2 heq
        rw [heq] at hw
        exact Carries_apiWrite _ _ _ _ _ _ hw
  | unsupported =>
    simp only [Endpoint.handler, HandleUnsupported]
    exact Carries_apiWrite _ _ _ _ _ _ h

theorem Leads_Get (h : Header) (c : GoString) (hl : h.Leads c) :
    h.Get "x-request-id".toList = c := by
  obtain ⟨rest, hr⟩ := hl
  have hk : CanonicalMIMEHeaderKey "x-request-id".toList = "X-Request-Id".toList := by decide
  simp only [Header.Get, Header.Values, hk, hr, Option.getD_some, List.headD_cons]

/-- The handler chain leaves the correlation id as the first value of
`X-Request-Id`, in the header map and in the header sent. -/
theorem gatewayHandler_carries (f64 : Float64Conv) (lib : URLLib) (cfg : Config)
    (client : Client) (created generated : GoString) (e : Endpoint) (w : ResponseWriter)
    (r : Request) (hs : w.sent = none) :
    (gatewayHandler f64 lib cfg client created generated e w r).w.Carries
      (correlationID generated r) := by
  have hk : CanonicalMIMEHeaderKey "x-request-id".toList = "X-Request-Id".toList := by decide
  have h0 : ResponseWriter.Carries
      { w with
        header := w.header.Set "x-request-id".toList (correlationID generated r),
        flusher := true } (correlationID generated r) := by
    refine ⟨⟨[], ?_⟩, ?_⟩
    · simp only [Header.Set, hk, Header.lookup_store_self]
    · intro s h hsent
      simp only [hs] at hsent
      exact Option.noConfusion hsent
  have h1 := Carries_handler f64 lib cfg client created e _
    { r with RequestID := some (correlationID generated r) } _ h0
  exact ⟨h1.1, h1.2⟩

theorem writtenBytes_filter_flush (l : List WriterEvent) :
    writtenBytes (l.filter (fun e => e ≠ WriterEvent.flush)) = writtenBytes l := by
  induction l with
  | nil => rfl
  | cons e r ih =>
    cases e with
    | write d => rw [List.filter_cons_of_pos (by simp), writtenBytes, writtenBytes, ih]
    | flush => rw [List.filter_cons_of_neg (by simp), writtenBytes, ih]

theorem withLogging_body (next : HandlerFunc) (w : ResponseWriter) (r : Request) :
    (withLogging next w r).w.body = (next { w with flusher := true } r).w.body := by
  simp only [withLogging, ResponseWriter.body]
  split
  · rfl
  · exact writtenBytes_filter_flush _

theorem WriteHeader_Write_body (w : ResponseWriter) (hw : w.Fresh) (s : Int) (d : GoString) :
    ((w.WriteHeader s).Write d).1.body = d := by
  obtain ⟨h1, h2, h3⟩ := hw
  simp only [ResponseWriter.WriteHeader, ResponseWriter.Write, h1, ResponseWriter.body]
  split
  · simp [h2, writtenBytes]
  · rename_i h; exact absurd h h3
  · simp [h2, writtenBytes]

/-- The body `relayResponse` writes on a fresh writer: an envelope made by the
gateway with the given request id, or what the upstream sent. -/
theorem relayResponse_body_cases (f64 : Float64Conv) (w : ResponseWriter)
    (resp : UpstreamResponse) (rid : GoString) (hw : w.Fresh) :
    (∃ ty msg, (relayResponse f64 w resp rid).1.body = Marshal ty msg rid)
      ∨ isEventStream resp.Header = true
      ∨ ∃ b, ReadAll resp.Body = (b, none)
          ∧ (resp.StatusCode < 400 ∨ IsAnthropicErrorPayload b = true)
          ∧ (relayResponse f64 w resp rid).1.body = b := by
  have hw1 : ResponseWriter.Fresh
      { w with header := copyResponseHeaders w.header resp.Header } := hw
  by_cases hstream : isEventStream resp.Header = true
  · exact Or.inr (Or.inl hstream)
  · unfold relayResponse
    simp only [hstream, Bool.false_eq_true, if_false]
    rcases hread : ReadAll resp.Body with ⟨b, err⟩
    cases err with
    | some e =>
      simp only
      exact Or.inl ⟨_, _, apiWrite_body _ hw1 _ _ _ _⟩
    | none =>
      simp only
      by_cases hst : resp.StatusCode ≥ 400
      · rw [if_pos hst]
        have hw2 : ResponseWriter.Fresh
            { w with
              header := (copyResponseHeaders w.header resp.Header).Set
                "Content-Type".toList "application/json".toList } := hw
        cases hc : IsAnthropicErrorPayload b with
        | true =>
          refine Or.inr (Or.inr ⟨b, rfl, Or.inr hc, ?_⟩)
          have hn : NormalizeUpstreamError f64 resp.StatusCode b rid = b := by
            unfold NormalizeUpstreamError
            rw [if_pos hc]
          rw [hn]
          exact WriteHeader_Write_body _ hw2 resp.StatusCode b
        | false =>
          refine Or.inl ⟨errorTypeFor resp.StatusCode, specMessage f64 resp.StatusCode b, ?_⟩
          rw [NormalizeUpstreamError_synthesized f64 _ b rid hc]
          exact WriteHeader_Write_body _ hw2 resp.StatusCode _
      · rw [if_neg hst]
        refine Or.inr (Or.inr ⟨b, rfl, Or.inl (by omega), ?_⟩)
        exact WriteHeader_Write_body _ hw1 resp.StatusCode b

theorem proxyJSON_body_cases (f64 : Float64Conv) (lib : URLLib) (cfg : Config)
    (client : Client) (w : ResponseWriter) (r : Request) (hw : w.Fresh) :
    (∃ ty msg, (proxyJSON f64 lib cfg client w r).w.body
        = Marshal ty msg (requestIDFromContext r))
      ∨ RelaysUpstream client (proxyJSON f64 lib cfg client w r).w.body := by
  rcases proxyJSON_w_cases f64 lib cfg client w r with ⟨s, ty, msg, he⟩ | ⟨upReq, resp, hc, he⟩
  · rw [he]
    exact Or.inl ⟨ty, msg, apiWrite_body w hw _ _ _ _⟩
  · rw [he]
    rcases relayResponse_body_cases f64 w resp (requestIDFromContext r) hw with
      ⟨ty, msg, h⟩ | h | ⟨b, h1, h2, h3⟩
    · exact Or.inl ⟨ty, msg, h⟩
    · exact Or.inr ⟨upReq, resp, hc, Or.inl h⟩
    · exact Or.inr ⟨upReq, resp, hc, Or.inr ⟨b, h1, h2, h3⟩⟩

theorem generateRequestID_ne_nil (next rnd : Nat) : generateRequestID next rnd ≠ [] := by
  unfold generateRequestID
  simp

theorem correlationID_ne_nil (generated : GoString) (r : Request) (hg : generated ≠ []) :
    correlationID generated r ≠ [] := by
  unfold correlationID
  split
  · exact hg
  · rename_i h; exact h

theorem writeMethodNotAllowed_body (w : ResponseWriter) (hw : w.Fresh) (r : Request)
    (allow : GoString) :
    (writeMethodNotAllowed w r allow).body
      = Marshal "invalid_request_error".toList "method not allowed".toList
          (requestIDFromContext r) := by
  unfold writeMethodNotAllowed
  have hw1 : ResponseWriter.Fresh { w with header := w.header.Set "Allow".toList allow } := hw
  exact apiWrite_body _ hw1 _ _ _ _

/-- The body a registered handler writes on a fresh writer: an envelope made
by the gateway with the request id of the context, or the answer of the health
check, or the model list, or what the upstream sent. -/
theorem handler_body_cases (f64 : Float64Conv) (lib : URLLib) (cfg : Config)
    (client : Client) (created : GoString) (e : Endpoint) (w : ResponseWriter) (r : Request)
    (hw : w.Fresh) :
    (∃ ty msg, (e.handler f64 lib cfg client created w r).w.body
        = Marshal ty msg (requestIDFromContext r))
      ∨ e = Endpoint.healthz
      ∨ (e = Endpoint.models ∧ r.Method = "GET".toList)
      ∨ RelaysUpstream client (e.handler f64 lib cfg client created w r).w.body := by
  cases e with
  | healthz => exact Or.inr (Or.inl rfl)
  | messages =>
    simp only [Endpoint.handler, HandleMessages]
    split
    · exact Or.inl ⟨_, _, writeMethodNotAllowed_body w hw r _⟩
    · rcases proxyJSON_body_cases f64 lib cfg client w r hw with h | h
      · exact Or.inl h
      · exact Or.inr (Or.inr (Or.inr h))
  | countTokens =>
    simp only [Endpoint.handler, HandleCountTokens]
    split
    · exact Or.inl ⟨_, _, writeMethodNotAllowed_body w hw r _⟩
    · rcases proxyJSON_body_cases f64 lib cfg client w r hw with h | h
      · exact Or.inl h
      · exact Or.inr (Or.inr (Or.inr h))
  | models =>
    by_cases hm : r.Method = "GET".toList
    · exact Or.inr (Or.inr (Or.inl ⟨rfl, hm⟩))
    · simp only [Endpoint.handler, HandleModels, ne_eq, hm, not_false_eq_true, if_true]
      exact Or.inl ⟨_, _, writeMethodNotAllowed_body w hw r _⟩
  | unsupported =>
    simp only [Endpoint.handler, HandleUnsupported]
    exact Or.inl ⟨_, _, apiWrite_body w hw _ _ _ _⟩

/-- C19, as the code has it: with the correlation id `c` the trimmed inbound
`x-request-id` value when that is not empty and the generated id otherwise, `c`
is not empty; the response of every registered handler carries `c` as the
first value of `x-request-id`, in the header map and in the header sent; every
envelope `Marshal` makes with `c` reads back with `request_id` equal to `c`;
and the body of the response is such an envelope unless it is the answer of
the health check, the model list, or what the upstream sent (a stream, a body
with status below 400, or a canonical envelope returned as it is). -/
theorem response_carries_correlation_id (f64 : Float64Conv) (lib : URLLib) (cfg : Config)
    (client : Client) (created : GoString) (next rnd : Nat) (e : Endpoint)
    (w : ResponseWriter) (r : Request) (hw : w.Fresh) :
    correlationID (generateRequestID next rnd) r ≠ []
      ∧ (gatewayHandler f64 lib cfg client created (generateRequestID next rnd) e w r).w.header.Get
            "x-request-id".toList
          = correlationID (generateRequestID next rnd) r
      ∧ (∀ s h,
          (gatewayHandler f64 lib cfg client created (generateRequestID next rnd) e w r).w.sent
            = some (s, h) →
          h.Get "x-request-id".toList = correlationID (generateRequestID next rnd) r)
      ∧ (∀ ty msg, ∃ env,
          unmarshalEnvelope (Marshal ty msg (correlationID (generateRequestID next rnd) r))
            = some env
          ∧ env.RequestID = correlationID (generateRequestID next rnd) r)
      ∧ ((∃ ty msg,
            (gatewayHandler f64 lib cfg client created (generateRequestID next rnd) e w r).w.body
              = Marshal ty msg (correlationID (generateRequestID next rnd) r))
          ∨ e = Endpoint.healthz
          ∨ (e = Endpoint.models ∧ r.Method = "GET".toList)
          ∨ RelaysUpstream client
              (gatewayHandler f64 lib cfg client created (generateRequestID next rnd)
                e w r).w.body) := by
  have hc := gatewayHandler_carries f64 lib cfg client created (generateRequestID next rnd)
    e w r hw.1
  refine ⟨correlationID_ne_nil _ r (generateRequestID_ne_nil next rnd),
    Leads_Get _ _ hc.1, fun s h hs => Leads_Get _ _ (hc.2 s h hs), ?_, ?_⟩
  · intro ty msg
    refine ⟨MarshalPayload ty msg (correlationID (generateRequestID next rnd) r), ?_, rfl⟩
    rw [Marshal_eq]
    exact unmarshalEnvelope_encode _
  · have hw2 : ResponseWriter.Fresh
        { w with
          header := w.header.Set "x-request-id".toList
            (correlationID (generateRequestID next rnd) r),
          flusher := true } := hw
    have hb : (gatewayHandler f64 lib cfg client created (generateRequestID next rnd)
          e w r).w.body
        = (e.handler f64 lib cfg client created
            { w with
              header := w.header.Set "x-request-id".toList
                (correlationID (generateRequestID next rnd) r),
              flusher := true }
            { r with RequestID := some (correlationID (generateRequestID next rnd) r) }).w.body :=
      withLogging_body _ _ _
    rw [hb]
    exact handler_body_cases f64 lib cfg client created e _
      { r with RequestID := some (correlationID (generateRequestID next rnd) r) } hw2

/-- C19, as the code has it, for the request with `x-request-id: req-7` against
an upstream that answers 502 with the text `backend failure`: the response
carries `req-7` and its body is the envelope with `request_id` equal to
`req-7`. -/
theorem response_carries_correlation_id_witness :
    blankWriter.Fresh
    ∧ (gatewayHandler sampleFloat64 sampleURLLib (Validate sampleURLLib sampleConfig).1
          (sampleClient 502 "backend failure".toList) "2026-01-01T00:00:00Z".toList
          (generateRequestID 1 35) Endpoint.messages blankWriter
          (sampleInbound [("X-Request-Id".toList, ["req-7".toList])]
            "\x7b\"model\":\"sonnet\"\x7d".toList)).w.header.Get "x-request-id".toList
        = correlationID (generateRequestID 1 35)
            (sampleInbound [("X-Request-Id".toList, ["req-7".toList])]
              "\x7b\"model\":\"sonnet\"\x7d".toList)
    ∧ correlationID (generateRequestID 1 35)
          (sampleInbound [("X-Request-Id".toList, ["req-7".toList])]
            "\x7b\"model\":\"sonnet\"\x7d".toList)
        = "req-7".toList
    ∧ correlationID (generateRequestID 1 35) (sampleInbound [] []) = "req-1-z".toList
    ∧ (gatewayHandler sampleFloat64 sampleURLLib (Validate sampleURLLib sampleConfig).1
          (sampleClient 502 "backend failure".toList) "2026-01-01T00:00:00Z".toList
          (generateRequestID 1 35) Endpoint.messages blankWriter
          (sampleInbound [("X-Request-Id".toList, ["req-7".toList])]
            "\x7b\"model\":\"sonnet\"\x7d".toList)).w.body
        = encodeValue (Envelope.toJSON
            ⟨"error".toList, ⟨"api_error".toList, "backend failure".toList⟩,
             "req-7".toList⟩) :=
  ⟨⟨rfl, rfl, by decide⟩,
   (response_carries_correlation_id sampleFloat64 sampleURLLib
      (Validate sampleURLLib sampleConfig).1 (sampleClient 502 "backend failure".toList)
      "2026-01-01T00:00:00Z".toList 1 35 Endpoint.messages blankWriter
      (sampleInbound [("X-Request-Id".toList, ["req-7".toList])]
        "\x7b\"model\":\"sonnet\"\x7d".toList)
      ⟨rfl, rfl, by decide⟩).2.1,
   by decide, by decide, by decide⟩

/-- C19 as stated fails: with the inbound `x-request-id` value `req-7` and an
upstream that answers 400 with a canonical envelope without request id, the
response carries `req-7` in its header and the envelope returned as body has an
empty `request_id`; and the inbound value ` req-7 ` is echoed as `req-7`. -/
theorem canonical_upstream_error_keeps_its_request_id :
    ((gatewayHandler sampleFloat64 sampleURLLib (Validate sampleURLLib sampleConfig).1
        (sampleClient 400
          ("\x7b\"type\":\"error\",\"error\":\x7b\"type\":\"invalid_request_error\"," ++
            "\"message\":\"bad\"\x7d\x7d").toList)
        "2026-01-01T00:00:00Z".toList (generateRequestID 1 35) Endpoint.messages blankWriter
        (sampleInbound [("X-Request-Id".toList, ["req-7".toList])]
          "\x7b\"model\":\"sonnet\"\x7d".toList)).w.sentHeader.Get "x-request-id".toList
      = "req-7".toList
    ∧ (gatewayHandler sampleFloat64 sampleURLLib (Validate sampleURLLib sampleConfig).1
        (sampleClient 400
          ("\x7b\"type\":\"error\",\"error\":\x7b\"type\":\"invalid_request_error\"," ++
            "\"message\":\"bad\"\x7d\x7d").toList)
        "2026-01-01T00:00:00Z".toList (generateRequestID 1 35) Endpoint.messages blankWriter
        (sampleInbound [("X-Request-Id".toList, ["req-7".toList])]
          "\x7b\"model\":\"sonnet\"\x7d".toList)).w.status = some 400
    ∧ unmarshalEnvelope
        (gatewayHandler sampleFloat64 sampleURLLib (Validate sampleURLLib sampleConfig).1
          (sampleClient 400
            ("\x7b\"type\":\"error\",\"error\":\x7b\"type\":\"invalid_request_error\"," ++
              "\"message\":\"bad\"\x7d\x7d").toList)
          "2026-01-01T00:00:00Z".toList (generateRequestID 1 35) Endpoint.messages blankWriter
          (sampleInbound [("X-Request-Id".toList, ["req-7".toList])]
            "\x7b\"model\":\"sonnet\"\x7d".toList)).w.body
      = some ⟨"error".toList, ⟨"invalid_request_error".toList, "bad".toList⟩, []⟩
    ∧ ([] : GoString) ≠ "req-7".toList)
    ∧ (gatewayHandler sampleFloat64 sampleURLLib (Validate sampleURLLib sampleConfig).1
        (sampleClient 200 "ok".toList)
        "2026-01-01T00:00:00Z".toList (generateRequestID 1 35) Endpoint.messages blankWriter
        (sampleInbound [("X-Request-Id".toList, [" req-7 ".toList])]
          "\x7b\"model\":\"sonnet\"\x7d".toList)).w.sentHeader.Get "x-request-id".toList
      = "req-7".toList
    ∧ " req-7 ".toList ≠ "req-7".toList := by
  decide

/-! ### Numbers beyond `float64` precision in the payload -/

/-- C3 as stated fails: the body `{"model":"sonnet","n":12345678901234567890}`
parses as an object whose `model` resolves to the route `sonnet`, the client
sent the number `12345678901234567890` under `n`, and the body sent upstream is
`{"model":"glm-4.7","n":12345678901234567000}`, whose value under `n` is
another number. -/
theorem upstream_body_rounds_large_number :
    parseJSON "\x7b\"model\":\"sonnet\",\"n\":12345678901234567890\x7d".toList
        = some (JValue.obj [("model".toList, JValue.str "sonnet".toList),
            ("n".toList, JValue.num "12345678901234567890".toList)])
      ∧ (RouteByModel (Validate sampleURLLib sampleConfig).1 "sonnet".toList).2 = true
      ∧ (proxyJSON wideFloat64 sampleURLLib (Validate sampleURLLib sampleConfig).1
            (sampleClient 200 "ok".toList) sampleWriter
            (sampleRequest
              "\x7b\"model\":\"sonnet\",\"n\":12345678901234567890\x7d".toList)).upstream
          = some ⟨"POST".toList, "https://api.example.com/v1/messages".toList,
              [("Content-Type".toList, ["application/json".toList]),
               ("Authorization".toList, ["Bearer target-key".toList])],
              "\x7b\"model\":\"glm-4.7\",\"n\":12345678901234567000\x7d".toList⟩
      ∧ parseJSON "\x7b\"model\":\"glm-4.7\",\"n\":12345678901234567000\x7d".toList
          = some (JValue.obj [("model".toList, JValue.str "glm-4.7".toList),
              ("n".toList, JValue.num "12345678901234567000".toList)])
      ∧ "12345678901234567000".toList ≠ "12345678901234567890".toList := by
  refine ⟨by rfl, by decide, by rfl, by rfl, by decide⟩

end Gateway
